import Mathlib

/-!
# ot-br-posix: the border router agent

A shallow embedding of `src/agent/advertising_proxy.cpp` (name splitting,
dispatch of SRP host updates to the mDNS publisher, correlation of publisher
completions), of `src/common/task_runner.cpp` (posting and popping of tasks,
registration of the wakeup descriptor) and of the timer queue, the mainloop
timeout and the listeners of `src/agent/thread_controller.cpp`, together with
the properties proved about them.  The definitions come first, the lemmas and
theorems follow.

Conventions of the embedding:

* `std::string` and C strings are `List Char`; `std::string::npos` is `none`.
* `uint32_t` arithmetic is arithmetic on `Nat` reduced modulo `2 ^ 32`.
* Out-parameters that are written only on success become the payload of
  `Except.ok`; the returned `otbrError` of a failing call is the payload of
  `Except.error`.
* The collaborators (`Mdns::Publisher`, the OpenThread SRP server) are
  represented by an oracle for the publisher and by traces of the calls made
  to either of them.
* A task (`std::function<void(void)>`) is named by a number; what it does when
  it is called is given by a table of steps, which may depend on the state in
  which the task is called.
* A loop whose number of iterations is not bounded by its input takes a bound
  on the iterations and tells whether it has been left within the bound.
-/

namespace otbr

/-! ## Error codes -/

/-- Modelled from the spec: the enumeration `otbrError` is declared in
`common/types.hpp`, which is not part of the sources at hand.  The six
enumerators named by `OtbrErrorToOtError` are kept by name; `OTHER n` stands
for any further enumerator (`OTBR_ERROR_ERRNO`, `OTBR_ERROR_MDNS`, ...), the
codes "outside this taxonomy". -/
inductive otbrError where
  | OTBR_ERROR_NONE
  | OTBR_ERROR_NOT_FOUND
  | OTBR_ERROR_PARSE
  | OTBR_ERROR_NOT_IMPLEMENTED
  | OTBR_ERROR_INVALID_ARGS
  | OTBR_ERROR_DUPLICATED
  | OTHER (n : Nat)
  deriving DecidableEq, Repr

/-- Modelled from the spec: the enumeration `otError` belongs to the
OpenThread headers, which are not part of the sources at hand.  The seven
enumerators used by `OtbrErrorToOtError` are kept by name.  `RAW e` is the
value produced by `static_cast<otError>(e)` for an `otbrError` `e` other than
`OTBR_ERROR_NONE`: the integer of `e` reinterpreted, which is none of the
named enumerators and is different from `OT_ERROR_NONE` (both `NONE`
enumerators are the integer zero, the success value). -/
inductive otError where
  | OT_ERROR_NONE
  | OT_ERROR_NOT_FOUND
  | OT_ERROR_PARSE
  | OT_ERROR_NOT_IMPLEMENTED
  | OT_ERROR_INVALID_ARGS
  | OT_ERROR_DUPLICATED
  | OT_ERROR_FAILED
  | RAW (e : otbrError)
  deriving DecidableEq, Repr

open otbrError otError

/-- The function `OtbrErrorToOtError` of `advertising_proxy.cpp`. -/
def OtbrErrorToOtError (aError : otbrError) : otError :=
  match aError with
  | OTBR_ERROR_NONE => OT_ERROR_NONE
  | OTBR_ERROR_NOT_FOUND => OT_ERROR_NOT_FOUND
  | OTBR_ERROR_PARSE => OT_ERROR_PARSE
  | OTBR_ERROR_NOT_IMPLEMENTED => OT_ERROR_NOT_IMPLEMENTED
  | OTBR_ERROR_INVALID_ARGS => OT_ERROR_INVALID_ARGS
  | OTBR_ERROR_DUPLICATED => OT_ERROR_DUPLICATED
  | OTHER _ => OT_ERROR_FAILED

/-- The conversion `static_cast<otError>(aError)` used by `PublishHostHandler`:
zero stays zero, any other code is carried over unconverted. -/
def staticCastOtError (aError : otbrError) : otError :=
  match aError with
  | OTBR_ERROR_NONE => OT_ERROR_NONE
  | e => RAW e

/-! ## Strings -/

/-- Scan of `std::string::find_first_of`: `i` is the index of the head of the
list that is still to be inspected. -/
def findFrom (ch : Char) : List Char → Nat → Option Nat
  | [], _ => none
  | c :: cs, i => if c = ch then some i else findFrom ch cs (i + 1)

/-- The call `s.find_first_of(ch, pos)`; `none` is `std::string::npos`. -/
def find_first_of (s : List Char) (ch : Char) (pos : Nat) : Option Nat :=
  findFrom ch (s.drop pos) pos

/-- The call `s.substr(pos, len)` for `pos ≤ s.size()` (every call site below
satisfies this bound, see `find_first_of_lt`): at most `len` characters
starting at index `pos`. -/
def substr (s : List Char) (pos len : Nat) : List Char :=
  (s.drop pos).take len

/-- The function `SplitFullServiceName` of `advertising_proxy.cpp`.  The three
components of the result are `aInstanceName`, `aType` and `aDomain`. -/
def SplitFullServiceName (aFullName : List Char) :
    Except otbrError (List Char × List Char × List Char) :=
  match find_first_of aFullName '.' 0 with
  | none => .error OTBR_ERROR_INVALID_ARGS
  | some d0 =>
    match find_first_of aFullName '.' (d0 + 1) with
    | none => .error OTBR_ERROR_INVALID_ARGS
    | some d1 =>
      match find_first_of aFullName '.' (d1 + 1) with
      | none => .error OTBR_ERROR_INVALID_ARGS
      | some d2 =>
        .ok (substr aFullName 0 d0,
             substr aFullName (d0 + 1) (d2 - d0 - 1),
             substr aFullName (d2 + 1) (aFullName.length - d2 - 1))

/-- The function `SplitFullHostName` of `advertising_proxy.cpp`.  The two
components of the result are `aInstanceName` and `aDomain`. -/
def SplitFullHostName (aFullName : List Char) :
    Except otbrError (List Char × List Char) :=
  match find_first_of aFullName '.' 0 with
  | none => .error OTBR_ERROR_INVALID_ARGS
  | some dotPos =>
    .ok (substr aFullName 0 dotPos,
         substr aFullName (dotPos + 1) (aFullName.length - dotPos - 1))

/-! ## Data of the advertising proxy -/

/-- An IPv6 address, `otIp6Address`: the bytes `mFields.m8`. -/
structure otIp6Address where
  m8 : List Nat
  deriving DecidableEq

/-- A service of a host, `otSrpServerService`: the members read by the proxy.
The `mNext` chain of the services of a host is the list `mServices` below. -/
structure otSrpServerService where
  mFullName : List Char
  mPort : Nat
  mIsDeleted : Bool
  deriving DecidableEq

/-- Modelled from the spec: `otSrpServerHost` is an opaque OpenThread type,
read through `otSrpServerHostGetFullName`, `otSrpServerHostGetAddresses` and
`otSrpServerHostGetServices`; the record holds what these three accessors
return.  A `const otSrpServerHost *` is represented by the host it points to. -/
structure otSrpServerHost where
  mFullName : List Char
  mAddresses : List otIp6Address
  mServices : List otSrpServerService
  deriving DecidableEq

/-- The structure `AdvertisingProxy::OutstandingUpdate`; `mCount` is a
`uint32_t`. -/
structure OutstandingUpdate where
  mHost : otSrpServerHost
  mCount : Nat
  deriving DecidableEq

/-- The type `Mdns::Publisher::TxtList`. -/
abbrev TxtList := List (List Char × List Nat)

/-- The four operations of `Mdns::Publisher` that the proxy calls, with their
arguments. -/
inductive PublisherCall where
  | PublishHost (aName : List Char) (aAddress : otIp6Address)
  | UnpublishHost (aName : List Char)
  | PublishService (aHostName : List Char) (aPort : Nat) (aName aType : List Char)
      (aTxtList : TxtList)
  | UnpublishService (aName aType : List Char)
  deriving DecidableEq

/-- An invocation by the publisher of one of the two handlers registered in
`AdvertisingProxy::Start`: `PublishHostHandler(aName, aError)` or
`PublishServiceHandler(aName, aType, aError)`. -/
inductive Completion where
  | host (aName : List Char) (aError : otbrError)
  | service (aName aType : List Char) (aError : otbrError)
  deriving DecidableEq

/-- What a publisher operation does before it returns: the handler
invocations it makes synchronously, in order, and the `otbrError` it
returns. -/
structure PublisherReply where
  completions : List Completion
  result : otbrError
  deriving DecidableEq

/-- Modelled from the spec: `Mdns::Publisher` is a collaborator whose code is
not part of the sources at hand.  It is an arbitrary oracle: given the calls
made to it so far, with their replies, and the present call, it yields the
reply to the present call. -/
abbrev Publisher := List (PublisherCall × PublisherReply) → PublisherCall → PublisherReply

/-- The state of an `AdvertisingProxy`.  `mOutstandingUpdates` is the member of
the class.  The other three fields are traces that make the effects on the
collaborators observable: the calls made to `mPublisher` with their replies,
the calls of `otSrpServerHandleAdvertisingResult` (host, result), and a flag
that is raised when an operation without defined behaviour is executed
(`back()` of an empty string, `pop_back()` of an empty vector); once the flag
is raised the execution is stopped and the state is frozen. -/
structure AdvertisingProxy where
  mOutstandingUpdates : List OutstandingUpdate
  publisherTrace : List (PublisherCall × PublisherReply)
  stackResults : List (otSrpServerHost × otError)
  undefinedBehaviour : Bool
  deriving DecidableEq

/-- The statement `--update->mCount` on a `uint32_t`. -/
def decrementCount (aCount : Nat) : Nat :=
  (aCount + 2 ^ 32 - 1) % 2 ^ 32

/-- Outcome of the inner loop of `PublishServiceHandler` over the services of
one outstanding update. -/
inductive ServiceScan where
  | found
  | notFound
  | failed (error : otbrError)
  deriving DecidableEq

/-- The inner loop of `PublishServiceHandler`: the services of one host are
split in order; a split error leaves both loops (`SuccessOrExit`), the first
service with equal instance name and type is a match. -/
def scanServices (aName normType : List Char) : List otSrpServerService → ServiceScan
  | [] => .notFound
  | service :: rest =>
    match SplitFullServiceName service.mFullName with
    | .error e => .failed e
    | .ok (instanceName, type, _) =>
      if aName = instanceName ∧ normType = type then .found
      else scanServices aName normType rest

/-- The outer loop of `PublishServiceHandler` over `mOutstandingUpdates`: the
new vector and the results handed to `otSrpServerHandleAdvertisingResult`. -/
def serviceUpdates (aName normType : List Char) (aError : otbrError) :
    List OutstandingUpdate → List OutstandingUpdate × List (otSrpServerHost × otError)
  | [] => ([], [])
  | update :: rest =>
    match scanServices aName normType update.mHost.mServices with
    | .failed _ => (update :: rest, [])
    | .found =>
      if aError ≠ OTBR_ERROR_NONE ∨ update.mCount = 1 then
        (rest, [(update.mHost, OtbrErrorToOtError aError)])
      else
        ({ update with mCount := decrementCount update.mCount } :: rest, [])
    | .notFound =>
      let r := serviceUpdates aName normType aError rest
      (update :: r.1, r.2)

/-- The loop of `PublishHostHandler` over `mOutstandingUpdates`: the new vector
and the results handed to `otSrpServerHandleAdvertisingResult`. -/
def hostUpdates (aName : List Char) (aError : otbrError) :
    List OutstandingUpdate → List OutstandingUpdate × List (otSrpServerHost × otError)
  | [] => ([], [])
  | update :: rest =>
    match SplitFullHostName update.mHost.mFullName with
    | .error _ => (update :: rest, [])
    | .ok (instanceName, _) =>
      if aName = instanceName then
        if aError ≠ OTBR_ERROR_NONE ∨ update.mCount = 1 then
          (rest, [(update.mHost, staticCastOtError aError)])
        else
          ({ update with mCount := decrementCount update.mCount } :: rest, [])
      else
        let r := hostUpdates aName aError rest
        (update :: r.1, r.2)

/-- The first statements of `PublishServiceHandler`: `normType = aType`, and
`normType.pop_back()` if `normType.back() == '.'`.  The call `back()` on an
empty string has no defined behaviour: the result is `none`. -/
def normalizeType (aType : List Char) : Option (List Char) :=
  match aType.getLast? with
  | none => none
  | some last => some (if last = '.' then aType.dropLast else aType)

namespace AdvertisingProxy

/-- The method `AdvertisingProxy::PublishServiceHandler`. -/
def PublishServiceHandler (self : AdvertisingProxy) (aName aType : List Char)
    (aError : otbrError) : AdvertisingProxy :=
  if self.undefinedBehaviour then self
  else
    match normalizeType aType with
    | none => { self with undefinedBehaviour := true }
    | some normType =>
      let r := serviceUpdates aName normType aError self.mOutstandingUpdates
      { self with mOutstandingUpdates := r.1, stackResults := self.stackResults ++ r.2 }

/-- The method `AdvertisingProxy::PublishHostHandler`. -/
def PublishHostHandler (self : AdvertisingProxy) (aName : List Char)
    (aError : otbrError) : AdvertisingProxy :=
  if self.undefinedBehaviour then self
  else
    let r := hostUpdates aName aError self.mOutstandingUpdates
    { self with mOutstandingUpdates := r.1, stackResults := self.stackResults ++ r.2 }

/-- Delivery of one completion to the handler registered for it. -/
def deliver (self : AdvertisingProxy) : Completion → AdvertisingProxy
  | .host aName aError => self.PublishHostHandler aName aError
  | .service aName aType aError => self.PublishServiceHandler aName aType aError

/-- A call of an operation of `mPublisher`: the call is recorded, the
completions that the publisher delivers before returning are handled, and the
publisher's return value is handed back.  Nothing is done once the execution
has been stopped by an undefined operation. -/
def callPublisher (pub : Publisher) (self : AdvertisingProxy) (call : PublisherCall) :
    AdvertisingProxy × otbrError :=
  if self.undefinedBehaviour then (self, OTBR_ERROR_NONE)
  else
    let reply := pub self.publisherTrace call
    let self1 := { self with publisherTrace := self.publisherTrace ++ [(call, reply)] }
    (reply.completions.foldl deliver self1, reply.result)

/-- The count computed at the start of `AdvertisingHandler`:
`update.mCount += publishHost` followed by `update.mCount += !mIsDeleted` for
each service, in `uint32_t`. -/
def countUpdates (publishHost : Bool) (services : List otSrpServerService) : Nat :=
  services.foldl (fun count service => (count + (!service.mIsDeleted).toNat) % 2 ^ 32)
    ((0 + publishHost.toNat) % 2 ^ 32)

/-- The operation chosen for one service in the second loop of
`AdvertisingHandler` (the `if (publishHost && !service->mIsDeleted)`), with
the empty `txtList`. -/
def serviceCall (hostName : List Char) (publishHost : Bool) (service : otSrpServerService)
    (serviceName serviceType : List Char) : PublisherCall :=
  if publishHost && !service.mIsDeleted then
    .PublishService hostName service.mPort serviceName serviceType []
  else .UnpublishService serviceName serviceType

/-- The operation chosen for the host in `AdvertisingHandler`
(the `if (publishHost)`), with the first address. -/
def hostCall (hostName : List Char) (hostAddress : List otIp6Address) : PublisherCall :=
  match hostAddress with
  | address :: _ => .PublishHost hostName address
  | [] => .UnpublishHost hostName

/-- The second loop of `AdvertisingHandler`, over the services of the host;
the returned error is the value of `error` at the label `exit`. -/
def publishServices (pub : Publisher) (hostName : List Char) (publishHost : Bool) :
    List otSrpServerService → AdvertisingProxy → AdvertisingProxy × otbrError
  | [], self => (self, OTBR_ERROR_NONE)
  | service :: rest, self =>
    match SplitFullServiceName service.mFullName with
    | .error e => (self, e)
    | .ok (serviceName, serviceType, _) =>
      let r := callPublisher pub self
        (serviceCall hostName publishHost service serviceName serviceType)
      if r.2 ≠ OTBR_ERROR_NONE then r
      else publishServices pub hostName publishHost rest r.1

/-- The body of `AdvertisingHandler` up to the label `exit`: the state reached
and the value of `error` there.  `hostAddressNum` is the length of the array
returned by `otSrpServerHostGetAddresses`, and `hostAddress[0]` is read only
when `publishHost` holds. -/
def advertise (pub : Publisher) (self : AdvertisingProxy) (aHost : otSrpServerHost) :
    AdvertisingProxy × otbrError :=
  let publishHost := decide (aHost.mAddresses.length > 0)
  let update : OutstandingUpdate := ⟨aHost, countUpdates publishHost aHost.mServices⟩
  let self1 := { self with mOutstandingUpdates := self.mOutstandingUpdates ++ [update] }
  match SplitFullHostName aHost.mFullName with
  | .error e => (self1, e)
  | .ok (hostName, _) =>
    let r := callPublisher pub self1 (hostCall hostName aHost.mAddresses)
    if r.2 ≠ OTBR_ERROR_NONE then r
    else publishServices pub hostName publishHost aHost.mServices r.1

/-- The statements after the label `exit` of `AdvertisingHandler`:
`pop_back()` and the report to the SRP server when `error` is set.  The call
`pop_back()` on an empty vector has no defined behaviour. -/
def advertiseExit (aHost : otSrpServerHost) (r : AdvertisingProxy × otbrError) :
    AdvertisingProxy :=
  if r.1.undefinedBehaviour then r.1
  else if r.2 ≠ OTBR_ERROR_NONE then
    match r.1.mOutstandingUpdates with
    | [] => { r.1 with undefinedBehaviour := true }
    | _ :: _ =>
      { r.1 with
        mOutstandingUpdates := r.1.mOutstandingUpdates.dropLast,
        stackResults := r.1.stackResults ++ [(aHost, OtbrErrorToOtError r.2)] }
  else r.1

/-- The method `AdvertisingProxy::AdvertisingHandler` (`aTimeout` is unused). -/
def AdvertisingHandler (pub : Publisher) (self : AdvertisingProxy)
    (aHost : otSrpServerHost) : AdvertisingProxy :=
  if self.undefinedBehaviour then self
  else advertiseExit aHost (advertise pub self aHost)

end AdvertisingProxy

/-! ## Vocabulary of the statements -/

/-- The calls that concern a service: `PublishService` and `UnpublishService`. -/
def IsServiceCall : PublisherCall → Prop
  | .PublishService _ _ _ _ _ => True
  | .UnpublishService _ _ => True
  | _ => False

/-- The outcome carried by a completion. -/
def Completion.error : Completion → otbrError
  | .host _ aError => aError
  | .service _ _ aError => aError

/-- The completion is examined against the record and does not match it: for
a host completion the host name of the record splits and its instance label
is another name; for a service completion every service name of the record
splits and none has both the name and the normalized type of the
completion. -/
def Completion.Skips : Completion → OutstandingUpdate → Prop
  | .host aName _, update =>
    ∃ inst dom, SplitFullHostName update.mHost.mFullName = .ok (inst, dom) ∧ inst ≠ aName
  | .service aName aType _, update =>
    ∃ normType, normalizeType aType = some normType ∧
      ∀ s ∈ update.mHost.mServices, ∃ inst type dom,
        SplitFullServiceName s.mFullName = .ok (inst, type, dom) ∧
          ¬ (inst = aName ∧ type = normType)

/-- The completion matches the record: for a host completion the instance
label of the host of the record is the name of the completion; for a service
completion some service of the record has the name and the normalized type of
the completion, and the services listed before it split and are different. -/
def Completion.Matches : Completion → OutstandingUpdate → Prop
  | .host aName _, update =>
    ∃ dom, SplitFullHostName update.mHost.mFullName = .ok (aName, dom)
  | .service aName aType _, update =>
    ∃ normType, normalizeType aType = some normType ∧
      ∃ before s after dom, update.mHost.mServices = before ++ s :: after ∧
        SplitFullServiceName s.mFullName = .ok (aName, normType, dom) ∧
        ∀ s' ∈ before, ∃ inst type dom',
          SplitFullServiceName s'.mFullName = .ok (inst, type, dom') ∧
            ¬ (inst = aName ∧ type = normType)

/-- The result that the handler of the completion hands to
`otSrpServerHandleAdvertisingResult` when it finalizes a record:
`static_cast<otError>(aError)` in `PublishHostHandler`,
`OtbrErrorToOtError(aError)` in `PublishServiceHandler`. -/
def Completion.result : Completion → otError
  | .host _ aError => staticCastOtError aError
  | .service _ _ aError => OtbrErrorToOtError aError

/-- The completion matches no record of the list: for a host completion no
record has a host whose instance label is the name of the completion; for a
service completion, whose type has a normalized form, no service of any
record has both the name and the normalized type of the completion. -/
def Completion.MatchesNone : Completion → List OutstandingUpdate → Prop
  | .host aName _, updates =>
    ∀ u ∈ updates, ∀ inst dom,
      SplitFullHostName u.mHost.mFullName = .ok (inst, dom) → inst ≠ aName
  | .service aName aType _, updates =>
    ∃ normType, normalizeType aType = some normType ∧
      ∀ u ∈ updates, ∀ s ∈ u.mHost.mServices, ∀ inst type dom,
        SplitFullServiceName s.mFullName = .ok (inst, type, dom) →
          ¬ (inst = aName ∧ type = normType)

/-- The test that the handler of the completion makes on one record: for a
host completion the host name splits and its instance label is the name of
the completion (`aName == instanceName`); for a service completion the scan of
the services of the host ends at a service with the name and the normalized
type of the completion.  The test reads the host of the record only. -/
def Completion.matchesHost : Completion → otSrpServerHost → Bool
  | .host aName _, aHost =>
    match SplitFullHostName aHost.mFullName with
    | .ok (instanceName, _) => decide (aName = instanceName)
    | .error _ => false
  | .service aName aType _, aHost =>
    match normalizeType aType with
    | some normType => decide (scanServices aName normType aHost.mServices = .found)
    | none => false

/-- A host completion, or a service completion whose type is not the empty
string (it has a normalized form). -/
def Completion.hasType : Completion → Bool
  | .host _ _ => true
  | .service _ aType _ => (normalizeType aType).isSome

/-- The number of completions that match the given host, among the
completions delivered with the given entries of the publisher trace. -/
def matchingCompletions (aHost : otSrpServerHost) :
    List (PublisherCall × PublisherReply) → Nat
  | [] => 0
  | entry :: rest =>
    (entry.2.completions.filter (fun c => c.matchesHost aHost)).length
      + matchingCompletions aHost rest

/-! ## Examples -/

/-- A publisher that accepts every call and delivers no completion while the
call is made. -/
def quietPublisher : Publisher := fun _ _ => ⟨[], OTBR_ERROR_NONE⟩

/-- A proxy with nothing in flight. -/
def idleProxy : AdvertisingProxy := ⟨[], [], [], false⟩

/-- A printer service of the router host. -/
def printerService : otSrpServerService :=
  ⟨"myprinter._ipp._tcp.default.service.arpa.".toList, 631, false⟩

/-- A host with one address and one service. -/
def routerHost : otSrpServerHost :=
  ⟨"router1.default.service.arpa".toList, [⟨[0xfd, 0, 0, 0, 0, 0, 0, 0, 0, 0, 0, 0, 0, 0, 0, 1]⟩],
    [printerService]⟩

/-- A host whose only service has a full name without separator. -/
def brokenHost : otSrpServerHost :=
  ⟨"camera.default.service.arpa".toList, [⟨[0xfd, 0, 0, 0, 0, 0, 0, 0, 0, 0, 0, 0, 0, 0, 0, 2]⟩],
    [⟨"bad".toList, 80, false⟩]⟩

/-- A host with one address and two services; the full name of the second
service has no separator. -/
def cameraHost : otSrpServerHost :=
  ⟨"camera.default.service.arpa".toList, [⟨[0xfd, 0, 0, 0, 0, 0, 0, 0, 0, 0, 0, 0, 0, 0, 0, 2]⟩],
    [⟨"cam._http._tcp.default.service.arpa.".toList, 80, false⟩, ⟨"bad".toList, 80, false⟩]⟩

/-- A later update of the router host, whose only service has a full name
without separator. -/
def renewedHost : otSrpServerHost :=
  ⟨"router1.default.service.arpa".toList,
    [⟨[0xfd, 0, 0, 0, 0, 0, 0, 0, 0, 0, 0, 0, 0, 0, 0, 1]⟩], [⟨"bad".toList, 80, false⟩]⟩

/-- A publisher that accepts every call and completes `PublishHost` before
returning from it: it invokes the host handler with the published name and
`OTBR_ERROR_NONE`. -/
def promptPublisher : Publisher := fun _ call =>
  match call with
  | .PublishHost aName _ => ⟨[.host aName OTBR_ERROR_NONE], OTBR_ERROR_NONE⟩
  | _ => ⟨[], OTBR_ERROR_NONE⟩

/-- The proxy after the quiet, successful dispatch of the router host: one
record in flight, with count two. -/
def routerInFlight : AdvertisingProxy :=
  AdvertisingProxy.AdvertisingHandler quietPublisher idleProxy routerHost

/-- The router host after it has left: no address, its service deleted. -/
def departedHost : otSrpServerHost :=
  ⟨"router1.default.service.arpa".toList, [],
    [⟨"myprinter._ipp._tcp.default.service.arpa.".toList, 631, true⟩]⟩

/-- The proxy after the quiet, successful dispatch of the departed host. -/
def departedInFlight : AdvertisingProxy :=
  AdvertisingProxy.AdvertisingHandler quietPublisher idleProxy departedHost

/-- A publisher that accepts every call and reports, before returning from
`PublishHost`, that the publication of the name failed: it invokes the host
handler with the published name and `OTBR_ERROR_DUPLICATED`. -/
def conflictPublisher : Publisher := fun _ call =>
  match call with
  | .PublishHost aName _ => ⟨[.host aName OTBR_ERROR_DUPLICATED], OTBR_ERROR_NONE⟩
  | _ => ⟨[], OTBR_ERROR_NONE⟩

/-! ## Mainloop context -/

/-- Modelled from the spec: `struct timeval` of the C library, seconds and
microseconds. -/
structure timeval where
  tv_sec : Int
  tv_usec : Int
  deriving DecidableEq

/-- Modelled from the spec: `otSysMainloopContext` is declared in the
OpenThread headers, which are not part of the sources at hand.  An `fd_set`
is represented by the list of the descriptors that are in the set. -/
structure otSysMainloopContext where
  mReadFdSet : List Int
  mWriteFdSet : List Int
  mErrorFdSet : List Int
  mMaxFd : Int
  mTimeout : timeval
  deriving DecidableEq

/-- The macro `FD_ISSET(fd, &set)`. -/
def FD_ISSET (fd : Int) (set : List Int) : Bool :=
  set.contains fd

/-- The macro `FD_SET(fd, &set)`, for a descriptor below `FD_SETSIZE`: the
descriptor is added to the set. -/
def FD_SET (fd : Int) (set : List Int) : List Int :=
  if set.contains fd then set else fd :: set

/-! ## Task runner -/

/-- What a task (`std::function<void(void)>`) does when it is called, as far
as the task runner is concerned: `++counter` on the counter of the tests, or
`taskRunner.Post(aTask)` on the runner that is executing it. -/
inductive TaskStep where
  | increment
  | post (aTask : Nat)
  deriving DecidableEq

/-- The state of a `TaskRunner`.  `mEventFd` holds the descriptors
`mEventFd[kRead]` and `mEventFd[kWrite]`; `mTaskQueue` holds the tasks, a task
being named by a number; `mTaskQueueMutex` tells whether the mutex is owned by
the thread of the mainloop.  The other fields make effects observable: the
number of bytes waiting in the pipe, the number of calls of `write`, the
tasks called so far in order, the counter that tasks increment, and a flag
that is raised when the thread locks the mutex that it already owns (which
has no defined behaviour and, with the usual implementations, never returns);
once the flag is raised the execution is stopped and the state is frozen. -/
structure TaskRunner where
  mEventFd : Int × Int
  mTaskQueue : List Nat
  mTaskQueueMutex : Bool
  pipe : Nat
  writeCalls : Nat
  executed : List Nat
  counter : Nat
  deadlock : Bool
  deriving DecidableEq

/-- The body of each task: the steps that the task named by the first
argument performs when it is called in the given state. -/
abbrev TaskCode := Nat → TaskRunner → List TaskStep

/-- The operating system as seen by `PushTask`: the value returned by the
call `write(mEventFd[kWrite], &kOne, sizeof(kOne))`, given the number of
calls of `write` made before. -/
abbrev WriteOracle := Nat → Int

namespace TaskRunner

/-- The method `TaskRunner::PushTask`: the mutex is taken for the whole body,
the task is appended, one byte is written to the pipe and a failure of the
write is only logged. -/
def PushTask (write : WriteOracle) (self : TaskRunner) (aTask : Nat) : TaskRunner :=
  if self.deadlock then self
  else if self.mTaskQueueMutex then { self with deadlock := true }
  else
    let rval := write self.writeCalls
    { self with
      mTaskQueue := self.mTaskQueue ++ [aTask],
      writeCalls := self.writeCalls + 1,
      pipe := if rval = 1 then self.pipe + 1 else self.pipe }

/-- The method `TaskRunner::Post`. -/
def Post (write : WriteOracle) (self : TaskRunner) (aTask : Nat) : TaskRunner :=
  PushTask write self aTask

/-- The call of a task: its steps are performed in order. -/
def runSteps (write : WriteOracle) : List TaskStep → TaskRunner → TaskRunner
  | [], self => self
  | step :: rest, self =>
    if self.deadlock then self
    else
      match step with
      | .increment => runSteps write rest { self with counter := self.counter + 1 }
      | .post aTask => runSteps write rest (Post write self aTask)

/-- The loop of `TaskRunner::PopTasks`, `while (!mTaskQueue.empty())`, with
`mTaskQueue.front()()` followed by `mTaskQueue.pop()`; the first argument
bounds the number of iterations. -/
def popLoop (code : TaskCode) (write : WriteOracle) : Nat → TaskRunner → TaskRunner
  | 0, self => self
  | fuel + 1, self =>
    if self.deadlock then self
    else
      match self.mTaskQueue with
      | [] => self
      | task :: _ =>
        let called := { self with executed := self.executed ++ [task] }
        let self1 := runSteps write (code task called) called
        if self1.deadlock then self1
        else popLoop code write fuel { self1 with mTaskQueue := self1.mTaskQueue.tail }

/-- The method `TaskRunner::PopTasks`: the mutex is owned from the entry to
the return, tasks included.  While the mutex is owned the queue cannot grow,
so that as many iterations as there are tasks in the queue are enough (see
`popLoop_done`). -/
def PopTasks (code : TaskCode) (write : WriteOracle) (self : TaskRunner) : TaskRunner :=
  if self.deadlock then self
  else if self.mTaskQueueMutex then { self with deadlock := true }
  else
    let self1 := popLoop code write self.mTaskQueue.length { self with mTaskQueueMutex := true }
    if self1.deadlock then self1
    else { self1 with mTaskQueueMutex := false }

/-- The method `TaskRunner::UpdateFdSet`; the runner is not changed, the
result is the mainloop context as the method leaves it. -/
def UpdateFdSet (self : TaskRunner) (aMainloop : otSysMainloopContext) :
    otSysMainloopContext :=
  { aMainloop with
    mReadFdSet := FD_SET self.mEventFd.1 aMainloop.mReadFdSet,
    mMaxFd := max self.mEventFd.1 aMainloop.mMaxFd }

/-- The method `TaskRunner::Process`: when the read end of the pipe is in the
read set, the pipe is emptied and the tasks are popped. -/
def Process (code : TaskCode) (write : WriteOracle) (self : TaskRunner)
    (aMainloop : otSysMainloopContext) : TaskRunner :=
  if self.deadlock then self
  else if FD_ISSET self.mEventFd.1 aMainloop.mReadFdSet then
    PopTasks code write { self with pipe := 0 }
  else self

end TaskRunner

/-- A task runner as it is after its construction, with the pipe on the
descriptors 3 and 4. -/
def freshRunner : TaskRunner :=
  { mEventFd := (3, 4), mTaskQueue := [], mTaskQueueMutex := false, pipe := 0, writeCalls := 0,
    executed := [], counter := 0, deadlock := false }

/-- A system in which every write to the pipe succeeds. -/
def writeOk : WriteOracle := fun _ => 1

/-- A system in which every write to the pipe fails (the pipe is full): the
call returns -1. -/
def writeFails : WriteOracle := fun _ => -1

/-- Tasks that increment the counter, as in the unit tests. -/
def incrementCode : TaskCode := fun _ _ => [.increment]

/-- The task 0 increments the counter and posts the task 1; every other task
increments the counter. -/
def chainCode : TaskCode := fun task _ =>
  match task with
  | 0 => [.increment, .post 1]
  | _ => [.increment]

/-- A mainloop context in which the descriptor 3 is readable. -/
def readableContext : otSysMainloopContext :=
  { mReadFdSet := [3], mWriteFdSet := [], mErrorFdSet := [], mMaxFd := 3,
    mTimeout := { tv_sec := 10, tv_usec := 0 } }

/-- The mainloop context of the unit test `TestSingleThread` before
`UpdateFdSet`: empty sets, `mMaxFd` is -1, the timeout is ten seconds. -/
def testContext : otSysMainloopContext :=
  { mReadFdSet := [], mWriteFdSet := [], mErrorFdSet := [], mMaxFd := -1,
    mTimeout := { tv_sec := 10, tv_usec := 0 } }

/-! ## Timers of the Thread controller -/

/-- What a timer task (`std::function<void(void)>`) does when it is called, as
far as the timer queue is concerned: calls of `PostTimerTask(aTimePoint, aTask)`
on the controller that is firing it. -/
inductive TimerStep where
  | postTimerTask (aTimePoint : Int) (aTask : Nat)
  deriving DecidableEq

/-- The part of the state of a `ThreadController` that holds the timers and
the listeners.  `mTimers` is the `std::multimap` from time points to tasks, as
the list of its entries in iteration order (ascending keys), a task being
named by a number and a `steady_clock::time_point` being its count of ticks.
`mListeners` is the `std::vector<ThreadListener *>`, a listener (the pointer
to it) being named by a number.  The other three fields make effects
observable: the entries whose task has been called by `Process`, in order, the
entries given to `PostTimerTask`, in order, and the calls of
`OnThreadStateChanged` made by `HandleStateChanged` (listener, flags), in
order. -/
structure ThreadController where
  mTimers : List (Int × Nat)
  fired : List (Int × Nat)
  posted : List (Int × Nat)
  mListeners : List Nat
  notified : List (Nat × Nat)
  deriving DecidableEq

/-- The body of each timer task: the steps that the task named by the first
argument performs when it is called in the given state. -/
abbrev TimerCode := Nat → ThreadController → List TimerStep

/-- The body of the method `OnThreadStateChanged` of each listener, a virtual
method: the steps that the listener named by the first argument performs when
it is called with the flags of the second argument in the given state.  The
steps are calls of `PostTimerTask` on the controller that notifies the
listener; the vector of listeners is not changed while it is iterated. -/
abbrev ListenerCode := Nat → Nat → ThreadController → List TimerStep

/-- The call `mTimers.insert({aTimePoint, aTask})` of `std::multimap`: the new
entry is placed at the upper bound of its key, after the entries whose key is
less than or equal to its own. -/
def multimapInsert (entry : Int × Nat) : List (Int × Nat) → List (Int × Nat)
  | [] => [entry]
  | x :: xs => if entry.1 < x.1 then entry :: x :: xs else x :: multimapInsert entry xs

/-- The arithmetic of the 64-bit signed integers that represent the durations
of `std::chrono` and the time points of `steady_clock`: a result is reduced
modulo `2 ^ 64` into the range from `-2 ^ 63` to `2 ^ 63 - 1`. -/
def wrapInt64 (x : Int) : Int :=
  (x + 2 ^ 63) % 2 ^ 64 - 2 ^ 63

/-- The constant `kUsPerSecond` of `ToTimeVal`. -/
def kUsPerSecond : Int := 1000000

/-- The function `ToTimeVal` of `thread_controller.cpp`; the division and the
remainder of C++ truncate toward zero. -/
def ToTimeVal (aTime : Int) : timeval :=
  { tv_sec := Int.tdiv aTime kUsPerSecond, tv_usec := Int.tmod aTime kUsPerSecond }

namespace ThreadController

/-- The method `ThreadController::PostTimerTask`. -/
def PostTimerTask (self : ThreadController) (aTimePoint : Int) (aTask : Nat) :
    ThreadController :=
  { self with
    mTimers := multimapInsert (aTimePoint, aTask) self.mTimers,
    posted := self.posted ++ [(aTimePoint, aTask)] }

/-- The call of a timer task: its steps are performed in order. -/
def runTimerSteps : List TimerStep → ThreadController → ThreadController
  | [], self => self
  | .postTimerTask aTimePoint aTask :: rest, self =>
    runTimerSteps rest (self.PostTimerTask aTimePoint aTask)

/-- The method `ThreadController::Update`, up to the call of
`otSysMainloopUpdate`, to which the context is handed on: the result is the
context with the timeout as `Update` has set it; the controller is not
changed.  `tasklets` is the value of `otTaskletsArePending(mInstance)`, `now`
the value of `steady_clock::now()`, `ticksPerUs` the number of ticks of
`steady_clock` in a microsecond, by which `duration_cast<microseconds>`
divides. -/
def Update (tasklets : Bool) (now ticksPerUs : Int) (self : ThreadController)
    (aMainloop : otSysMainloopContext) : otSysMainloopContext :=
  let timeout := wrapInt64
    (aMainloop.mTimeout.tv_usec + wrapInt64 (aMainloop.mTimeout.tv_sec * 1000000))
  let timeout1 :=
    if tasklets then 0
    else
      match self.mTimers with
      | [] => timeout
      | timer :: _ =>
        if timer.1 < now then 0
        else min timeout (Int.tdiv (wrapInt64 (timer.1 - now)) ticksPerUs)
  { aMainloop with mTimeout := ToTimeVal timeout1 }

/-- The method `ThreadController::AddThreadListener`.  The `assert` that the
listener is not yet in `mListeners` stops the program when it fails: the
result is `none`. -/
def AddThreadListener (self : ThreadController) (aListener : Nat) :
    Option ThreadController :=
  match self.mListeners.find? (fun aExistingListener => aExistingListener == aListener) with
  | some _ => none
  | none => some { self with mListeners := self.mListeners ++ [aListener] }

/-- The timer loop of `ThreadController::Process`,
`while (!mTimers.empty() && mTimers.begin()->first <= now)`, with
`mTimers.begin()->second()` followed by `mTimers.erase(mTimers.begin())`.
The first argument bounds the number of iterations; the Boolean tells whether
the loop has been left (`true`) or the bound has been reached with a timer
still due (`false`). -/
def drainTimers (code : TimerCode) (now : Int) :
    Nat → ThreadController → ThreadController × Bool
  | fuel, self =>
    match self.mTimers with
    | [] => (self, true)
    | timer :: _ =>
      if timer.1 ≤ now then
        match fuel with
        | 0 => (self, false)
        | fuel + 1 =>
          let called := { self with fired := self.fired ++ [timer] }
          let self1 := runTimerSteps (code timer.2 called) called
          drainTimers code now fuel { self1 with mTimers := self1.mTimers.tail }
      else (self, true)

/-- The method `ThreadController::Process`, as far as the timers go: `now` is
the value of `steady_clock::now()` read at the start of the method.  The calls
into the OpenThread driver before the timer loop and the resumption of the
network after it are not part of the sources at hand. -/
def Process (code : TimerCode) (now : Int) (fuel : Nat) (self : ThreadController) :
    ThreadController × Bool :=
  drainTimers code now fuel self

end ThreadController

/-- A controller without timers. -/
def idleController : ThreadController :=
  { mTimers := [], fired := [], posted := [], mListeners := [], notified := [] }

/-- Timer tasks that post nothing. -/
def plainTimers : TimerCode := fun _ _ => []

/-- The timer task 0 posts the task 1 at the time point 7; the other tasks
post nothing. -/
def repostingTimers : TimerCode := fun task _ =>
  match task with
  | 0 => [.postTimerTask 7 1]
  | _ => []

/-- The timer task 0 posts the task 1 at the time point 17; the other tasks
post nothing. -/
def deferringTimers : TimerCode := fun task _ =>
  match task with
  | 0 => [.postTimerTask 17 1]
  | _ => []

/-- The timer task 0 posts the task 1 at the time point 7 the first time it is
called (one timer has been fired then, itself), and nothing afterwards; the
other tasks post nothing. -/
def onceTimers : TimerCode := fun task st =>
  match task with
  | 0 => if st.fired.length = 1 then [.postTimerTask 7 1] else []
  | _ => []

/-- Listeners that do nothing when they are notified, as the method of the
base class `ThreadListener`. -/
def plainListeners : ListenerCode := fun _ _ _ => []

theorem findFrom_none_iff (ch : Char) (l : List Char) (i : Nat) :
    findFrom ch l i = none ↔ ch ∉ l := by
  induction l generalizing i with
  | nil => simp [findFrom]
  | cons c cs ih =>
    by_cases h : c = ch
    · simp [findFrom, h]
    · have h2 : ¬ ch = c := fun e => h e.symm
      simp [findFrom, h, h2, ih]

theorem findFrom_some (ch : Char) (l : List Char) (i d : Nat)
    (h : findFrom ch l i = some d) :
    ∃ a b, l = a ++ ch :: b ∧ ch ∉ a ∧ d = i + a.length := by
  induction l generalizing i with
  | nil => simp [findFrom] at h
  | cons c cs ih =>
    by_cases hc : c = ch
    · simp [findFrom, hc] at h
      exact ⟨[], cs, by simp [hc], by simp, by simp [h]⟩
    · simp [findFrom, hc] at h
      obtain ⟨a, b, hl, ha, hd⟩ := ih (i + 1) h
      refine ⟨c :: a, b, by simp [hl], ?_, by simp [hd]; omega⟩
      intro hmem
      rcases List.mem_cons.1 hmem with e | e
      · exact hc e.symm
      · exact ha e

theorem findFrom_append (ch : Char) (a b : List Char) (i : Nat) (ha : ch ∉ a) :
    findFrom ch (a ++ ch :: b) i = some (i + a.length) := by
  induction a generalizing i with
  | nil => simp [findFrom]
  | cons c cs ih =>
    have hc : ¬ c = ch := fun e => ha (by simp [e])
    have hcs : ch ∉ cs := fun e => ha (by simp [e])
    simp [findFrom, hc, ih (i + 1) hcs]
    omega

theorem exists_first_dot (ch : Char) (s : List Char) :
    ch ∉ s ∨ ∃ a b, s = a ++ ch :: b ∧ ch ∉ a := by
  cases h : findFrom ch s 0 with
  | none => exact Or.inl ((findFrom_none_iff ch s 0).1 h)
  | some d =>
    obtain ⟨a, b, hs, ha, _⟩ := findFrom_some ch s 0 d h
    exact Or.inr ⟨a, b, hs, ha⟩

theorem drop_succ_length_append (a b : List Char) (c : Char) :
    (a ++ c :: b).drop (a.length + 1) = b := by
  induction a with
  | nil => simp
  | cons x xs ih => simp [ih]

theorem find_first_of_zero_append (a b : List Char) (h : '.' ∉ a) :
    find_first_of (a ++ '.' :: b) '.' 0 = some a.length := by
  simp [find_first_of, findFrom_append '.' a b 0 h]

theorem find_first_of_zero_none (s : List Char) (h : '.' ∉ s) :
    find_first_of s '.' 0 = none := by
  simp [find_first_of, findFrom_none_iff, h]

theorem find_first_of_succ_append (a b : List Char) (c : Char) :
    find_first_of (a ++ c :: b) '.' (a.length + 1) = findFrom '.' b (a.length + 1) := by
  simp only [find_first_of, drop_succ_length_append]

/-- Every index returned by `find_first_of` is a valid index of the string, so
that `pos + 1 ≤ size()` at the `substr` calls of the split functions. -/
theorem find_first_of_lt (s : List Char) (ch : Char) (pos d : Nat)
    (h : find_first_of s ch pos = some d) : pos ≤ d ∧ d < s.length := by
  obtain ⟨a, b, hl, _, hd⟩ := findFrom_some ch (s.drop pos) pos d h
  have hlen : (s.drop pos).length = a.length + (b.length + 1) := by
    rw [hl]; simp
  rw [List.length_drop] at hlen
  omega

theorem SplitFullHostName_append (a b : List Char) (h : '.' ∉ a) :
    SplitFullHostName (a ++ '.' :: b) = .ok (a, b) := by
  simp only [SplitFullHostName, find_first_of_zero_append a b h, substr]
  simp [drop_succ_length_append]

theorem SplitFullHostName_no_dot (s : List Char) (h : '.' ∉ s) :
    SplitFullHostName s = .error OTBR_ERROR_INVALID_ARGS := by
  simp [SplitFullHostName, find_first_of_zero_none s h]

theorem SplitFullHostName_ok_iff (s a b : List Char) :
    SplitFullHostName s = .ok (a, b) ↔ s = a ++ '.' :: b ∧ '.' ∉ a := by
  constructor
  · intro h
    rcases exists_first_dot '.' s with hn | ⟨x, y, hs, hx⟩
    · rw [SplitFullHostName_no_dot s hn] at h; cases h
    · rw [hs, SplitFullHostName_append x y hx] at h
      cases h
      exact ⟨hs, hx⟩
  · rintro ⟨hs, ha⟩
    rw [hs, SplitFullHostName_append a b ha]

theorem find_first_of_after (p q : List Char) (c : Char) (h : '.' ∉ q) (r : List Char) :
    find_first_of (p ++ c :: (q ++ '.' :: r)) '.' (p.length + 1)
      = some (p.length + 1 + q.length) := by
  rw [find_first_of_succ_append, findFrom_append '.' q r _ h]

theorem find_first_of_after_none (p q : List Char) (c : Char) (h : '.' ∉ q) :
    find_first_of (p ++ c :: q) '.' (p.length + 1) = none := by
  rw [find_first_of_succ_append, findFrom_none_iff]
  exact h

theorem SplitFullServiceName_append (a b c d : List Char)
    (ha : '.' ∉ a) (hb : '.' ∉ b) (hc : '.' ∉ c) :
    SplitFullServiceName (a ++ '.' :: (b ++ '.' :: (c ++ '.' :: d)))
      = .ok (a, b ++ '.' :: c, d) := by
  have h0 := find_first_of_zero_append a (b ++ '.' :: (c ++ '.' :: d)) ha
  have h1 := find_first_of_after a b '.' hb (c ++ '.' :: d)
  have h2 := find_first_of_after (a ++ '.' :: b) c '.' hc d
  have e2 : (a ++ '.' :: b).length = a.length + 1 + b.length := by
    simp; omega
  rw [e2] at h2
  have e3 : a ++ '.' :: b ++ '.' :: (c ++ '.' :: d)
      = a ++ '.' :: (b ++ '.' :: (c ++ '.' :: d)) := by simp
  rw [e3] at h2
  simp only [SplitFullServiceName, h0, h1, h2, substr]
  have t1 : List.take a.length (a ++ '.' :: (b ++ '.' :: (c ++ '.' :: d))) = a := by
    simp
  have t2 : List.drop (a.length + 1) (a ++ '.' :: (b ++ '.' :: (c ++ '.' :: d)))
      = b ++ '.' :: (c ++ '.' :: d) := drop_succ_length_append _ _ _
  have t3 : List.drop (a.length + 1 + b.length + 1 + c.length + 1)
      (a ++ '.' :: (b ++ '.' :: (c ++ '.' :: d))) = d := by
    have := drop_succ_length_append (a ++ '.' :: (b ++ '.' :: c)) d '.'
    have e4 : (a ++ '.' :: (b ++ '.' :: c)).length = a.length + 1 + b.length + 1 + c.length := by
      simp; omega
    rw [e4] at this
    simpa using this
  have e5 : a.length + 1 + b.length + 1 + c.length - a.length - 1 = (b ++ '.' :: c).length := by
    simp; omega
  have t4 : List.take (b ++ '.' :: c).length (b ++ '.' :: (c ++ '.' :: d)) = b ++ '.' :: c := by
    have : b ++ '.' :: (c ++ '.' :: d) = (b ++ '.' :: c) ++ '.' :: d := by simp
    rw [this, List.take_left]
  simp only [List.drop_zero, t1, t2, t3, e5, t4]
  congr 2
  simp
  omega

theorem SplitFullServiceName_lt1 (s : List Char) (h : '.' ∉ s) :
    SplitFullServiceName s = .error OTBR_ERROR_INVALID_ARGS := by
  simp [SplitFullServiceName, find_first_of_zero_none s h]

theorem SplitFullServiceName_lt2 (a b : List Char) (ha : '.' ∉ a) (hb : '.' ∉ b) :
    SplitFullServiceName (a ++ '.' :: b) = .error OTBR_ERROR_INVALID_ARGS := by
  simp [SplitFullServiceName, find_first_of_zero_append a b ha,
    find_first_of_after_none a b '.' hb]

theorem SplitFullServiceName_lt3 (a b c : List Char)
    (ha : '.' ∉ a) (hb : '.' ∉ b) (hc : '.' ∉ c) :
    SplitFullServiceName (a ++ '.' :: (b ++ '.' :: c)) = .error OTBR_ERROR_INVALID_ARGS := by
  have h0 := find_first_of_zero_append a (b ++ '.' :: c) ha
  have h1 := find_first_of_after a b '.' hb c
  have h2 := find_first_of_after_none (a ++ '.' :: b) c '.' hc
  have e2 : (a ++ '.' :: b).length = a.length + 1 + b.length := by
    simp; omega
  rw [e2] at h2
  have e3 : a ++ '.' :: b ++ '.' :: c = a ++ '.' :: (b ++ '.' :: c) := by simp
  rw [e3] at h2
  simp [SplitFullServiceName, h0, h1, h2]

/-- The four shapes of a string with respect to its first three separators. -/
theorem dot_shapes (s : List Char) :
    ('.' ∉ s) ∨
    (∃ a b, s = a ++ '.' :: b ∧ '.' ∉ a ∧ '.' ∉ b) ∨
    (∃ a b c, s = a ++ '.' :: (b ++ '.' :: c) ∧ '.' ∉ a ∧ '.' ∉ b ∧ '.' ∉ c) ∨
    (∃ a b c d, s = a ++ '.' :: (b ++ '.' :: (c ++ '.' :: d)) ∧ '.' ∉ a ∧ '.' ∉ b ∧ '.' ∉ c) := by
  rcases exists_first_dot '.' s with h | ⟨a, r1, hs, ha⟩
  · exact Or.inl h
  rcases exists_first_dot '.' r1 with h | ⟨b, r2, hr1, hb⟩
  · exact Or.inr (Or.inl ⟨a, r1, hs, ha, h⟩)
  rcases exists_first_dot '.' r2 with h | ⟨c, d, hr2, hc⟩
  · exact Or.inr (Or.inr (Or.inl ⟨a, b, r2, by rw [hs, hr1], ha, hb, h⟩))
  · exact Or.inr (Or.inr (Or.inr ⟨a, b, c, d, by rw [hs, hr1, hr2], ha, hb, hc⟩))

theorem SplitFullServiceName_ok_iff (s a t d : List Char) :
    SplitFullServiceName s = .ok (a, t, d) ↔
      ∃ b c, t = b ++ '.' :: c ∧ s = a ++ '.' :: (b ++ '.' :: (c ++ '.' :: d)) ∧
        '.' ∉ a ∧ '.' ∉ b ∧ '.' ∉ c := by
  constructor
  · intro h
    rcases dot_shapes s with h0 | ⟨x, y, hs, hx, hy⟩ | ⟨x, y, z, hs, hx, hy, hz⟩ |
        ⟨x, y, z, w, hs, hx, hy, hz⟩
    · rw [SplitFullServiceName_lt1 s h0] at h; cases h
    · rw [hs, SplitFullServiceName_lt2 x y hx hy] at h; cases h
    · rw [hs, SplitFullServiceName_lt3 x y z hx hy hz] at h; cases h
    · rw [hs, SplitFullServiceName_append x y z w hx hy hz] at h
      cases h
      exact ⟨y, z, rfl, hs, hx, hy, hz⟩
  · rintro ⟨b, c, ht, hs, ha, hb, hc⟩
    rw [hs, ht, SplitFullServiceName_append a b c d ha hb hc]

theorem SplitFullServiceName_error (s : List Char) (e : otbrError)
    (h : SplitFullServiceName s = .error e) : e = OTBR_ERROR_INVALID_ARGS := by
  rcases dot_shapes s with h0 | ⟨x, y, hs, hx, hy⟩ | ⟨x, y, z, hs, hx, hy, hz⟩ |
      ⟨x, y, z, w, hs, hx, hy, hz⟩
  · rw [SplitFullServiceName_lt1 s h0] at h; cases h; rfl
  · rw [hs, SplitFullServiceName_lt2 x y hx hy] at h; cases h; rfl
  · rw [hs, SplitFullServiceName_lt3 x y z hx hy hz] at h; cases h; rfl
  · rw [hs, SplitFullServiceName_append x y z w hx hy hz] at h; cases h

theorem SplitFullHostName_error (s : List Char) (e : otbrError)
    (h : SplitFullHostName s = .error e) : e = OTBR_ERROR_INVALID_ARGS := by
  rcases exists_first_dot '.' s with hn | ⟨x, y, hs, hx⟩
  · rw [SplitFullHostName_no_dot s hn] at h; cases h; rfl
  · rw [hs, SplitFullHostName_append x y hx] at h; cases h

theorem getElem?_length_append (a b : List Char) (c : Char) :
    (a ++ c :: b)[a.length]? = some c := by
  induction a with
  | nil => simp
  | cons x xs ih => simpa using ih

theorem count_dot_append (a b : List Char) (h : '.' ∉ a) :
    (a ++ '.' :: b).count '.' = b.count '.' + 1 := by
  simp [List.count_append, List.count_cons, List.count_eq_zero.2 h]

theorem SplitFullServiceName_succeeds_iff (s : List Char) :
    (∃ r, SplitFullServiceName s = .ok r) ↔ 3 ≤ s.count '.' := by
  rcases dot_shapes s with h0 | ⟨x, y, hs, hx, hy⟩ | ⟨x, y, z, hs, hx, hy, hz⟩ |
      ⟨x, y, z, w, hs, hx, hy, hz⟩
  · simp [SplitFullServiceName_lt1 s h0, List.count_eq_zero.2 h0]
  · rw [hs, SplitFullServiceName_lt2 x y hx hy, count_dot_append x y hx,
      List.count_eq_zero.2 hy]
    simp
  · rw [hs, SplitFullServiceName_lt3 x y z hx hy hz, count_dot_append x _ hx,
      count_dot_append y _ hy, List.count_eq_zero.2 hz]
    simp
  · rw [hs, SplitFullServiceName_append x y z w hx hy hz, count_dot_append x _ hx,
      count_dot_append y _ hy, count_dot_append z _ hz]
    simp

/-! ## Name splitting (claims C1 to C4) -/

/-- C1: `SplitFullServiceName` succeeds exactly on the strings with at least
three separators; on success, with `d0` the position of the first separator
(a separator with no separator before it) and `d2` the position of the third
(a separator with exactly two separators before it), the instance is the part
before `d0`, the type is the part strictly between `d0` and `d2` and holds
exactly one separator, and the domain is everything after `d2`.  The full
service name of the printer example splits as expected. -/
theorem SplitFullServiceName_contract (s : List Char) :
    ((∃ r, SplitFullServiceName s = .ok r) ↔ 3 ≤ s.count '.') ∧
    (∀ inst type dom, SplitFullServiceName s = .ok (inst, type, dom) →
      ∃ d0 d2, s[d0]? = some '.' ∧ (s.take d0).count '.' = 0 ∧
        s[d2]? = some '.' ∧ (s.take d2).count '.' = 2 ∧
        inst = s.take d0 ∧ type = (s.drop (d0 + 1)).take (d2 - (d0 + 1)) ∧
        dom = s.drop (d2 + 1) ∧ type.count '.' = 1) ∧
    SplitFullServiceName "myprinter._ipp._tcp.default.service.arpa.".toList
      = .ok ("myprinter".toList, "_ipp._tcp".toList, "default.service.arpa.".toList) := by
  refine ⟨SplitFullServiceName_succeeds_iff s, ?_, rfl⟩
  · intro inst type dom h
    obtain ⟨b, c, ht, hs, ha, hb, hc⟩ := (SplitFullServiceName_ok_iff s inst type dom).1 h
    refine ⟨inst.length, inst.length + 1 + b.length + 1 + c.length, ?_, ?_, ?_, ?_, ?_, ?_, ?_, ?_⟩
    · rw [hs]; exact getElem?_length_append _ _ _
    · rw [hs]; simp [List.count_eq_zero.2 ha]
    · have e : s = (inst ++ '.' :: (b ++ '.' :: c)) ++ '.' :: dom := by rw [hs]; simp
      have l : (inst ++ '.' :: (b ++ '.' :: c)).length = inst.length + 1 + b.length + 1 + c.length := by
        simp; omega
      rw [e, ← l]; exact getElem?_length_append _ _ _
    · have e : s = (inst ++ '.' :: (b ++ '.' :: c)) ++ '.' :: dom := by rw [hs]; simp
      have l : (inst ++ '.' :: (b ++ '.' :: c)).length = inst.length + 1 + b.length + 1 + c.length := by
        simp; omega
      rw [e, ← l, List.take_left, count_dot_append inst _ ha, count_dot_append b _ hb,
        List.count_eq_zero.2 hc]
    · rw [hs]; simp
    · rw [hs, drop_succ_length_append, ht]
      have e : b ++ '.' :: (c ++ '.' :: dom) = (b ++ '.' :: c) ++ '.' :: dom := by simp
      have l : inst.length + 1 + b.length + 1 + c.length - (inst.length + 1) = (b ++ '.' :: c).length := by
        simp; omega
      rw [e, l, List.take_left]
    · have e : s = (inst ++ '.' :: (b ++ '.' :: c)) ++ '.' :: dom := by rw [hs]; simp
      have l : (inst ++ '.' :: (b ++ '.' :: c)).length = inst.length + 1 + b.length + 1 + c.length := by
        simp; omega
      rw [← l]
      conv_rhs => rw [e]
      rw [drop_succ_length_append]
    · rw [ht, count_dot_append b _ hb, List.count_eq_zero.2 hc]

/-- C2: `SplitFullHostName` succeeds exactly on the strings with at least one
separator; on success, with `d0` the position of the first separator, the
instance is the part before `d0` (free of separators) and the domain is
everything after `d0`.  The host name of the router example splits as
expected. -/
theorem SplitFullHostName_contract (s : List Char) :
    ((∃ r, SplitFullHostName s = .ok r) ↔ 1 ≤ s.count '.') ∧
    (∀ inst dom, SplitFullHostName s = .ok (inst, dom) →
      ∃ d0, s[d0]? = some '.' ∧ (s.take d0).count '.' = 0 ∧
        inst = s.take d0 ∧ '.' ∉ inst ∧ dom = s.drop (d0 + 1)) ∧
    SplitFullHostName "router1.default.service.arpa".toList
      = .ok ("router1".toList, "default.service.arpa".toList) := by
  refine ⟨?_, ?_, rfl⟩
  · rcases exists_first_dot '.' s with h0 | ⟨x, y, hs, hx⟩
    · simp [SplitFullHostName_no_dot s h0, List.count_eq_zero.2 h0]
    · rw [hs, SplitFullHostName_append x y hx, count_dot_append x y hx]
      simp
  · intro inst dom h
    obtain ⟨hs, ha⟩ := (SplitFullHostName_ok_iff s inst dom).1 h
    refine ⟨inst.length, ?_, ?_, ?_, ha, ?_⟩
    · rw [hs]; exact getElem?_length_append _ _ _
    · rw [hs]; simp [List.count_eq_zero.2 ha]
    · rw [hs]; simp
    · conv_rhs => rw [hs]
      rw [drop_succ_length_append]


/-- C3: name split round trip: the parts returned by `SplitFullServiceName`,
joined by two separators, and the parts returned by `SplitFullHostName`,
joined by one separator, give back the input string. -/
theorem split_round_trip (s : List Char) :
    (∀ inst type dom, SplitFullServiceName s = .ok (inst, type, dom) →
      inst ++ ['.'] ++ type ++ ['.'] ++ dom = s) ∧
    (∀ inst dom, SplitFullHostName s = .ok (inst, dom) → inst ++ ['.'] ++ dom = s) := by
  constructor
  · intro inst type dom h
    obtain ⟨b, c, ht, hs, -⟩ := (SplitFullServiceName_ok_iff s inst type dom).1 h
    rw [hs, ht]; simp
  · intro inst dom h
    obtain ⟨hs, -⟩ := (SplitFullHostName_ok_iff s inst dom).1 h
    rw [hs]; simp

/-- Witness of C3 on the printer and the router names. -/
theorem split_round_trip_witness :
    ("myprinter".toList ++ ['.'] ++ "_ipp._tcp".toList ++ ['.'] ++ "default.service.arpa.".toList
      = "myprinter._ipp._tcp.default.service.arpa.".toList) ∧
    ("router1".toList ++ ['.'] ++ "default.service.arpa".toList
      = "router1.default.service.arpa".toList) :=
  ⟨(split_round_trip "myprinter._ipp._tcp.default.service.arpa.".toList).1 _ _ _ rfl,
   (split_round_trip "router1.default.service.arpa".toList).2 _ _ rfl⟩

/-- C4 fails as stated: the service name `foo.bar` has fewer than three
separators and the host name `router1` has none, and the error returned for
either is `OTBR_ERROR_INVALID_ARGS`, which is not `OTBR_ERROR_PARSE`. -/
theorem split_error_not_parse :
    ("foo.bar".toList.count '.' < 3 ∧
      SplitFullServiceName "foo.bar".toList = .error OTBR_ERROR_INVALID_ARGS ∧
      SplitFullServiceName "foo.bar".toList ≠ .error OTBR_ERROR_PARSE) ∧
    ("router1".toList.count '.' = 0 ∧
      SplitFullHostName "router1".toList = .error OTBR_ERROR_INVALID_ARGS ∧
      SplitFullHostName "router1".toList ≠ .error OTBR_ERROR_PARSE) := by
  refine ⟨⟨by decide, rfl, ?_⟩, ⟨by decide, rfl, ?_⟩⟩
  · have h : SplitFullServiceName "foo.bar".toList = .error OTBR_ERROR_INVALID_ARGS := rfl
    rw [h]; intro e; cases e
  · have h : SplitFullHostName "router1".toList = .error OTBR_ERROR_INVALID_ARGS := rfl
    rw [h]; intro e; cases e

/-- C4, amended: the error kind of a failed name split is
`OTBR_ERROR_INVALID_ARGS`: it is returned by `SplitFullServiceName` for every
string with fewer than three separators and by `SplitFullHostName` for every
string without a separator. -/
theorem split_error_invalid_args (s : List Char) :
    (s.count '.' < 3 → SplitFullServiceName s = .error OTBR_ERROR_INVALID_ARGS) ∧
    (s.count '.' = 0 → SplitFullHostName s = .error OTBR_ERROR_INVALID_ARGS) := by
  constructor
  · intro h
    cases hr : SplitFullServiceName s with
    | error e => rw [SplitFullServiceName_error s e hr]
    | ok r =>
      have := (SplitFullServiceName_succeeds_iff s).1 ⟨r, hr⟩
      omega
  · intro h
    exact SplitFullHostName_no_dot s (List.count_eq_zero.1 h)

/-- Witness of the amended C4 on `foo.bar` and on `router1`. -/
theorem split_error_invalid_args_witness :
    SplitFullServiceName "foo.bar".toList = .error OTBR_ERROR_INVALID_ARGS ∧
    SplitFullHostName "router1".toList = .error OTBR_ERROR_INVALID_ARGS :=
  ⟨(split_error_invalid_args "foo.bar".toList).1 (by decide),
   (split_error_invalid_args "router1".toList).2 (by decide)⟩


/-! ## The publisher trace -/

namespace AdvertisingProxy

theorem PublishServiceHandler_trace (self : AdvertisingProxy) (n t : List Char) (e : otbrError) :
    (self.PublishServiceHandler n t e).publisherTrace = self.publisherTrace := by
  unfold PublishServiceHandler
  split
  · rfl
  · split <;> rfl

theorem PublishHostHandler_trace (self : AdvertisingProxy) (n : List Char) (e : otbrError) :
    (self.PublishHostHandler n e).publisherTrace = self.publisherTrace := by
  unfold PublishHostHandler
  split <;> rfl

theorem deliver_trace (self : AdvertisingProxy) (c : Completion) :
    (self.deliver c).publisherTrace = self.publisherTrace := by
  cases c with
  | host n e => exact PublishHostHandler_trace self n e
  | service n t e => exact PublishServiceHandler_trace self n t e

theorem foldl_deliver_trace (cs : List Completion) (self : AdvertisingProxy) :
    (cs.foldl deliver self).publisherTrace = self.publisherTrace := by
  induction cs generalizing self with
  | nil => rfl
  | cons c cs ih => rw [List.foldl_cons, ih, deliver_trace]

theorem callPublisher_trace (pub : Publisher) (self : AdvertisingProxy) (c : PublisherCall)
    (h : self.undefinedBehaviour = false) :
    (callPublisher pub self c).1.publisherTrace
      = self.publisherTrace ++ [(c, pub self.publisherTrace c)] ∧
    (callPublisher pub self c).2 = (pub self.publisherTrace c).result := by
  simp [callPublisher, h, foldl_deliver_trace]

theorem callPublisher_frozen (pub : Publisher) (self : AdvertisingProxy) (c : PublisherCall)
    (h : self.undefinedBehaviour = true) :
    callPublisher pub self c = (self, OTBR_ERROR_NONE) := by
  simp [callPublisher, h]

theorem callPublisher_silent (pub : Publisher) (self : AdvertisingProxy) (c : PublisherCall)
    (h : self.undefinedBehaviour = false) (hs : (pub self.publisherTrace c).completions = []) :
    callPublisher pub self c
      = ({ self with publisherTrace := self.publisherTrace ++ [(c, pub self.publisherTrace c)] },
         (pub self.publisherTrace c).result) := by
  simp [callPublisher, h, hs]

/-- A call appends at most one entry to the trace, the call itself. -/
theorem callPublisher_trace_ext (pub : Publisher) (self : AdvertisingProxy) (c : PublisherCall) :
    ∃ ext, (callPublisher pub self c).1.publisherTrace = self.publisherTrace ++ ext ∧
      ∀ e ∈ ext, e.1 = c := by
  cases h : self.undefinedBehaviour with
  | true => exact ⟨[], by simp [callPublisher_frozen pub self c h], by simp⟩
  | false => exact ⟨[(c, pub self.publisherTrace c)], (callPublisher_trace pub self c h).1, by simp⟩

theorem serviceCall_isServiceCall (hn : List Char) (ph : Bool) (s : otSrpServerService)
    (n t : List Char) : IsServiceCall (serviceCall hn ph s n t) := by
  unfold serviceCall
  split <;> trivial

theorem publishServices_nil (pub : Publisher) (hn : List Char) (ph : Bool)
    (self : AdvertisingProxy) :
    publishServices pub hn ph [] self = (self, OTBR_ERROR_NONE) := rfl

theorem publishServices_cons_error (pub : Publisher) (hn : List Char) (ph : Bool)
    (s : otSrpServerService) (rest : List otSrpServerService) (self : AdvertisingProxy)
    (e : otbrError) (h : SplitFullServiceName s.mFullName = .error e) :
    publishServices pub hn ph (s :: rest) self = (self, e) := by
  rw [publishServices, h]

theorem publishServices_cons_stop (pub : Publisher) (hn : List Char) (ph : Bool)
    (s : otSrpServerService) (rest : List otSrpServerService) (self : AdvertisingProxy)
    (n t d : List Char) (h : SplitFullServiceName s.mFullName = .ok (n, t, d))
    (hr : (callPublisher pub self (serviceCall hn ph s n t)).2 ≠ OTBR_ERROR_NONE) :
    publishServices pub hn ph (s :: rest) self
      = callPublisher pub self (serviceCall hn ph s n t) := by
  rw [publishServices, h]
  simp only []
  rw [if_pos hr]

theorem publishServices_cons_next (pub : Publisher) (hn : List Char) (ph : Bool)
    (s : otSrpServerService) (rest : List otSrpServerService) (self : AdvertisingProxy)
    (n t d : List Char) (h : SplitFullServiceName s.mFullName = .ok (n, t, d))
    (hr : (callPublisher pub self (serviceCall hn ph s n t)).2 = OTBR_ERROR_NONE) :
    publishServices pub hn ph (s :: rest) self
      = publishServices pub hn ph rest (callPublisher pub self (serviceCall hn ph s n t)).1 := by
  rw [publishServices, h]
  simp only []
  rw [if_neg (by simp [hr])]

theorem publishServices_trace_ext (pub : Publisher) (hn : List Char) (ph : Bool)
    (svcs : List otSrpServerService) (self : AdvertisingProxy) :
    ∃ ext, (publishServices pub hn ph svcs self).1.publisherTrace = self.publisherTrace ++ ext ∧
      ∀ e ∈ ext, IsServiceCall e.1 := by
  induction svcs generalizing self with
  | nil => exact ⟨[], by simp [publishServices], by simp⟩
  | cons s rest ih =>
    cases hsplit : SplitFullServiceName s.mFullName with
    | error e => exact ⟨[], by simp [publishServices_cons_error _ _ _ _ _ _ e hsplit], by simp⟩
    | ok r =>
      obtain ⟨n, t, d⟩ := r
      obtain ⟨ext1, h1, hc1⟩ := callPublisher_trace_ext pub self (serviceCall hn ph s n t)
      have hsc : ∀ e ∈ ext1, IsServiceCall e.1 := by
        intro e he
        rw [hc1 e he]
        exact serviceCall_isServiceCall _ _ _ _ _
      by_cases hr : (callPublisher pub self (serviceCall hn ph s n t)).2 = OTBR_ERROR_NONE
      · rw [publishServices_cons_next _ _ _ _ _ _ n t d hsplit hr]
        obtain ⟨ext2, h2, hc2⟩ := ih (callPublisher pub self (serviceCall hn ph s n t)).1
        refine ⟨ext1 ++ ext2, by rw [h2, h1, List.append_assoc], ?_⟩
        intro e he
        rcases List.mem_append.1 he with h | h
        · exact hsc e h
        · exact hc2 e h
      · rw [publishServices_cons_stop _ _ _ _ _ _ n t d hsplit hr]
        exact ⟨ext1, h1, hsc⟩

theorem mem_drop_of_append {α : Type} (l ext : List α) (l2 : List α) (e : α)
    (h : l2 = l ++ ext) (he : e ∈ ext) : e ∈ l2.drop l.length := by
  rw [h, List.drop_left]; exact he

/-- The services loop when no completion is delivered during its calls. -/
theorem publishServices_silent (pub : Publisher) (hn : List Char) (ph : Bool)
    (svcs : List otSrpServerService) (self : AdvertisingProxy)
    (hdef : self.undefinedBehaviour = false)
    (hsil : ∀ e ∈ (publishServices pub hn ph svcs self).1.publisherTrace.drop
      self.publisherTrace.length, e.2.completions = []) :
    ∃ ext, (publishServices pub hn ph svcs self).1
        = { self with publisherTrace := self.publisherTrace ++ ext } ∧
      ((publishServices pub hn ph svcs self).2 = OTBR_ERROR_NONE →
        List.Forall₂ (fun s e => ∃ n t d, SplitFullServiceName s.mFullName = .ok (n, t, d) ∧
          e.1 = serviceCall hn ph s n t ∧ e.2.result = OTBR_ERROR_NONE) svcs ext) ∧
      ((publishServices pub hn ph svcs self).2 ≠ OTBR_ERROR_NONE →
        (∃ s ∈ svcs, ∃ err, SplitFullServiceName s.mFullName = .error err) ∨
        (∃ e ∈ ext, e.2.result ≠ OTBR_ERROR_NONE)) := by
  induction svcs generalizing self with
  | nil =>
    refine ⟨[], by simp [publishServices], ?_, ?_⟩
    · intro _; exact List.Forall₂.nil
    · intro h; exact absurd rfl h
  | cons s rest ih =>
    cases hsplit : SplitFullServiceName s.mFullName with
    | error err =>
      rw [publishServices_cons_error _ _ _ _ _ _ err hsplit]
      refine ⟨[], by simp, ?_, ?_⟩
      · intro h
        have := SplitFullServiceName_error _ _ hsplit
        rw [this] at h; cases h
      · intro _; exact Or.inl ⟨s, by simp, err, hsplit⟩
    | ok r =>
      obtain ⟨n, t, d⟩ := r
      have htr := callPublisher_trace pub self (serviceCall hn ph s n t) hdef
      obtain ⟨ext2, hext2, -⟩ := publishServices_trace_ext pub hn ph rest
        (callPublisher pub self (serviceCall hn ph s n t)).1
      by_cases hr : (callPublisher pub self (serviceCall hn ph s n t)).2 = OTBR_ERROR_NONE
      · rw [publishServices_cons_next _ _ _ _ _ _ n t d hsplit hr] at hsil ⊢
        have hq : (pub self.publisherTrace (serviceCall hn ph s n t)).completions = [] := by
          apply hsil (serviceCall hn ph s n t, pub self.publisherTrace (serviceCall hn ph s n t))
          apply mem_drop_of_append _ ((serviceCall hn ph s n t,
            pub self.publisherTrace (serviceCall hn ph s n t)) :: ext2)
          · rw [hext2, htr.1]; simp
          · simp
        have hcall := callPublisher_silent pub self (serviceCall hn ph s n t) hdef hq
        rw [hcall] at hsil ⊢
        rw [hcall] at hr
        simp only [] at hsil hr ⊢
        obtain ⟨ext, he1, he2, he3⟩ := ih
          { self with publisherTrace := self.publisherTrace ++
            [(serviceCall hn ph s n t, pub self.publisherTrace (serviceCall hn ph s n t))] }
          hdef (by
            intro e he
            apply hsil e
            simp only [List.length_append, List.length_singleton] at he
            rw [← List.drop_drop] at he
            exact List.mem_of_mem_drop he)
        refine ⟨(serviceCall hn ph s n t, pub self.publisherTrace (serviceCall hn ph s n t)) :: ext,
          ?_, ?_, ?_⟩
        · rw [he1]; simp
        · intro h
          exact List.Forall₂.cons ⟨n, t, d, hsplit, rfl, hr⟩ (he2 h)
        · intro h
          rcases he3 h with ⟨s', hs', err, herr⟩ | ⟨e, he, hne⟩
          · exact Or.inl ⟨s', by simp [hs'], err, herr⟩
          · exact Or.inr ⟨e, by simp [he], hne⟩
      · rw [publishServices_cons_stop _ _ _ _ _ _ n t d hsplit hr] at hsil ⊢
        have hq : (pub self.publisherTrace (serviceCall hn ph s n t)).completions = [] := by
          apply hsil (serviceCall hn ph s n t, pub self.publisherTrace (serviceCall hn ph s n t))
          apply mem_drop_of_append _ [(serviceCall hn ph s n t,
            pub self.publisherTrace (serviceCall hn ph s n t))]
          · rw [htr.1]
          · simp
        have hcall := callPublisher_silent pub self (serviceCall hn ph s n t) hdef hq
        rw [hcall] at hr ⊢
        simp only [] at hr ⊢
        refine ⟨[(serviceCall hn ph s n t, pub self.publisherTrace (serviceCall hn ph s n t))],
          rfl, ?_, ?_⟩
        · intro h; exact absurd h hr
        · intro _
          exact Or.inr ⟨(serviceCall hn ph s n t,
            pub self.publisherTrace (serviceCall hn ph s n t)), by simp, hr⟩

theorem countUpdates_fold (svcs : List otSrpServerService) (init : Nat) :
    svcs.foldl (fun count service => (count + (!service.mIsDeleted).toNat) % 2 ^ 32)
        (init % 2 ^ 32)
      = (init + (svcs.filter (fun s => !s.mIsDeleted)).length) % 2 ^ 32 := by
  induction svcs generalizing init with
  | nil => simp
  | cons s rest ih =>
    rw [List.foldl_cons]
    have e : (init % 2 ^ 32 + (!s.mIsDeleted).toNat) % 2 ^ 32
        = (init + (!s.mIsDeleted).toNat) % 2 ^ 32 := by
      rw [Nat.add_mod, Nat.mod_mod, ← Nat.add_mod]
    rw [e, ih]
    cases hd : s.mIsDeleted <;> simp [hd, Nat.add_assoc, Nat.add_comm 1]

theorem countUpdates_eq (ph : Bool) (svcs : List otSrpServerService) :
    countUpdates ph svcs
      = (ph.toNat + (svcs.filter (fun s => !s.mIsDeleted)).length) % 2 ^ 32 := by
  unfold countUpdates
  rw [countUpdates_fold]
  simp

theorem countUpdates_bounded (addrs : List otIp6Address) (svcs : List otSrpServerService)
    (h : svcs.length + 1 < 2 ^ 32) :
    countUpdates (decide (addrs.length > 0)) svcs
      = (if addrs ≠ [] then 1 else 0) + (svcs.filter (fun s => !s.mIsDeleted)).length := by
  rw [countUpdates_eq]
  have hle : (svcs.filter (fun s => !s.mIsDeleted)).length ≤ svcs.length :=
    List.length_filter_le _ _
  cases addrs with
  | nil =>
    simp only [List.length_nil, gt_iff_lt, Nat.lt_irrefl, decide_False, Bool.toNat_false,
      ne_eq, not_true_eq_false, if_false]
    apply Nat.mod_eq_of_lt; omega
  | cons a as =>
    simp only [List.length_cons, gt_iff_lt, Nat.zero_lt_succ, decide_True, Bool.toNat_true,
      ne_eq, reduceCtorEq, not_false_eq_true, if_true]
    apply Nat.mod_eq_of_lt; omega

theorem advertiseExit_trace (aHost : otSrpServerHost) (r : AdvertisingProxy × otbrError) :
    (advertiseExit aHost r).publisherTrace = r.1.publisherTrace := by
  unfold advertiseExit
  split
  · rfl
  · split
    · split <;> rfl
    · rfl

theorem AdvertisingHandler_trace (pub : Publisher) (self : AdvertisingProxy)
    (aHost : otSrpServerHost) (h : self.undefinedBehaviour = false) :
    (AdvertisingHandler pub self aHost).publisherTrace
      = (advertise pub self aHost).1.publisherTrace := by
  simp [AdvertisingHandler, h, advertiseExit_trace]

theorem advertise_error (pub : Publisher) (self : AdvertisingProxy) (aHost : otSrpServerHost)
    (e : otbrError) (h : SplitFullHostName aHost.mFullName = .error e) :
    advertise pub self aHost
      = ({ self with mOutstandingUpdates := self.mOutstandingUpdates ++
            [⟨aHost, countUpdates (decide (aHost.mAddresses.length > 0)) aHost.mServices⟩] }, e) := by
  simp only [advertise, h]

theorem advertise_stop (pub : Publisher) (self : AdvertisingProxy) (aHost : otSrpServerHost)
    (hn dom : List Char) (h : SplitFullHostName aHost.mFullName = .ok (hn, dom))
    (hr : (callPublisher pub { self with mOutstandingUpdates := self.mOutstandingUpdates ++
            [⟨aHost, countUpdates (decide (aHost.mAddresses.length > 0)) aHost.mServices⟩] }
          (hostCall hn aHost.mAddresses)).2 ≠ OTBR_ERROR_NONE) :
    advertise pub self aHost
      = callPublisher pub { self with mOutstandingUpdates := self.mOutstandingUpdates ++
            [⟨aHost, countUpdates (decide (aHost.mAddresses.length > 0)) aHost.mServices⟩] }
          (hostCall hn aHost.mAddresses) := by
  simp only [advertise, h]
  rw [if_pos hr]

theorem advertise_next (pub : Publisher) (self : AdvertisingProxy) (aHost : otSrpServerHost)
    (hn dom : List Char) (h : SplitFullHostName aHost.mFullName = .ok (hn, dom))
    (hr : (callPublisher pub { self with mOutstandingUpdates := self.mOutstandingUpdates ++
            [⟨aHost, countUpdates (decide (aHost.mAddresses.length > 0)) aHost.mServices⟩] }
          (hostCall hn aHost.mAddresses)).2 = OTBR_ERROR_NONE) :
    advertise pub self aHost
      = publishServices pub hn (decide (aHost.mAddresses.length > 0)) aHost.mServices
          (callPublisher pub { self with mOutstandingUpdates := self.mOutstandingUpdates ++
            [⟨aHost, countUpdates (decide (aHost.mAddresses.length > 0)) aHost.mServices⟩] }
          (hostCall hn aHost.mAddresses)).1 := by
  simp only [advertise, h]
  rw [if_neg (by simp [hr])]

/-- The trace of a dispatch, for any publisher: when the host name splits, one
entry for the host operation, then entries for service operations only. -/
theorem advertise_trace (pub : Publisher) (self : AdvertisingProxy) (aHost : otSrpServerHost)
    (hn dom : List Char) (hdef : self.undefinedBehaviour = false)
    (h : SplitFullHostName aHost.mFullName = .ok (hn, dom)) :
    ∃ ext, (advertise pub self aHost).1.publisherTrace
        = self.publisherTrace ++
          (hostCall hn aHost.mAddresses, pub self.publisherTrace (hostCall hn aHost.mAddresses))
            :: ext ∧
      ∀ e ∈ ext, IsServiceCall e.1 := by
  have htr := callPublisher_trace pub { self with mOutstandingUpdates :=
      self.mOutstandingUpdates ++
        [⟨aHost, countUpdates (decide (aHost.mAddresses.length > 0)) aHost.mServices⟩] }
    (hostCall hn aHost.mAddresses) hdef
  by_cases hr : (callPublisher pub { self with mOutstandingUpdates :=
      self.mOutstandingUpdates ++
        [⟨aHost, countUpdates (decide (aHost.mAddresses.length > 0)) aHost.mServices⟩] }
    (hostCall hn aHost.mAddresses)).2 = OTBR_ERROR_NONE
  · rw [advertise_next pub self aHost hn dom h hr]
    obtain ⟨ext, he, hs⟩ := publishServices_trace_ext pub hn
      (decide (aHost.mAddresses.length > 0)) aHost.mServices
      (callPublisher pub { self with mOutstandingUpdates := self.mOutstandingUpdates ++
        [⟨aHost, countUpdates (decide (aHost.mAddresses.length > 0)) aHost.mServices⟩] }
        (hostCall hn aHost.mAddresses)).1
    refine ⟨ext, ?_, hs⟩
    rw [he, htr.1]; simp
  · rw [advertise_stop pub self aHost hn dom h hr]
    exact ⟨[], by rw [htr.1], by simp⟩

/-- The body of `AdvertisingHandler` when no completion is delivered during
its calls: the record is appended, the trace grows, and `error` is
`OTBR_ERROR_NONE` exactly when every split and every call succeeded. -/
theorem advertise_silent (pub : Publisher) (self : AdvertisingProxy) (aHost : otSrpServerHost)
    (hdef : self.undefinedBehaviour = false)
    (hsil : ∀ e ∈ (advertise pub self aHost).1.publisherTrace.drop self.publisherTrace.length,
      e.2.completions = []) :
    ∃ ext, (advertise pub self aHost).1
        = { self with
            mOutstandingUpdates := self.mOutstandingUpdates ++
              [⟨aHost, countUpdates (decide (aHost.mAddresses.length > 0)) aHost.mServices⟩],
            publisherTrace := self.publisherTrace ++ ext } ∧
      ((advertise pub self aHost).2 = OTBR_ERROR_NONE →
        ∃ hn dom e0 exts, SplitFullHostName aHost.mFullName = .ok (hn, dom) ∧
          ext = e0 :: exts ∧ e0.1 = hostCall hn aHost.mAddresses ∧
          e0.2.result = OTBR_ERROR_NONE ∧
          List.Forall₂ (fun s e => ∃ n t d, SplitFullServiceName s.mFullName = .ok (n, t, d) ∧
            e.1 = serviceCall hn (decide (aHost.mAddresses.length > 0)) s n t ∧
            e.2.result = OTBR_ERROR_NONE) aHost.mServices exts) ∧
      ((advertise pub self aHost).2 ≠ OTBR_ERROR_NONE →
        (∃ err, SplitFullHostName aHost.mFullName = .error err) ∨
        (∃ s ∈ aHost.mServices, ∃ err, SplitFullServiceName s.mFullName = .error err) ∨
        (∃ e ∈ ext, e.2.result ≠ OTBR_ERROR_NONE)) := by
  cases hsplit : SplitFullHostName aHost.mFullName with
  | error err =>
    rw [advertise_error pub self aHost err hsplit]
    refine ⟨[], by simp, ?_, ?_⟩
    · intro h
      have := SplitFullHostName_error _ _ hsplit
      rw [this] at h; cases h
    · intro _; exact Or.inl ⟨err, rfl⟩
  | ok r =>
    obtain ⟨hn, dom⟩ := r
    have hdef1 : ({ self with mOutstandingUpdates := self.mOutstandingUpdates ++
        [⟨aHost, countUpdates (decide (aHost.mAddresses.length > 0)) aHost.mServices⟩] }
        : AdvertisingProxy).undefinedBehaviour = false := hdef
    obtain ⟨ext0, hext0, -⟩ := advertise_trace pub self aHost hn dom hdef hsplit
    have hq : (pub self.publisherTrace (hostCall hn aHost.mAddresses)).completions = [] := by
      apply hsil (hostCall hn aHost.mAddresses, pub self.publisherTrace (hostCall hn aHost.mAddresses))
      rw [hext0, List.drop_left]
      simp
    have hcall := callPublisher_silent pub _ (hostCall hn aHost.mAddresses) hdef1 hq
    simp only [] at hcall
    by_cases hr : (pub self.publisherTrace (hostCall hn aHost.mAddresses)).result = OTBR_ERROR_NONE
    · have hnext := advertise_next pub self aHost hn dom hsplit (by rw [hcall]; exact hr)
      rw [hcall] at hnext
      simp only [] at hnext
      rw [hnext] at hsil ⊢
      obtain ⟨ext, he1, he2, he3⟩ := publishServices_silent pub hn
        (decide (aHost.mAddresses.length > 0)) aHost.mServices
        { mOutstandingUpdates := self.mOutstandingUpdates ++
            [⟨aHost, countUpdates (decide (aHost.mAddresses.length > 0)) aHost.mServices⟩],
          publisherTrace := self.publisherTrace ++
            [(hostCall hn aHost.mAddresses, pub self.publisherTrace (hostCall hn aHost.mAddresses))],
          stackResults := self.stackResults,
          undefinedBehaviour := self.undefinedBehaviour }
        hdef (by
          intro e he
          apply hsil e
          simp only [List.length_append, List.length_singleton] at he
          rw [← List.drop_drop] at he
          exact List.mem_of_mem_drop he)
      refine ⟨(hostCall hn aHost.mAddresses,
        pub self.publisherTrace (hostCall hn aHost.mAddresses)) :: ext, ?_, ?_, ?_⟩
      · rw [he1]; simp
      · intro h
        exact ⟨hn, dom, _, ext, rfl, rfl, rfl, hr, he2 h⟩
      · intro h
        rcases he3 h with h1 | ⟨e, he, hne⟩
        · exact Or.inr (Or.inl h1)
        · exact Or.inr (Or.inr ⟨e, by simp [he], hne⟩)
    · have hstop := advertise_stop pub self aHost hn dom hsplit (by rw [hcall]; exact hr)
      rw [hcall] at hstop
      rw [hstop]
      refine ⟨[(hostCall hn aHost.mAddresses,
        pub self.publisherTrace (hostCall hn aHost.mAddresses))], rfl, ?_, ?_⟩
      · intro h; exact absurd h hr
      · intro _
        exact Or.inr (Or.inr ⟨(hostCall hn aHost.mAddresses,
          pub self.publisherTrace (hostCall hn aHost.mAddresses)), by simp, hr⟩)

theorem OtbrErrorToOtError_eq_none (e : otbrError) :
    OtbrErrorToOtError e = OT_ERROR_NONE ↔ e = OTBR_ERROR_NONE := by
  cases e <;> simp [OtbrErrorToOtError]

theorem staticCastOtError_eq_none (e : otbrError) :
    staticCastOtError e = OT_ERROR_NONE ↔ e = OTBR_ERROR_NONE := by
  cases e <;> simp [staticCastOtError]

/-- The whole handler when no completion is delivered during its calls. -/
theorem AdvertisingHandler_silent (pub : Publisher) (self : AdvertisingProxy)
    (aHost : otSrpServerHost) (hdef : self.undefinedBehaviour = false)
    (hsil : ∀ e ∈ (AdvertisingHandler pub self aHost).publisherTrace.drop
      self.publisherTrace.length, e.2.completions = []) :
    ∃ ext,
      ((advertise pub self aHost).2 = OTBR_ERROR_NONE →
        AdvertisingHandler pub self aHost = { self with
          mOutstandingUpdates := self.mOutstandingUpdates ++
            [⟨aHost, countUpdates (decide (aHost.mAddresses.length > 0)) aHost.mServices⟩],
          publisherTrace := self.publisherTrace ++ ext }) ∧
      ((advertise pub self aHost).2 ≠ OTBR_ERROR_NONE →
        AdvertisingHandler pub self aHost = { self with
          publisherTrace := self.publisherTrace ++ ext,
          stackResults := self.stackResults ++
            [(aHost, OtbrErrorToOtError (advertise pub self aHost).2)] }) ∧
      ((advertise pub self aHost).2 = OTBR_ERROR_NONE →
        ∃ hn dom e0 exts, SplitFullHostName aHost.mFullName = .ok (hn, dom) ∧
          ext = e0 :: exts ∧ e0.1 = hostCall hn aHost.mAddresses ∧
          e0.2.result = OTBR_ERROR_NONE ∧
          List.Forall₂ (fun s e => ∃ n t d, SplitFullServiceName s.mFullName = .ok (n, t, d) ∧
            e.1 = serviceCall hn (decide (aHost.mAddresses.length > 0)) s n t ∧
            e.2.result = OTBR_ERROR_NONE) aHost.mServices exts) ∧
      ((advertise pub self aHost).2 ≠ OTBR_ERROR_NONE →
        (∃ err, SplitFullHostName aHost.mFullName = .error err) ∨
        (∃ s ∈ aHost.mServices, ∃ err, SplitFullServiceName s.mFullName = .error err) ∨
        (∃ e ∈ ext, e.2.result ≠ OTBR_ERROR_NONE)) := by
  rw [AdvertisingHandler_trace pub self aHost hdef] at hsil
  obtain ⟨ext, h1, h2, h3⟩ := advertise_silent pub self aHost hdef hsil
  refine ⟨ext, ?_, ?_, h2, h3⟩
  · intro he
    simp only [AdvertisingHandler, hdef, advertiseExit, h1, he]
    simp
  · intro he
    simp only [AdvertisingHandler, hdef, advertiseExit, h1]
    simp only [Bool.false_eq_true, if_false, if_pos he]
    cases hl : self.mOutstandingUpdates ++
        [(⟨aHost, countUpdates (decide (aHost.mAddresses.length > 0)) aHost.mServices⟩
          : OutstandingUpdate)] with
    | nil => simp at hl
    | cons x xs =>
      simp only []
      rw [← hl, List.dropLast_concat]

theorem serviceCall_eq (hn : List Char) (addrs : List otIp6Address) (s : otSrpServerService)
    (n t : List Char) :
    serviceCall hn (decide (addrs.length > 0)) s n t
      = if addrs ≠ [] ∧ s.mIsDeleted = false then .PublishService hn s.mPort n t []
        else .UnpublishService n t := by
  cases addrs <;> cases hd : s.mIsDeleted <;> simp [serviceCall, hd]

theorem forall₂_exists_right {α β : Type} {R : α → β → Prop} {l1 : List α} {l2 : List β}
    (h : List.Forall₂ R l1 l2) : ∀ a ∈ l1, ∃ b ∈ l2, R a b := by
  induction h with
  | nil => intro a ha; cases ha
  | cons hr _ ih =>
    intro a ha
    rcases List.mem_cons.1 ha with e | e
    · exact ⟨_, List.mem_cons_self _ _, e ▸ hr⟩
    · obtain ⟨b, hb, hab⟩ := ih a e
      exact ⟨b, List.mem_cons_of_mem _ hb, hab⟩

theorem forall₂_exists_left {α β : Type} {R : α → β → Prop} {l1 : List α} {l2 : List β}
    (h : List.Forall₂ R l1 l2) : ∀ b ∈ l2, ∃ a ∈ l1, R a b := by
  induction h with
  | nil => intro b hb; cases hb
  | cons hr _ ih =>
    intro b hb
    rcases List.mem_cons.1 hb with e | e
    · exact ⟨_, List.mem_cons_self _ _, e ▸ hr⟩
    · obtain ⟨a, ha, hab⟩ := ih b e
      exact ⟨a, List.mem_cons_of_mem _ ha, hab⟩

/-! ## Dispatch (claims C5 to C8) -/

/-- C5: when a host update is dispatched successfully (the host name and all
service names split, every publisher call made during the dispatch returns
`OTBR_ERROR_NONE` and delivers no completion), `AdvertisingHandler` runs
without undefined operation and leaves the in-flight list equal to the
previous list followed by one record for the host of the event, whose count
is one if the host has an address, else zero, plus the number of services
that are not deleted.  The host has fewer than `2 ^ 32 - 1` services, so that
the `uint32_t` count does not wrap. -/
theorem AdvertisingHandler_appends_record (pub : Publisher) (self : AdvertisingProxy)
    (aHost : otSrpServerHost)
    (hdef : self.undefinedBehaviour = false)
    (hhost : ∃ r, SplitFullHostName aHost.mFullName = .ok r)
    (hsvc : ∀ s ∈ aHost.mServices, ∃ r, SplitFullServiceName s.mFullName = .ok r)
    (hpub : ∀ e ∈ (AdvertisingHandler pub self aHost).publisherTrace.drop
      self.publisherTrace.length, e.2 = ⟨[], OTBR_ERROR_NONE⟩)
    (hbound : aHost.mServices.length + 1 < 2 ^ 32) :
    (AdvertisingHandler pub self aHost).undefinedBehaviour = false ∧
    (AdvertisingHandler pub self aHost).mOutstandingUpdates
      = self.mOutstandingUpdates ++
        [⟨aHost, (if aHost.mAddresses ≠ [] then 1 else 0)
          + (aHost.mServices.filter (fun s => !s.mIsDeleted)).length⟩] := by
  obtain ⟨ext, h1, h2, -, h4⟩ := AdvertisingHandler_silent pub self aHost hdef
    (fun e he => by rw [hpub e he])
  have hok : (advertise pub self aHost).2 = OTBR_ERROR_NONE := by
    by_contra hne
    rcases h4 hne with ⟨err, herr⟩ | ⟨s, hs, err, herr⟩ | ⟨e, he, hres⟩
    · obtain ⟨r, hr⟩ := hhost; rw [hr] at herr; cases herr
    · obtain ⟨r, hr⟩ := hsvc s hs; rw [hr] at herr; cases herr
    · apply hres
      rw [hpub e (by rw [h2 hne]; simp only [List.drop_left]; exact he)]
  rw [h1 hok, countUpdates_bounded aHost.mAddresses aHost.mServices hbound]
  exact ⟨hdef, rfl⟩

/-- Witness of C5: the router host, dispatched by an idle proxy to a quiet
publisher, is in flight with count two. -/
theorem AdvertisingHandler_appends_record_witness :
    (AdvertisingHandler quietPublisher idleProxy routerHost).undefinedBehaviour = false ∧
    (AdvertisingHandler quietPublisher idleProxy routerHost).mOutstandingUpdates
      = [] ++ [⟨routerHost, (if routerHost.mAddresses ≠ [] then 1 else 0)
          + (routerHost.mServices.filter (fun s => !s.mIsDeleted)).length⟩] :=
  AdvertisingHandler_appends_record quietPublisher idleProxy routerHost rfl ⟨_, rfl⟩
    (by intro s hs; rw [List.mem_singleton.1 hs]; exact ⟨_, rfl⟩) (by decide) (by decide)

/-- C6: when the host name of the event splits, the first publisher call of
`AdvertisingHandler` is the host operation: `PublishHost` with the instance
label and the first address if the host has an address, `UnpublishHost` with
the instance label otherwise; every later call of the dispatch is a service
operation, so that exactly one host call is made. -/
theorem AdvertisingHandler_host_call (pub : Publisher) (self : AdvertisingProxy)
    (aHost : otSrpServerHost) (inst dom : List Char)
    (hdef : self.undefinedBehaviour = false)
    (hsplit : SplitFullHostName aHost.mFullName = .ok (inst, dom)) :
    ∃ call reply rest,
      (AdvertisingHandler pub self aHost).publisherTrace
        = self.publisherTrace ++ (call, reply) :: rest ∧
      (∀ a as, aHost.mAddresses = a :: as → call = .PublishHost inst a) ∧
      (aHost.mAddresses = [] → call = .UnpublishHost inst) ∧
      ∀ e ∈ rest, IsServiceCall e.1 := by
  obtain ⟨ext, he, hs⟩ := advertise_trace pub self aHost inst dom hdef hsplit
  refine ⟨hostCall inst aHost.mAddresses,
    pub self.publisherTrace (hostCall inst aHost.mAddresses), ext, ?_, ?_, ?_, hs⟩
  · rw [AdvertisingHandler_trace pub self aHost hdef, he]
  · intro a as h; rw [h]; rfl
  · intro h; rw [h]; rfl

/-- Witness of C6 on the router host. -/
theorem AdvertisingHandler_host_call_witness :
    ∃ call reply rest,
      (AdvertisingHandler quietPublisher idleProxy routerHost).publisherTrace
        = idleProxy.publisherTrace ++ (call, reply) :: rest ∧
      (∀ a as, routerHost.mAddresses = a :: as → call = .PublishHost "router1".toList a) ∧
      (routerHost.mAddresses = [] → call = .UnpublishHost "router1".toList) ∧
      ∀ e ∈ rest, IsServiceCall e.1 :=
  AdvertisingHandler_host_call quietPublisher idleProxy routerHost "router1".toList
    "default.service.arpa".toList rfl rfl

/-- C7: in a successful dispatch (the host name and all service names split,
every publisher call made during the dispatch returns `OTBR_ERROR_NONE` and
delivers no completion) the calls that follow the host call are one per
service of the host, in service-list order: for a service
that is not deleted, of a host with an address, `PublishService` with the
host instance label, the port, the instance and the type of the service and
an empty attribute list; otherwise `UnpublishService` with the instance and
the type; instance and type are those given by `SplitFullServiceName`. -/
theorem AdvertisingHandler_service_calls (pub : Publisher) (self : AdvertisingProxy)
    (aHost : otSrpServerHost) (hostInst hostDom : List Char)
    (hdef : self.undefinedBehaviour = false)
    (hhost : SplitFullHostName aHost.mFullName = .ok (hostInst, hostDom))
    (hsvc : ∀ s ∈ aHost.mServices, ∃ r, SplitFullServiceName s.mFullName = .ok r)
    (hpub : ∀ e ∈ (AdvertisingHandler pub self aHost).publisherTrace.drop
      self.publisherTrace.length, e.2 = ⟨[], OTBR_ERROR_NONE⟩) :
    ∃ hostEntry entries,
      (AdvertisingHandler pub self aHost).publisherTrace
        = self.publisherTrace ++ hostEntry :: entries ∧
      List.Forall₂ (fun s e => ∃ inst type dom,
        SplitFullServiceName s.mFullName = .ok (inst, type, dom) ∧
        e.1 = if aHost.mAddresses ≠ [] ∧ s.mIsDeleted = false then
            .PublishService hostInst s.mPort inst type []
          else .UnpublishService inst type) aHost.mServices entries := by
  obtain ⟨ext, h1, h2, h3, h4⟩ := AdvertisingHandler_silent pub self aHost hdef
    (fun e he => by rw [hpub e he])
  have hok : (advertise pub self aHost).2 = OTBR_ERROR_NONE := by
    by_contra hne
    rcases h4 hne with ⟨err, herr⟩ | ⟨s, hs, err, herr⟩ | ⟨e, he, hres⟩
    · rw [hhost] at herr; cases herr
    · obtain ⟨r, hr⟩ := hsvc s hs; rw [hr] at herr; cases herr
    · apply hres
      rw [hpub e (by rw [h2 hne]; simp only [List.drop_left]; exact he)]
  obtain ⟨hn, dom, e0, exts, hsp, hext, -, -, hall⟩ := h3 hok
  rw [hhost] at hsp
  cases hsp
  refine ⟨e0, exts, by rw [h1 hok, hext], ?_⟩
  refine List.Forall₂.imp ?_ hall
  rintro s e ⟨n, t, d, hs, hc, -⟩
  exact ⟨n, t, d, hs, by rw [hc, serviceCall_eq]⟩

/-- Witness of C7 on the router host and its printer service. -/
theorem AdvertisingHandler_service_calls_witness :
    ∃ hostEntry entries,
      (AdvertisingHandler quietPublisher idleProxy routerHost).publisherTrace
        = idleProxy.publisherTrace ++ hostEntry :: entries ∧
      List.Forall₂ (fun s e => ∃ inst type dom,
        SplitFullServiceName s.mFullName = .ok (inst, type, dom) ∧
        e.1 = if routerHost.mAddresses ≠ [] ∧ s.mIsDeleted = false then
            .PublishService "router1".toList s.mPort inst type []
          else .UnpublishService inst type) routerHost.mServices entries :=
  AdvertisingHandler_service_calls quietPublisher idleProxy routerHost "router1".toList
    "default.service.arpa".toList rfl rfl
    (by intro s hs; rw [List.mem_singleton.1 hs]; exact ⟨_, rfl⟩) (by decide)

/-- C8 fails as stated: the router record is in flight with count two when a
later update of the same host is dispatched; the publisher completes
`PublishHost` before returning, and the completion is attributed to the first
record with that host name, the older one; the split of the service name
`bad` then fails.  When `AdvertisingHandler` returns, the in-flight list is
not the list as it was before the event: the count of the older record is
one. -/
theorem dispatch_failure_not_atomic :
    routerInFlight.undefinedBehaviour = false ∧
    (∃ s ∈ renewedHost.mServices,
      SplitFullServiceName s.mFullName = .error OTBR_ERROR_INVALID_ARGS) ∧
    routerInFlight.mOutstandingUpdates = [⟨routerHost, 2⟩] ∧
    (AdvertisingHandler promptPublisher routerInFlight renewedHost).mOutstandingUpdates
      = [⟨routerHost, 1⟩] ∧
    (AdvertisingHandler promptPublisher routerInFlight renewedHost).mOutstandingUpdates
      ≠ routerInFlight.mOutstandingUpdates :=
  ⟨rfl, ⟨_, List.mem_singleton.2 rfl, rfl⟩, rfl, rfl, by decide⟩

/-! ## Completion handling -/

theorem scanServices_notFound (n nt : List Char) (svcs : List otSrpServerService)
    (h : ∀ s ∈ svcs, ∃ inst type dom,
      SplitFullServiceName s.mFullName = .ok (inst, type, dom) ∧ ¬ (inst = n ∧ type = nt)) :
    scanServices n nt svcs = .notFound := by
  induction svcs with
  | nil => rfl
  | cons s rest ih =>
    obtain ⟨inst, type, dom, hs, hne⟩ := h s (List.mem_cons_self _ _)
    have hne2 : ¬ (n = inst ∧ nt = type) := fun ⟨a, b⟩ => hne ⟨a.symm, b.symm⟩
    rw [scanServices, hs]
    simp only [hne2, if_false]
    exact ih (fun s' hs' => h s' (List.mem_cons_of_mem _ hs'))

theorem scanServices_found (n nt : List Char) (before after : List otSrpServerService)
    (s : otSrpServerService) (dom : List Char)
    (hs : SplitFullServiceName s.mFullName = .ok (n, nt, dom))
    (h : ∀ s' ∈ before, ∃ inst type dom',
      SplitFullServiceName s'.mFullName = .ok (inst, type, dom') ∧ ¬ (inst = n ∧ type = nt)) :
    scanServices n nt (before ++ s :: after) = .found := by
  induction before with
  | nil =>
    rw [List.nil_append, scanServices, hs]
    simp
  | cons s' rest ih =>
    obtain ⟨inst, type, dom', hs', hne⟩ := h s' (List.mem_cons_self _ _)
    have hne2 : ¬ (n = inst ∧ nt = type) := fun ⟨a, b⟩ => hne ⟨a.symm, b.symm⟩
    rw [List.cons_append, scanServices, hs']
    simp only [hne2, if_false]
    exact ih (fun x hx => h x (List.mem_cons_of_mem _ hx))

/-- The effect of a finalizing or counting step on the matched record. -/
theorem serviceUpdates_first_match (n nt : List Char) (e : otbrError)
    (pre post : List OutstandingUpdate) (r : OutstandingUpdate)
    (hpre : ∀ u ∈ pre, scanServices n nt u.mHost.mServices = .notFound)
    (hr : scanServices n nt r.mHost.mServices = .found) :
    serviceUpdates n nt e (pre ++ r :: post)
      = if e ≠ OTBR_ERROR_NONE ∨ r.mCount = 1 then
          (pre ++ post, [(r.mHost, OtbrErrorToOtError e)])
        else (pre ++ { r with mCount := decrementCount r.mCount } :: post, []) := by
  induction pre with
  | nil =>
    rw [List.nil_append, serviceUpdates, hr]
    simp only []
    split <;> simp
  | cons u rest ih =>
    rw [List.cons_append, serviceUpdates, hpre u (List.mem_cons_self _ _)]
    simp only []
    rw [ih (fun x hx => hpre x (List.mem_cons_of_mem _ hx))]
    split <;> simp

theorem hostUpdates_first_match (n : List Char) (e : otbrError)
    (pre post : List OutstandingUpdate) (r : OutstandingUpdate)
    (hpre : ∀ u ∈ pre, ∃ inst dom,
      SplitFullHostName u.mHost.mFullName = .ok (inst, dom) ∧ inst ≠ n)
    (hr : ∃ dom, SplitFullHostName r.mHost.mFullName = .ok (n, dom)) :
    hostUpdates n e (pre ++ r :: post)
      = if e ≠ OTBR_ERROR_NONE ∨ r.mCount = 1 then
          (pre ++ post, [(r.mHost, staticCastOtError e)])
        else (pre ++ { r with mCount := decrementCount r.mCount } :: post, []) := by
  induction pre with
  | nil =>
    obtain ⟨dom, hd⟩ := hr
    rw [List.nil_append, hostUpdates, hd]
    simp only [if_true]
    split <;> simp
  | cons u rest ih =>
    obtain ⟨inst, dom, hu, hne⟩ := hpre u (List.mem_cons_self _ _)
    have hne2 : ¬ n = inst := fun a => hne a.symm
    rw [List.cons_append, hostUpdates, hu]
    simp only [hne2, if_false]
    rw [ih (fun x hx => hpre x (List.mem_cons_of_mem _ hx))]
    split <;> simp

/-- One step of completion handling: the first record that the completion
matches is finalized (if the outcome is an error or its count is one) or has
its count decremented; nothing else changes. -/
theorem deliver_first_match (self : AdvertisingProxy) (c : Completion)
    (pre post : List OutstandingUpdate) (r : OutstandingUpdate)
    (hdef : self.undefinedBehaviour = false)
    (hlist : self.mOutstandingUpdates = pre ++ r :: post)
    (hpre : ∀ u ∈ pre, c.Skips u) (hr : c.Matches r) :
    self.deliver c
      = if c.error ≠ OTBR_ERROR_NONE ∨ r.mCount = 1 then
          { self with mOutstandingUpdates := pre ++ post,
                      stackResults := self.stackResults ++ [(r.mHost, c.result)] }
        else
          { self with mOutstandingUpdates :=
              pre ++ { r with mCount := decrementCount r.mCount } :: post } := by
  cases c with
  | host n e =>
    simp only [deliver, PublishHostHandler, hdef, hlist, Bool.false_eq_true, if_false]
    rw [hostUpdates_first_match n e pre post r hpre hr]
    simp only [Completion.error, Completion.result]
    split <;> simp
  | service n t e =>
    obtain ⟨nt, hnt, before, s, after, dom, hsv, hs, hb⟩ := hr
    have hpre2 : ∀ u ∈ pre, scanServices n nt u.mHost.mServices = .notFound := by
      intro u hu
      obtain ⟨nt2, hnt2, h2⟩ := hpre u hu
      rw [hnt] at hnt2
      cases hnt2
      exact scanServices_notFound n nt _ h2
    have hr2 : scanServices n nt r.mHost.mServices = .found := by
      rw [hsv]; exact scanServices_found n nt before after s dom hs hb
    simp only [deliver, PublishServiceHandler, hdef, hlist, hnt, Bool.false_eq_true, if_false]
    rw [serviceUpdates_first_match n nt e pre post r hpre2 hr2]
    simp only [Completion.error, Completion.result]
    split <;> simp

theorem Completion.result_eq_none (c : Completion) :
    c.result = OT_ERROR_NONE ↔ c.error = OTBR_ERROR_NONE := by
  cases c with
  | host n e => exact staticCastOtError_eq_none e
  | service n t e => exact OtbrErrorToOtError_eq_none e

/-! ## Completions (claims C9 and C10) -/

theorem exists_first_service (n nt : List Char) (svcs : List otSrpServerService)
    (hall : ∀ s ∈ svcs, ∃ r, SplitFullServiceName s.mFullName = .ok r)
    (hex : ∃ s ∈ svcs, ∃ dom, SplitFullServiceName s.mFullName = .ok (n, nt, dom)) :
    ∃ before s after dom, svcs = before ++ s :: after ∧
      SplitFullServiceName s.mFullName = .ok (n, nt, dom) ∧
      ∀ s' ∈ before, ∃ inst type dom',
        SplitFullServiceName s'.mFullName = .ok (inst, type, dom') ∧
          ¬ (inst = n ∧ type = nt) := by
  induction svcs with
  | nil => obtain ⟨s, hs, -⟩ := hex; cases hs
  | cons x rest ih =>
    obtain ⟨⟨inst, type, dom⟩, hx⟩ := hall x (List.mem_cons_self _ _)
    by_cases hm : inst = n ∧ type = nt
    · refine ⟨[], x, rest, dom, rfl, ?_, fun _ h => absurd h (List.not_mem_nil _)⟩
      rw [hx, hm.1, hm.2]
    · obtain ⟨s, hs, d, hsd⟩ := hex
      have hsrest : s ∈ rest := by
        rcases List.mem_cons.1 hs with e | e
        · rw [e, hx] at hsd
          cases hsd
          exact absurd ⟨rfl, rfl⟩ hm
        · exact e
      obtain ⟨before, s2, after, dom2, hl, hs2, hb⟩ :=
        ih (fun y hy => hall y (List.mem_cons_of_mem _ hy)) ⟨s, hsrest, d, hsd⟩
      refine ⟨x :: before, s2, after, dom2, by rw [hl]; rfl, hs2, ?_⟩
      intro s' hs'
      rcases List.mem_cons.1 hs' with e | e
      · rw [e]; exact ⟨inst, type, dom, hx, hm⟩
      · exact hb s' e

theorem decrementCount_pos (c : Nat) (h1 : 1 ≤ c) (h2 : c ≤ 2 ^ 32) :
    decrementCount c = c - 1 := by
  unfold decrementCount
  have : c + 2 ^ 32 - 1 = (c - 1) + 2 ^ 32 := by omega
  rw [this, Nat.add_mod_right]
  apply Nat.mod_eq_of_lt
  omega

/-- Successful completions of one in-flight record, fewer than its count:
each decrements the count, nothing is reported. -/
theorem foldl_deliver_counting (h : otSrpServerHost) (cs : List Completion)
    (st : AdvertisingProxy) (c : Nat)
    (hdef : st.undefinedBehaviour = false)
    (hlist : st.mOutstandingUpdates = [⟨h, c⟩])
    (hcs : ∀ x ∈ cs, x.error = OTBR_ERROR_NONE ∧ ∀ k, x.Matches ⟨h, k⟩)
    (hlen : cs.length < c) (hc : c ≤ 2 ^ 32) :
    cs.foldl deliver st = { st with mOutstandingUpdates := [⟨h, c - cs.length⟩] } := by
  induction cs generalizing st c with
  | nil => simp [← hlist]
  | cons x xs ih =>
    obtain ⟨hx1, hx2⟩ := hcs x (List.mem_cons_self _ _)
    simp only [List.length_cons] at hlen
    have hstep := deliver_first_match st x [] [] ⟨h, c⟩ hdef (by simpa using hlist)
      (fun _ hm => absurd hm (List.not_mem_nil _)) (hx2 c)
    have hne : ¬ (x.error ≠ OTBR_ERROR_NONE ∨ (⟨h, c⟩ : OutstandingUpdate).mCount = 1) := by
      rintro (h1 | h1)
      · exact h1 hx1
      · simp only [] at h1; omega
    rw [if_neg hne] at hstep
    simp only [List.nil_append] at hstep
    rw [decrementCount_pos c (by omega) hc] at hstep
    rw [List.foldl_cons, hstep]
    rw [ih { st with mOutstandingUpdates := [⟨h, c - 1⟩] } (c - 1) hdef rfl
      (fun y hy => hcs y (List.mem_cons_of_mem _ hy)) (by omega) (by omega)]
    simp only [List.length_cons]
    congr 3
    omega

/-- C9: a host with at least one address and `N` services, none deleted, is
dispatched successfully (its names split, every publisher call of the
dispatch returns `OTBR_ERROR_NONE` and delivers no completion) while nothing
else is in flight.  Its
completions are the host completion, carrying the instance label of the
host, and one completion per service, carrying the instance of the service
and a type that normalizes to the type of the service, all with outcome
`OTBR_ERROR_NONE`; they arrive in any order `cs`.  Then nothing is reported
to the stack while the first `N` completions are handled, and after the last
one exactly one result has been reported, `OT_ERROR_NONE` for the host of the
event, the in-flight list is empty and no undefined operation has been
executed.  The host has fewer than `2 ^ 32 - 1`
services, so that the `uint32_t` count does not wrap. -/
theorem completions_finalize_once (pub : Publisher) (self : AdvertisingProxy)
    (aHost : otSrpServerHost) (hostInst hostDom : List Char) (svcCs cs : List Completion)
    (hdef : self.undefinedBehaviour = false)
    (hempty : self.mOutstandingUpdates = [])
    (haddr : aHost.mAddresses ≠ [])
    (hnodel : ∀ s ∈ aHost.mServices, s.mIsDeleted = false)
    (hhost : SplitFullHostName aHost.mFullName = .ok (hostInst, hostDom))
    (hpub : ∀ e ∈ (AdvertisingHandler pub self aHost).publisherTrace.drop
      self.publisherTrace.length, e.2 = ⟨[], OTBR_ERROR_NONE⟩)
    (hbound : aHost.mServices.length + 1 < 2 ^ 32)
    (hsvcCs : List.Forall₂ (fun s c => ∃ inst type dom t,
      SplitFullServiceName s.mFullName = .ok (inst, type, dom) ∧
      normalizeType t = some type ∧ c = .service inst t OTBR_ERROR_NONE) aHost.mServices svcCs)
    (hperm : cs.Perm (.host hostInst OTBR_ERROR_NONE :: svcCs)) :
    (∀ k, k ≤ aHost.mServices.length →
      ((cs.take k).foldl deliver (AdvertisingHandler pub self aHost)).stackResults
        = self.stackResults) ∧
    (cs.foldl deliver (AdvertisingHandler pub self aHost)).stackResults
      = self.stackResults ++ [(aHost, OT_ERROR_NONE)] ∧
    (cs.foldl deliver (AdvertisingHandler pub self aHost)).mOutstandingUpdates = [] ∧
    (cs.foldl deliver (AdvertisingHandler pub self aHost)).undefinedBehaviour = false := by
  have hsvc : ∀ s ∈ aHost.mServices, ∃ r, SplitFullServiceName s.mFullName = .ok r := by
    intro s hs
    obtain ⟨c, -, inst, type, dom, t, h, -⟩ := forall₂_exists_right hsvcCs s hs
    exact ⟨_, h⟩
  -- the state after the dispatch
  obtain ⟨ext, h1, h2, -, h4⟩ := AdvertisingHandler_silent pub self aHost hdef
    (fun e he => by rw [hpub e he])
  have hok : (advertise pub self aHost).2 = OTBR_ERROR_NONE := by
    by_contra hne
    rcases h4 hne with ⟨err, herr⟩ | ⟨s, hs, err, herr⟩ | ⟨e, he, hres⟩
    · rw [hhost] at herr; cases herr
    · obtain ⟨r, hr⟩ := hsvc s hs; rw [hr] at herr; cases herr
    · apply hres
      rw [hpub e (by rw [h2 hne]; simp only [List.drop_left]; exact he)]
  have hfilter : aHost.mServices.filter (fun s => !s.mIsDeleted) = aHost.mServices := by
    apply List.filter_eq_self.2
    intro s hs
    simp [hnodel s hs]
  have hcount : countUpdates (decide (aHost.mAddresses.length > 0)) aHost.mServices
      = aHost.mServices.length + 1 := by
    rw [countUpdates_bounded aHost.mAddresses aHost.mServices hbound, hfilter, if_pos haddr]
    omega
  have hst := h1 hok
  rw [hempty, hcount, List.nil_append] at hst
  -- the completions
  have hlen : cs.length = aHost.mServices.length + 1 := by
    rw [hperm.length_eq, List.length_cons, (List.Forall₂.length_eq hsvcCs)]
  have hcs : ∀ x ∈ cs, x.error = OTBR_ERROR_NONE ∧ ∀ k, x.Matches ⟨aHost, k⟩ := by
    intro x hx
    rcases List.mem_cons.1 ((hperm.mem_iff).1 hx) with e | e
    · rw [e]; exact ⟨rfl, fun _ => ⟨hostDom, hhost⟩⟩
    · obtain ⟨s, hs, inst, type, dom, t, hsp, hnt, hxe⟩ := forall₂_exists_left hsvcCs x e
      rw [hxe]
      refine ⟨rfl, fun _ => ⟨type, hnt, ?_⟩⟩
      exact exists_first_service inst type aHost.mServices hsvc ⟨s, hs, dom, hsp⟩
  have hdef1 : (AdvertisingHandler pub self aHost).undefinedBehaviour = false := by
    rw [hst]; exact hdef
  have hlist1 : (AdvertisingHandler pub self aHost).mOutstandingUpdates
      = [⟨aHost, aHost.mServices.length + 1⟩] := by rw [hst]
  have hres1 : (AdvertisingHandler pub self aHost).stackResults = self.stackResults := by
    rw [hst]
  have hcounting : ∀ k, k ≤ aHost.mServices.length →
      (cs.take k).foldl deliver (AdvertisingHandler pub self aHost)
        = { AdvertisingHandler pub self aHost with
            mOutstandingUpdates := [⟨aHost, aHost.mServices.length + 1 - k⟩] } := by
    intro k hk
    have hl : (cs.take k).length = k := by rw [List.length_take]; omega
    have := foldl_deliver_counting aHost (cs.take k) (AdvertisingHandler pub self aHost)
      (aHost.mServices.length + 1) hdef1 hlist1
      (fun x hx => hcs x (List.mem_of_mem_take hx)) (by omega) (by omega)
    rw [this, hl]
  refine ⟨fun k hk => by rw [hcounting k hk]; exact hres1, ?_⟩
  -- the last completion
  have hsplit : cs = cs.take aHost.mServices.length ++ cs.drop aHost.mServices.length :=
    (List.take_append_drop _ _).symm
  obtain ⟨x, hx⟩ : ∃ x, cs.drop aHost.mServices.length = [x] := by
    have hl : (cs.drop aHost.mServices.length).length = 1 := by
      rw [List.length_drop]; omega
    match hd : cs.drop aHost.mServices.length, hl with
    | [x], _ => exact ⟨x, rfl⟩
  have hxmem : x ∈ cs := List.mem_of_mem_drop (by rw [hx]; exact List.mem_singleton.2 rfl)
  obtain ⟨hx1, hx2⟩ := hcs x hxmem
  rw [hsplit, List.foldl_append, hx, hcounting _ (le_refl _)]
  simp only [List.foldl_cons, List.foldl_nil]
  have hstep := deliver_first_match
    { AdvertisingHandler pub self aHost with
      mOutstandingUpdates := [⟨aHost, aHost.mServices.length + 1 - aHost.mServices.length⟩] }
    x [] [] ⟨aHost, aHost.mServices.length + 1 - aHost.mServices.length⟩ hdef1 rfl
    (fun _ hm => absurd hm (List.not_mem_nil _)) (hx2 _)
  rw [if_pos (Or.inr (by simp))] at hstep
  rw [hstep]
  simp only [List.nil_append, hres1, (Completion.result_eq_none x).2 hx1]
  exact ⟨trivial, trivial, hdef1⟩

/-- Witness of C9: the router host with its printer service; the service
completion arrives first, with a root label appended to the type, the host
completion second. -/
theorem completions_finalize_once_witness :
    (∀ k, k ≤ routerHost.mServices.length →
      (([Completion.service "myprinter".toList "_ipp._tcp.".toList OTBR_ERROR_NONE,
          Completion.host "router1".toList OTBR_ERROR_NONE].take k).foldl deliver
        (AdvertisingHandler quietPublisher idleProxy routerHost)).stackResults
        = idleProxy.stackResults) ∧
    ([Completion.service "myprinter".toList "_ipp._tcp.".toList OTBR_ERROR_NONE,
        Completion.host "router1".toList OTBR_ERROR_NONE].foldl deliver
      (AdvertisingHandler quietPublisher idleProxy routerHost)).stackResults
      = idleProxy.stackResults ++ [(routerHost, OT_ERROR_NONE)] ∧
    ([Completion.service "myprinter".toList "_ipp._tcp.".toList OTBR_ERROR_NONE,
        Completion.host "router1".toList OTBR_ERROR_NONE].foldl deliver
      (AdvertisingHandler quietPublisher idleProxy routerHost)).mOutstandingUpdates = [] ∧
    ([Completion.service "myprinter".toList "_ipp._tcp.".toList OTBR_ERROR_NONE,
        Completion.host "router1".toList OTBR_ERROR_NONE].foldl deliver
      (AdvertisingHandler quietPublisher idleProxy routerHost)).undefinedBehaviour = false :=
  completions_finalize_once quietPublisher idleProxy routerHost "router1".toList
    "default.service.arpa".toList
    [Completion.service "myprinter".toList "_ipp._tcp.".toList OTBR_ERROR_NONE]
    [Completion.service "myprinter".toList "_ipp._tcp.".toList OTBR_ERROR_NONE,
      Completion.host "router1".toList OTBR_ERROR_NONE]
    rfl rfl (by decide) (by decide) rfl (by decide) (by decide)
    (List.Forall₂.cons ⟨"myprinter".toList, "_ipp._tcp".toList, "default.service.arpa.".toList,
      "_ipp._tcp.".toList, rfl, rfl, rfl⟩ List.Forall₂.nil)
    (List.Perm.swap _ _ _)

/-- C10: error short-circuit.  For a record of the in-flight list, whatever
its remaining count, and a completion, of the host or of a service, that is
attributed to it (it matches the record and none of the records listed before
it) and carries an error, the handler reports exactly one result to the
stack, for the host of the record and different from `OT_ERROR_NONE`, and
removes the record from the in-flight list at once. -/
theorem completion_error_short_circuit (self : AdvertisingProxy) (c : Completion)
    (pre post : List OutstandingUpdate) (r : OutstandingUpdate)
    (hdef : self.undefinedBehaviour = false)
    (hlist : self.mOutstandingUpdates = pre ++ r :: post)
    (hpre : ∀ u ∈ pre, c.Skips u) (hr : c.Matches r)
    (herr : c.error ≠ OTBR_ERROR_NONE) :
    ∃ res, res ≠ OT_ERROR_NONE ∧
      (self.deliver c).stackResults = self.stackResults ++ [(r.mHost, res)] ∧
      (self.deliver c).mOutstandingUpdates = pre ++ post ∧
      (self.deliver c).undefinedBehaviour = false := by
  rw [deliver_first_match self c pre post r hdef hlist hpre hr, if_pos (Or.inl herr)]
  exact ⟨c.result, fun h => herr ((Completion.result_eq_none c).1 h), rfl, rfl, hdef⟩

/-- Witness of C10: with the router record in flight with count two, a host
completion and a service completion carrying an error each finalize it. -/
theorem completion_error_short_circuit_witness :
    (∃ res, res ≠ OT_ERROR_NONE ∧
      (routerInFlight.deliver (.host "router1".toList OTBR_ERROR_DUPLICATED)).stackResults
        = routerInFlight.stackResults ++ [(routerHost, res)] ∧
      (routerInFlight.deliver (.host "router1".toList OTBR_ERROR_DUPLICATED)).mOutstandingUpdates
        = [] ++ [] ∧
      (routerInFlight.deliver
        (.host "router1".toList OTBR_ERROR_DUPLICATED)).undefinedBehaviour = false) ∧
    (∃ res, res ≠ OT_ERROR_NONE ∧
      (routerInFlight.deliver
          (.service "myprinter".toList "_ipp._tcp.".toList (OTHER 3))).stackResults
        = routerInFlight.stackResults ++ [(routerHost, res)] ∧
      (routerInFlight.deliver
          (.service "myprinter".toList "_ipp._tcp.".toList (OTHER 3))).mOutstandingUpdates
        = [] ++ [] ∧
      (routerInFlight.deliver
        (.service "myprinter".toList "_ipp._tcp.".toList (OTHER 3))).undefinedBehaviour
        = false) :=
  ⟨completion_error_short_circuit routerInFlight (.host "router1".toList OTBR_ERROR_DUPLICATED)
      [] [] ⟨routerHost, 2⟩ rfl rfl (fun _ h => absurd h (List.not_mem_nil _))
      ⟨"default.service.arpa".toList, rfl⟩ (by decide),
   completion_error_short_circuit routerInFlight
      (.service "myprinter".toList "_ipp._tcp.".toList (OTHER 3))
      [] [] ⟨routerHost, 2⟩ rfl rfl (fun _ h => absurd h (List.not_mem_nil _))
      ⟨"_ipp._tcp".toList, rfl, [], printerService, [], "default.service.arpa.".toList, rfl, rfl,
        fun _ h => absurd h (List.not_mem_nil _)⟩ (by decide)⟩

/-! ## Zero count, repeated results, unmatched completions (claims C11 to C14) -/

/-- C11, the code at the failing input: the departed host has no address and
its only service is deleted, every publisher call of its dispatch succeeds
and no completion is delivered; when `AdvertisingHandler` returns nothing has
been reported to the stack and the record of the event is in the in-flight
list, with count zero. -/
theorem zero_count_record_left_in_flight :
    departedHost.mAddresses = [] ∧
    (∀ s ∈ departedHost.mServices, s.mIsDeleted = true) ∧
    (∀ e ∈ (AdvertisingHandler quietPublisher idleProxy departedHost).publisherTrace,
      e.2 = ⟨[], OTBR_ERROR_NONE⟩) ∧
    (AdvertisingHandler quietPublisher idleProxy departedHost).undefinedBehaviour = false ∧
    (AdvertisingHandler quietPublisher idleProxy departedHost).stackResults = [] ∧
    (AdvertisingHandler quietPublisher idleProxy departedHost).mOutstandingUpdates
      = [⟨departedHost, 0⟩] := by
  refine ⟨rfl, by decide, by decide, rfl, rfl, rfl⟩

/-- C12, the code at the failing input: the record of the departed host is in
flight with count zero; a host completion with the instance label of the host
and outcome `OTBR_ERROR_NONE` is handled next; the record is kept and its
count is decremented from zero to `2 ^ 32 - 1`, nothing is reported. -/
theorem zero_count_wraps_around :
    departedInFlight.mOutstandingUpdates = [⟨departedHost, 0⟩] ∧
    (departedInFlight.deliver (.host "router1".toList OTBR_ERROR_NONE)).mOutstandingUpdates
      = [⟨departedHost, 2 ^ 32 - 1⟩] ∧
    (departedInFlight.deliver (.host "router1".toList OTBR_ERROR_NONE)).stackResults = [] ∧
    (0 : Nat) < 2 ^ 32 - 1 := by
  refine ⟨rfl, by decide, rfl, by decide⟩

/-- C13, the code at the failing input: the router record is in flight when
the camera host is dispatched; the publisher reports a failed publication of
the host name before it returns from `PublishHost`, which finalizes the
record of the camera; the split of the service name `bad` then fails.  The
stack is given two results for the camera host, and `pop_back()` has removed
the record of the router.  With nothing else in flight, `pop_back()` is
executed on an empty vector. -/
theorem two_results_for_one_event :
    routerInFlight.mOutstandingUpdates = [⟨routerHost, 2⟩] ∧
    routerInFlight.stackResults = [] ∧
    (AdvertisingHandler conflictPublisher routerInFlight brokenHost).stackResults
      = [(brokenHost, RAW OTBR_ERROR_DUPLICATED), (brokenHost, OT_ERROR_INVALID_ARGS)] ∧
    (AdvertisingHandler conflictPublisher routerInFlight brokenHost).mOutstandingUpdates = [] ∧
    (AdvertisingHandler conflictPublisher idleProxy brokenHost).undefinedBehaviour = true := by
  refine ⟨rfl, rfl, by decide, rfl, rfl⟩

theorem scanServices_ne_found (n nt : List Char) (svcs : List otSrpServerService)
    (h : ∀ s ∈ svcs, ∀ inst type dom,
      SplitFullServiceName s.mFullName = .ok (inst, type, dom) → ¬ (inst = n ∧ type = nt)) :
    scanServices n nt svcs ≠ .found := by
  induction svcs with
  | nil => simp [scanServices]
  | cons s rest ih =>
    rw [scanServices]
    cases hs : SplitFullServiceName s.mFullName with
    | error e => simp
    | ok r =>
      obtain ⟨inst, type, dom⟩ := r
      have hne : ¬ (n = inst ∧ nt = type) := fun ⟨a, b⟩ =>
        h s (List.mem_cons_self _ _) inst type dom hs ⟨a.symm, b.symm⟩
      simp only [hne, if_false]
      exact ih (fun s' hs' => h s' (List.mem_cons_of_mem _ hs'))

theorem serviceUpdates_none (n nt : List Char) (e : otbrError) (l : List OutstandingUpdate)
    (h : ∀ u ∈ l, scanServices n nt u.mHost.mServices ≠ .found) :
    serviceUpdates n nt e l = (l, []) := by
  induction l with
  | nil => rfl
  | cons u rest ih =>
    rw [serviceUpdates]
    cases hs : scanServices n nt u.mHost.mServices with
    | found => exact absurd hs (h u (List.mem_cons_self _ _))
    | failed err => rfl
    | notFound =>
      simp only []
      rw [ih (fun x hx => h x (List.mem_cons_of_mem _ hx))]

theorem hostUpdates_none (n : List Char) (e : otbrError) (l : List OutstandingUpdate)
    (h : ∀ u ∈ l, ∀ inst dom,
      SplitFullHostName u.mHost.mFullName = .ok (inst, dom) → inst ≠ n) :
    hostUpdates n e l = (l, []) := by
  induction l with
  | nil => rfl
  | cons u rest ih =>
    rw [hostUpdates]
    cases hs : SplitFullHostName u.mHost.mFullName with
    | error err => rfl
    | ok r =>
      obtain ⟨inst, dom⟩ := r
      have hne : ¬ n = inst := fun a => h u (List.mem_cons_self _ _) inst dom hs a.symm
      simp only [hne, if_false]
      rw [ih (fun x hx => h x (List.mem_cons_of_mem _ hx))]

/-- C14: unmatched completions are dropped.  A service completion whose name
and normalized type are those of no service of any in-flight record, or a host
completion whose name is the instance label of the host of no in-flight
record, leaves the proxy as it is: nothing is reported to the stack, and the
in-flight list keeps the same records, with the same counts, in the same
order. -/
theorem unmatched_completion_dropped (self : AdvertisingProxy) (c : Completion)
    (h : c.MatchesNone self.mOutstandingUpdates) :
    self.deliver c = self ∧
    (self.deliver c).stackResults = self.stackResults ∧
    (self.deliver c).mOutstandingUpdates = self.mOutstandingUpdates := by
  have key : self.deliver c = self := by
    cases c with
    | host n e =>
      simp only [deliver, PublishHostHandler]
      split
      · rfl
      · rw [hostUpdates_none n e _ h]
        cases self
        simp
    | service n t e =>
      obtain ⟨nt, hnt, hall⟩ := h
      simp only [deliver, PublishServiceHandler, hnt]
      split
      · rfl
      · rw [serviceUpdates_none n nt e _
          (fun u hu => scanServices_ne_found n nt _ (hall u hu))]
        cases self
        simp
  rw [key]
  exact ⟨rfl, rfl, rfl⟩

/-- Witness of C14: with the router record in flight, a host completion for
the camera and a service completion for another service type are dropped. -/
theorem unmatched_completion_dropped_witness :
    (routerInFlight.deliver (.host "camera".toList OTBR_ERROR_NOT_FOUND) = routerInFlight ∧
      (routerInFlight.deliver (.host "camera".toList OTBR_ERROR_NOT_FOUND)).stackResults
        = routerInFlight.stackResults ∧
      (routerInFlight.deliver (.host "camera".toList OTBR_ERROR_NOT_FOUND)).mOutstandingUpdates
        = routerInFlight.mOutstandingUpdates) ∧
    (routerInFlight.deliver (.service "myprinter".toList "_http._tcp".toList OTBR_ERROR_NONE)
        = routerInFlight ∧
      (routerInFlight.deliver
        (.service "myprinter".toList "_http._tcp".toList OTBR_ERROR_NONE)).stackResults
        = routerInFlight.stackResults ∧
      (routerInFlight.deliver
        (.service "myprinter".toList "_http._tcp".toList OTBR_ERROR_NONE)).mOutstandingUpdates
        = routerInFlight.mOutstandingUpdates) :=
  ⟨unmatched_completion_dropped routerInFlight (.host "camera".toList OTBR_ERROR_NOT_FOUND)
      (by
        intro u hu inst dom hs
        rw [List.mem_singleton.1 hu] at hs
        have h2 : SplitFullHostName routerHost.mFullName
            = .ok ("router1".toList, "default.service.arpa".toList) := rfl
        rw [h2] at hs
        cases hs
        decide),
   unmatched_completion_dropped routerInFlight
      (.service "myprinter".toList "_http._tcp".toList OTBR_ERROR_NONE)
      ⟨"_http._tcp".toList, rfl, by
        intro u hu s hs inst type dom hsp
        rw [List.mem_singleton.1 hu] at hs
        rw [List.mem_singleton.1 hs] at hsp
        have h2 : SplitFullServiceName printerService.mFullName
            = .ok ("myprinter".toList, "_ipp._tcp".toList, "default.service.arpa.".toList) := rfl
        rw [h2] at hsp
        cases hsp
        decide⟩⟩

end AdvertisingProxy

/-! ## Task runner (claims C15 and C17) -/

theorem list_nil_or_cons {α : Type} (l : List α) : l = [] ∨ ∃ a as, l = a :: as := by
  cases l with
  | nil => exact Or.inl rfl
  | cons a as => exact Or.inr ⟨a, as, rfl⟩

theorem bool_false_or_true (b : Bool) : b = false ∨ b = true := by
  cases b <;> simp

namespace TaskRunner

theorem PushTask_unlocked (write : WriteOracle) (self : TaskRunner) (aTask : Nat)
    (hdead : self.deadlock = false) (hmutex : self.mTaskQueueMutex = false) :
    PushTask write self aTask
      = { self with
          mTaskQueue := self.mTaskQueue ++ [aTask],
          writeCalls := self.writeCalls + 1,
          pipe := if write self.writeCalls = 1 then self.pipe + 1 else self.pipe } := by
  simp [PushTask, hdead, hmutex]

theorem PushTask_locked (write : WriteOracle) (self : TaskRunner) (aTask : Nat)
    (hdead : self.deadlock = false) (hmutex : self.mTaskQueueMutex = true) :
    PushTask write self aTask = { self with deadlock := true } := by
  simp [PushTask, hdead, hmutex]

theorem foldl_Post (write : WriteOracle) (tasks : List Nat) (self : TaskRunner)
    (hdead : self.deadlock = false) (hmutex : self.mTaskQueueMutex = false) :
    ∃ w p, tasks.foldl (Post write) self
      = { self with mTaskQueue := self.mTaskQueue ++ tasks, writeCalls := w, pipe := p } := by
  induction tasks generalizing self with
  | nil => exact ⟨self.writeCalls, self.pipe, by simp⟩
  | cons t rest ih =>
    rw [List.foldl_cons, Post, PushTask_unlocked write self t hdead hmutex]
    obtain ⟨w, p, h⟩ := ih { self with
      mTaskQueue := self.mTaskQueue ++ [t],
      writeCalls := self.writeCalls + 1,
      pipe := if write self.writeCalls = 1 then self.pipe + 1 else self.pipe } hdead hmutex
    exact ⟨w, p, by rw [h]; simp⟩

theorem runSteps_frozen (write : WriteOracle) (steps : List TaskStep) (self : TaskRunner)
    (h : self.deadlock = true) : runSteps write steps self = self := by
  cases steps with
  | nil => rfl
  | cons s rest => simp [runSteps, h]

theorem runSteps_increment (write : WriteOracle) (rest : List TaskStep) (self : TaskRunner)
    (h : self.deadlock = false) :
    runSteps write (.increment :: rest) self
      = runSteps write rest { self with counter := self.counter + 1 } := by
  rw [runSteps, if_neg (by rw [h]; decide)]

theorem runSteps_post (write : WriteOracle) (rest : List TaskStep) (self : TaskRunner)
    (u : Nat) (h : self.deadlock = false) :
    runSteps write (.post u :: rest) self = runSteps write rest (Post write self u) := by
  rw [runSteps, if_neg (by rw [h]; decide)]

theorem runSteps_no_post (write : WriteOracle) (steps : List TaskStep) (self : TaskRunner)
    (hdead : self.deadlock = false) (h : ∀ u, TaskStep.post u ∉ steps) :
    (runSteps write steps self).deadlock = false ∧
    (runSteps write steps self).mTaskQueue = self.mTaskQueue ∧
    (runSteps write steps self).executed = self.executed ∧
    (runSteps write steps self).mTaskQueueMutex = self.mTaskQueueMutex := by
  induction steps generalizing self with
  | nil => exact ⟨hdead, rfl, rfl, rfl⟩
  | cons s rest ih =>
    cases s with
    | post u => exact absurd (List.mem_cons_self _ _) (h u)
    | increment =>
      rw [runSteps_increment write rest self hdead]
      exact ih { self with counter := self.counter + 1 } hdead
        (fun u hu => h u (List.mem_cons_of_mem _ hu))

/-- While the mutex is owned, the call of a task either stops the execution or
leaves the queue and the mutex as they are. -/
theorem runSteps_locked (write : WriteOracle) (steps : List TaskStep) (self : TaskRunner)
    (hmutex : self.mTaskQueueMutex = true) :
    (runSteps write steps self).deadlock = true ∨
      ((runSteps write steps self).mTaskQueue = self.mTaskQueue ∧
       (runSteps write steps self).mTaskQueueMutex = true ∧
       (runSteps write steps self).executed = self.executed) := by
  induction steps generalizing self with
  | nil => exact Or.inr ⟨rfl, hmutex, rfl⟩
  | cons s rest ih =>
    cases hdead : self.deadlock with
    | true => left; rw [runSteps_frozen write _ self hdead]; exact hdead
    | false =>
      cases s with
      | increment =>
        rw [runSteps_increment write rest self hdead]
        exact ih { self with counter := self.counter + 1 } hmutex
      | post u =>
        rw [runSteps_post write rest self u hdead, Post,
          PushTask_locked write self u hdead hmutex, runSteps_frozen write _ _ rfl]
        exact Or.inl rfl

theorem popLoop_frozen (code : TaskCode) (write : WriteOracle) (fuel : Nat) (self : TaskRunner)
    (h : self.deadlock = true) : popLoop code write fuel self = self := by
  cases fuel with
  | zero => rfl
  | succ n => rw [popLoop, if_pos h]

theorem popLoop_nil (code : TaskCode) (write : WriteOracle) (fuel : Nat) (self : TaskRunner)
    (h : self.mTaskQueue = []) : popLoop code write fuel self = self := by
  cases fuel with
  | zero => rfl
  | succ n =>
    rw [popLoop]
    split
    · rfl
    · rw [h]

theorem popLoop_cons (code : TaskCode) (write : WriteOracle) (fuel : Nat) (self : TaskRunner)
    (t : Nat) (rest : List Nat) (hdead : self.deadlock = false)
    (hq : self.mTaskQueue = t :: rest) :
    popLoop code write (fuel + 1) self
      = if (runSteps write (code t { self with executed := self.executed ++ [t] })
            { self with executed := self.executed ++ [t] }).deadlock then
          runSteps write (code t { self with executed := self.executed ++ [t] })
            { self with executed := self.executed ++ [t] }
        else
          popLoop code write fuel
            { runSteps write (code t { self with executed := self.executed ++ [t] })
                { self with executed := self.executed ++ [t] } with
              mTaskQueue := (runSteps write (code t { self with executed := self.executed ++ [t] })
                { self with executed := self.executed ++ [t] }).mTaskQueue.tail } := by
  rw [popLoop, if_neg (by rw [hdead]; decide), hq]

/-- The bound on the iterations of `PopTasks` is enough: the loop ends with the
execution stopped or with an empty queue. -/
theorem popLoop_done (code : TaskCode) (write : WriteOracle) (fuel : Nat) (self : TaskRunner)
    (hmutex : self.mTaskQueueMutex = true) (hfuel : self.mTaskQueue.length ≤ fuel) :
    (popLoop code write fuel self).deadlock = true ∨
      (popLoop code write fuel self).mTaskQueue = [] := by
  induction fuel generalizing self with
  | zero =>
    right
    simp only [popLoop]
    exact List.length_eq_zero.1 (Nat.le_zero.1 hfuel)
  | succ n ih =>
    rcases bool_false_or_true self.deadlock with hdead | hdead
    · rcases list_nil_or_cons self.mTaskQueue with hq | ⟨t, rest, hq⟩
      · right; rw [popLoop_nil code write _ self hq]; exact hq
      · rw [popLoop_cons code write n self t rest hdead hq]
        rcases runSteps_locked write
          (code t { self with executed := self.executed ++ [t] })
          { self with executed := self.executed ++ [t] } hmutex with h | ⟨h1, h2, -⟩
        · left; rw [if_pos h]; exact h
        · rcases bool_false_or_true (runSteps write
            (code t { self with executed := self.executed ++ [t] })
            { self with executed := self.executed ++ [t] }).deadlock with hd | hd
          · rw [if_neg (by rw [hd]; decide)]
            apply ih
            · exact h2
            · have hlen : rest.length ≤ n := by
                rw [hq] at hfuel
                simp only [List.length_cons] at hfuel
                omega
              have hq2 : (runSteps write (code t { self with executed := self.executed ++ [t] })
                  { self with executed := self.executed ++ [t] }).mTaskQueue.tail = rest := by
                rw [h1]
                show self.mTaskQueue.tail = rest
                rw [hq]; rfl
              show (runSteps write (code t { self with executed := self.executed ++ [t] })
                  { self with executed := self.executed ++ [t] }).mTaskQueue.tail.length ≤ n
              rw [hq2]; exact hlen
          · left; rw [if_pos hd]; exact hd
    · left; rw [popLoop_frozen code write _ self hdead]; exact hdead

/-- The loop of `PopTasks` on tasks that post nothing. -/
theorem popLoop_no_post (code : TaskCode) (write : WriteOracle) (fuel : Nat) (self : TaskRunner)
    (hdead : self.deadlock = false) (hfuel : self.mTaskQueue.length ≤ fuel)
    (h : ∀ t ∈ self.mTaskQueue, ∀ st u, TaskStep.post u ∉ code t st) :
    (popLoop code write fuel self).executed = self.executed ++ self.mTaskQueue ∧
    (popLoop code write fuel self).mTaskQueue = [] ∧
    (popLoop code write fuel self).deadlock = false ∧
    (popLoop code write fuel self).mTaskQueueMutex = self.mTaskQueueMutex := by
  induction fuel generalizing self with
  | zero =>
    have hq : self.mTaskQueue = [] := List.length_eq_zero.1 (Nat.le_zero.1 hfuel)
    rw [popLoop_nil code write _ self hq]
    exact ⟨by rw [hq]; simp, hq, hdead, rfl⟩
  | succ n ih =>
    rcases list_nil_or_cons self.mTaskQueue with hq | ⟨t, rest, hq⟩
    · rw [popLoop_nil code write _ self hq]
      exact ⟨by rw [hq]; simp, hq, hdead, rfl⟩
    · rw [popLoop_cons code write n self t rest hdead hq]
      obtain ⟨s1, s2, s3, s4⟩ := runSteps_no_post write
        (code t { self with executed := self.executed ++ [t] })
        { self with executed := self.executed ++ [t] } hdead
        (fun u => h t (by rw [hq]; exact List.mem_cons_self _ _) _ u)
      generalize runSteps write (code t { self with executed := self.executed ++ [t] })
        { self with executed := self.executed ++ [t] } = X at s1 s2 s3 s4 ⊢
      have s2' : X.mTaskQueue = t :: rest := by rw [s2]; exact hq
      have s3' : X.executed = self.executed ++ [t] := s3
      have s4' : X.mTaskQueueMutex = self.mTaskQueueMutex := s4
      have hlen : rest.length ≤ n := by
        rw [hq] at hfuel
        simp only [List.length_cons] at hfuel
        omega
      rw [if_neg (by rw [s1]; decide)]
      have hq2 : ({ X with mTaskQueue := X.mTaskQueue.tail } : TaskRunner).mTaskQueue = rest := by
        show X.mTaskQueue.tail = rest
        rw [s2']; rfl
      obtain ⟨r1, r2, r3, r4⟩ := ih { X with mTaskQueue := X.mTaskQueue.tail } s1
        (by rw [hq2]; exact hlen)
        (by
          intro t' ht'
          rw [hq2] at ht'
          exact h t' (by rw [hq]; exact List.mem_cons_of_mem _ ht'))
      refine ⟨?_, r2, r3, ?_⟩
      · rw [r1, hq2]
        show X.executed ++ rest = _
        rw [s3', hq]
        simp
      · rw [r4]; exact s4'

theorem PopTasks_unlocked (code : TaskCode) (write : WriteOracle) (self : TaskRunner)
    (hdead : self.deadlock = false) (hmutex : self.mTaskQueueMutex = false) :
    PopTasks code write self
      = if (popLoop code write self.mTaskQueue.length
            { self with mTaskQueueMutex := true }).deadlock then
          popLoop code write self.mTaskQueue.length { self with mTaskQueueMutex := true }
        else
          { popLoop code write self.mTaskQueue.length { self with mTaskQueueMutex := true } with
            mTaskQueueMutex := false } := by
  rw [PopTasks, if_neg (by rw [hdead]; decide), if_neg (by rw [hmutex]; decide)]

theorem Process_readable (code : TaskCode) (write : WriteOracle) (self : TaskRunner)
    (aMainloop : otSysMainloopContext) (hdead : self.deadlock = false)
    (hread : FD_ISSET self.mEventFd.1 aMainloop.mReadFdSet = true) :
    Process code write self aMainloop = PopTasks code write { self with pipe := 0 } := by
  rw [Process, if_neg (by rw [hdead]; decide), if_pos hread]

/-- C15: FIFO execution.  `K` tasks, none of which posts a task, are posted
with `Post` to a runner with an empty queue; one `Process` pass in which the
read end of the pipe is in the read set calls exactly these tasks, each once,
in the order in which they were posted, leaves the queue empty and returns
with the mutex released, whatever the outcomes of the writes to the pipe.
Three posted increments followed by one `Process` leave the counter at 3. -/
theorem Process_fifo (code : TaskCode) (write : WriteOracle) (self : TaskRunner)
    (tasks : List Nat) (aMainloop : otSysMainloopContext)
    (hdead : self.deadlock = false) (hmutex : self.mTaskQueueMutex = false)
    (hqueue : self.mTaskQueue = [])
    (hnopost : ∀ t ∈ tasks, ∀ st u, TaskStep.post u ∉ code t st)
    (hread : FD_ISSET self.mEventFd.1 aMainloop.mReadFdSet = true) :
    (Process code write (tasks.foldl (Post write) self) aMainloop).executed
      = self.executed ++ tasks ∧
    (Process code write (tasks.foldl (Post write) self) aMainloop).mTaskQueue = [] ∧
    (Process code write (tasks.foldl (Post write) self) aMainloop).deadlock = false ∧
    (Process code write (tasks.foldl (Post write) self) aMainloop).mTaskQueueMutex = false ∧
    (Process incrementCode writeOk ([0, 1, 2].foldl (Post writeOk) freshRunner)
      readableContext).counter = 3 := by
  obtain ⟨w, p, hposted⟩ := foldl_Post write tasks self hdead hmutex
  rw [hposted, hqueue, List.nil_append]
  obtain ⟨r1, r2, r3, r4⟩ := popLoop_no_post code write tasks.length
    { mEventFd := self.mEventFd, mTaskQueue := tasks, mTaskQueueMutex := true, pipe := 0,
      writeCalls := w, executed := self.executed, counter := self.counter,
      deadlock := self.deadlock }
    hdead (le_refl _) hnopost
  have hproc := Process_readable code write
    { self with mTaskQueue := tasks, writeCalls := w, pipe := p } aMainloop hdead hread
  have hpop := PopTasks_unlocked code write
    { mEventFd := self.mEventFd, mTaskQueue := tasks, mTaskQueueMutex := self.mTaskQueueMutex,
      pipe := 0, writeCalls := w, executed := self.executed, counter := self.counter,
      deadlock := self.deadlock } hdead hmutex
  rw [hproc, hpop, if_neg (by rw [r3]; decide)]
  exact ⟨r1, r2, r3, rfl, by decide⟩

/-- Witness of C15: the three increments of the unit test. -/
theorem Process_fifo_witness :
    (Process incrementCode writeOk ([0, 1, 2].foldl (Post writeOk) freshRunner)
      readableContext).executed = freshRunner.executed ++ [0, 1, 2] ∧
    (Process incrementCode writeOk ([0, 1, 2].foldl (Post writeOk) freshRunner)
      readableContext).mTaskQueue = [] ∧
    (Process incrementCode writeOk ([0, 1, 2].foldl (Post writeOk) freshRunner)
      readableContext).deadlock = false ∧
    (Process incrementCode writeOk ([0, 1, 2].foldl (Post writeOk) freshRunner)
      readableContext).mTaskQueueMutex = false ∧
    (Process incrementCode writeOk ([0, 1, 2].foldl (Post writeOk) freshRunner)
      readableContext).counter = 3 :=
  Process_fifo incrementCode writeOk freshRunner [0, 1, 2] readableContext rfl rfl rfl
    (by intro t _ st u h; simp [incrementCode] at h) rfl

/-- C17, the code at the failing input: the task 0, which posts the task 1, is
posted and a `Process` pass in which the pipe is readable calls it.
`PopTasks` owns the mutex while the task runs, so that `Post`, which takes the
same mutex in `PushTask`, does not return: the execution is stopped inside
the task 0, with the mutex owned, and the task 1 is not in the queue. -/
theorem Post_inside_task_deadlocks :
    chainCode 0 freshRunner = [.increment, .post 1] ∧
    (Process chainCode writeOk (Post writeOk freshRunner 0) readableContext).deadlock = true ∧
    (Process chainCode writeOk (Post writeOk freshRunner 0) readableContext).mTaskQueueMutex
      = true ∧
    (Process chainCode writeOk (Post writeOk freshRunner 0) readableContext).executed = [0] ∧
    (Process chainCode writeOk (Post writeOk freshRunner 0) readableContext).mTaskQueue
      = [0] := by
  refine ⟨rfl, rfl, rfl, rfl, rfl⟩

end TaskRunner

/-! ## Timers (claims C18 to C20) -/

theorem multimapInsert_eq (e : Int × Nat) (l : List (Int × Nat)) :
    multimapInsert e l
      = l.takeWhile (fun x => decide (x.1 ≤ e.1)) ++ e :: l.dropWhile (fun x => decide (x.1 ≤ e.1)) := by
  induction l with
  | nil => rfl
  | cons x xs ih =>
    by_cases h : e.1 < x.1
    · have h2 : ¬ x.1 ≤ e.1 := by omega
      simp [multimapInsert, h, h2, List.takeWhile, List.dropWhile]
    · have h2 : x.1 ≤ e.1 := by omega
      simp [multimapInsert, h, h2, List.takeWhile, List.dropWhile, ih]

theorem multimapInsert_perm (e : Int × Nat) (l : List (Int × Nat)) :
    (multimapInsert e l).Perm (e :: l) := by
  induction l with
  | nil => exact List.Perm.refl _
  | cons x xs ih =>
    by_cases h : e.1 < x.1
    · simp [multimapInsert, h]
    · simp only [multimapInsert, h, if_false]
      exact (List.Perm.cons x ih).trans (List.Perm.swap e x xs)

theorem mem_multimapInsert (e y : Int × Nat) (l : List (Int × Nat)) :
    y ∈ multimapInsert e l ↔ y = e ∨ y ∈ l := by
  rw [(multimapInsert_perm e l).mem_iff, List.mem_cons]

theorem multimapInsert_sorted (e : Int × Nat) (l : List (Int × Nat))
    (h : l.Pairwise (fun a b => a.1 ≤ b.1)) :
    (multimapInsert e l).Pairwise (fun a b => a.1 ≤ b.1) := by
  induction l with
  | nil => simp [multimapInsert]
  | cons x xs ih =>
    obtain ⟨hx, hxs⟩ := List.pairwise_cons.1 h
    by_cases hlt : e.1 < x.1
    · simp only [multimapInsert, hlt, if_true]
      refine List.pairwise_cons.2 ⟨?_, h⟩
      intro y hy
      rcases List.mem_cons.1 hy with e1 | e1
      · rw [e1]; omega
      · have := hx y e1; omega
    · simp only [multimapInsert, hlt, if_false]
      refine List.pairwise_cons.2 ⟨?_, ih hxs⟩
      intro y hy
      rcases (mem_multimapInsert e y xs).1 hy with e1 | e1
      · rw [e1]; omega
      · exact hx y e1

/-- In a sorted queue the new entry comes after the entries of the same time
point. -/
theorem multimapInsert_filter (e : Int × Nat) (l : List (Int × Nat)) (d : Int)
    (h : l.Pairwise (fun a b => a.1 ≤ b.1)) :
    (multimapInsert e l).filter (fun x => decide (x.1 = d))
      = l.filter (fun x => decide (x.1 = d)) ++ [e].filter (fun x => decide (x.1 = d)) := by
  induction l with
  | nil => simp [multimapInsert]
  | cons x xs ih =>
    obtain ⟨hx, hxs⟩ := List.pairwise_cons.1 h
    by_cases hlt : e.1 < x.1
    · simp only [multimapInsert, hlt, if_true]
      by_cases hd : e.1 = d
      · have hnone : (x :: xs).filter (fun y => decide (y.1 = d)) = [] := by
          apply List.filter_eq_nil_iff.2
          intro y hy
          rcases List.mem_cons.1 hy with e1 | e1
          · simp only [decide_eq_true_eq]; rw [e1]; omega
          · have := hx y e1
            simp only [decide_eq_true_eq]; omega
        rw [List.filter_cons, hnone]
        simp [hd]
      · simp [List.filter_cons, hd]
    · simp only [multimapInsert, hlt, if_false]
      by_cases hxd : x.1 = d
      · simp [List.filter_cons, hxd, ih hxs]
      · simp [List.filter_cons, hxd, ih hxs]

theorem foldl_multimapInsert (posts l : List (Int × Nat))
    (h : l.Pairwise (fun a b => a.1 ≤ b.1)) :
    (posts.foldl (fun q p => multimapInsert p q) l).Pairwise (fun a b => a.1 ≤ b.1) ∧
    (posts.foldl (fun q p => multimapInsert p q) l).Perm (l ++ posts) ∧
    ∀ d, (posts.foldl (fun q p => multimapInsert p q) l).filter (fun x => decide (x.1 = d))
      = l.filter (fun x => decide (x.1 = d)) ++ posts.filter (fun x => decide (x.1 = d)) := by
  induction posts generalizing l with
  | nil => exact ⟨h, by simp, by simp⟩
  | cons p ps ih =>
    obtain ⟨h1, h2, h3⟩ := ih (multimapInsert p l) (multimapInsert_sorted p l h)
    refine ⟨h1, ?_, ?_⟩
    · refine h2.trans ?_
      refine ((multimapInsert_perm p l).append_right ps).trans ?_
      simp only [List.cons_append]
      exact (List.perm_middle).symm
    · intro d
      rw [List.foldl_cons, h3 d, multimapInsert_filter p l d h, List.append_assoc]
      congr 1
      rw [← List.filter_append]
      rfl

namespace ThreadController

theorem foldl_PostTimerTask (posts : List (Int × Nat)) (self : ThreadController) :
    posts.foldl (fun s p => s.PostTimerTask p.1 p.2) self
      = { self with
          mTimers := posts.foldl (fun q p => multimapInsert p q) self.mTimers,
          posted := self.posted ++ posts } := by
  induction posts generalizing self with
  | nil => simp
  | cons p ps ih =>
    rw [List.foldl_cons, ih]
    simp [PostTimerTask]

theorem drainTimers_nil (code : TimerCode) (now : Int) (fuel : Nat) (self : ThreadController)
    (h : self.mTimers = []) : drainTimers code now fuel self = (self, true) := by
  unfold drainTimers
  rw [h]

theorem drainTimers_later (code : TimerCode) (now : Int) (fuel : Nat) (self : ThreadController)
    (t : Int × Nat) (rest : List (Int × Nat)) (h : self.mTimers = t :: rest)
    (hlate : ¬ t.1 ≤ now) : drainTimers code now fuel self = (self, true) := by
  unfold drainTimers
  rw [h]
  simp only [hlate, if_false]

theorem drainTimers_zero (code : TimerCode) (now : Int) (self : ThreadController)
    (t : Int × Nat) (rest : List (Int × Nat)) (h : self.mTimers = t :: rest)
    (hdue : t.1 ≤ now) : drainTimers code now 0 self = (self, false) := by
  unfold drainTimers
  rw [h]
  simp only [hdue, if_true]

theorem drainTimers_succ (code : TimerCode) (now : Int) (fuel : Nat) (self : ThreadController)
    (t : Int × Nat) (rest : List (Int × Nat)) (h : self.mTimers = t :: rest)
    (hdue : t.1 ≤ now) :
    drainTimers code now (fuel + 1) self
      = drainTimers code now fuel
          { runTimerSteps (code t.2 { self with fired := self.fired ++ [t] })
              { self with fired := self.fired ++ [t] } with
            mTimers := (runTimerSteps (code t.2 { self with fired := self.fired ++ [t] })
              { self with fired := self.fired ++ [t] }).mTimers.tail } := by
  conv_lhs => unfold drainTimers
  rw [h]
  simp only [hdue, if_true]


theorem runTimerSteps_fired (steps : List TimerStep) (self : ThreadController) :
    (runTimerSteps steps self).fired = self.fired := by
  induction steps generalizing self with
  | nil => rfl
  | cons s rest ih =>
    cases s with
    | postTimerTask tp task =>
      rw [runTimerSteps, ih]
      rfl

/-- The timer loop when the tasks post nothing: the due timers at the front of
the queue are fired in queue order and removed, the others stay. -/
theorem drainTimers_plain (code : TimerCode) (now : Int) (hcode : ∀ t st, code t st = [])
    (fuel : Nat) (self : ThreadController)
    (hfuel : (self.mTimers.takeWhile (fun x => decide (x.1 ≤ now))).length ≤ fuel) :
    drainTimers code now fuel self
      = ({ self with
           mTimers := self.mTimers.dropWhile (fun x => decide (x.1 ≤ now)),
           fired := self.fired ++ self.mTimers.takeWhile (fun x => decide (x.1 ≤ now)) },
         true) := by
  induction fuel generalizing self with
  | zero =>
    rcases list_nil_or_cons self.mTimers with hq | ⟨t, rest, hq⟩
    · rw [drainTimers_nil code now _ self hq]
      cases self
      simp only [] at hq
      simp [hq]
    · by_cases hdue : t.1 ≤ now
      · rw [hq] at hfuel
        simp [List.takeWhile, hdue] at hfuel
      · rw [drainTimers_later code now _ self t rest hq hdue]
        cases self
        simp only [] at hq
        simp [hq, List.takeWhile, List.dropWhile, hdue]
  | succ n ih =>
    rcases list_nil_or_cons self.mTimers with hq | ⟨t, rest, hq⟩
    · rw [drainTimers_nil code now _ self hq]
      cases self
      simp only [] at hq
      simp [hq]
    · by_cases hdue : t.1 ≤ now
      · rw [drainTimers_succ code now n self t rest hq hdue, hcode]
        have hstate : ({ runTimerSteps [] { self with fired := self.fired ++ [t] } with
            mTimers := (runTimerSteps [] { self with fired := self.fired ++ [t] }).mTimers.tail }
              : ThreadController)
            = { self with mTimers := rest, fired := self.fired ++ [t] } := by
          simp [runTimerSteps, hq]
        rw [hstate, ih]
        · cases self
          simp only [] at hq
          simp [hq, List.takeWhile, List.dropWhile, hdue]
        · rw [hq] at hfuel
          simp only [List.takeWhile, hdue, decide_True, List.length_cons] at hfuel
          simp only []
          omega
      · rw [drainTimers_later code now _ self t rest hq hdue]
        cases self
        simp only [] at hq
        simp [hq, List.takeWhile, List.dropWhile, hdue]

theorem takeWhile_eq_filter_of_sorted (now : Int) (l : List (Int × Nat))
    (h : l.Pairwise (fun a b => a.1 ≤ b.1)) :
    l.takeWhile (fun x => decide (x.1 ≤ now)) = l.filter (fun x => decide (x.1 ≤ now)) ∧
    l.dropWhile (fun x => decide (x.1 ≤ now)) = l.filter (fun x => decide (now < x.1)) := by
  induction l with
  | nil => simp
  | cons x xs ih =>
    obtain ⟨hx, hxs⟩ := List.pairwise_cons.1 h
    by_cases hdue : x.1 ≤ now
    · have hn : ¬ now < x.1 := by omega
      simp [List.takeWhile, List.dropWhile, List.filter_cons, hdue, hn, ih hxs]
    · have hn : now < x.1 := by omega
      have h1 : xs.filter (fun y => decide (y.1 ≤ now)) = [] := by
        apply List.filter_eq_nil_iff.2
        intro y hy
        have := hx y hy
        simp only [decide_eq_true_eq]; omega
      have h2 : xs.filter (fun y => decide (now < y.1)) = xs := by
        apply List.filter_eq_self.2
        intro y hy
        have := hx y hy
        simp only [decide_eq_true_eq]; omega
      simp [List.takeWhile, List.dropWhile, List.filter_cons, hdue, hn, h1, h2]

/-- The timer loop on a sorted queue when the tasks post nothing. -/
theorem Process_plain (code : TimerCode) (now : Int) (fuel : Nat)
    (self : ThreadController)
    (hsorted : self.mTimers.Pairwise (fun a b => a.1 ≤ b.1))
    (hcode : ∀ t st, code t st = [])
    (hfuel : self.mTimers.length ≤ fuel) :
    (Process code now fuel self).2 = true ∧
    (Process code now fuel self).1.fired
      = self.fired ++ self.mTimers.filter (fun x => decide (x.1 ≤ now)) ∧
    (Process code now fuel self).1.mTimers
      = self.mTimers.filter (fun x => decide (now < x.1)) := by
  have hlen : (self.mTimers.takeWhile (fun x => decide (x.1 ≤ now))).length ≤ fuel :=
    le_trans (List.takeWhile_sublist _).length_le hfuel
  obtain ⟨h1, h2⟩ := takeWhile_eq_filter_of_sorted now self.mTimers hsorted
  rw [Process, drainTimers_plain code now hcode fuel self hlen, h1, h2]
  exact ⟨rfl, rfl, rfl⟩

/-- C19: timer drain.  For a timer queue (sorted by time point, as a multimap
is) and a time `now` read at the start of `Process`, when no timer task posts
a timer, the loop ends, the timers fired are exactly those whose time point
is at most `now`, each once, in queue order; exactly those are removed, and
the timers whose time point is later than `now` stay in the queue, unfired,
in unchanged order. -/
theorem Process_drains_due_timers (code : TimerCode) (now : Int) (fuel : Nat)
    (self : ThreadController)
    (hsorted : self.mTimers.Pairwise (fun a b => a.1 ≤ b.1))
    (hcode : ∀ t st, code t st = [])
    (hfuel : self.mTimers.length ≤ fuel) :
    (Process code now fuel self).2 = true ∧
    (Process code now fuel self).1.fired
      = self.fired ++ self.mTimers.filter (fun x => decide (x.1 ≤ now)) ∧
    (Process code now fuel self).1.mTimers
      = self.mTimers.filter (fun x => decide (now < x.1)) := by
  exact Process_plain code now fuel self hsorted hcode hfuel



/-- Witness of C19: timers at 10, 20 and 30, and a pass at 25. -/
theorem Process_drains_due_timers_witness :
    (Process plainTimers 25 3
      (((idleController.PostTimerTask 20 0).PostTimerTask 10 1).PostTimerTask 30 2)).2 = true ∧
    (Process plainTimers 25 3
      (((idleController.PostTimerTask 20 0).PostTimerTask 10 1).PostTimerTask 30 2)).1.fired
      = (((idleController.PostTimerTask 20 0).PostTimerTask 10 1).PostTimerTask 30 2).fired
        ++ (((idleController.PostTimerTask 20 0).PostTimerTask 10 1).PostTimerTask
            30 2).mTimers.filter (fun x => decide (x.1 ≤ 25)) ∧
    (Process plainTimers 25 3
      (((idleController.PostTimerTask 20 0).PostTimerTask 10 1).PostTimerTask 30 2)).1.mTimers
      = (((idleController.PostTimerTask 20 0).PostTimerTask 10 1).PostTimerTask
          30 2).mTimers.filter (fun x => decide (25 < x.1)) :=
  Process_drains_due_timers plainTimers 25 3
    (((idleController.PostTimerTask 20 0).PostTimerTask 10 1).PostTimerTask 30 2)
    (by decide) (fun _ _ => rfl) (by decide)

theorem filter_comm' (p q : Int × Nat → Bool) (l : List (Int × Nat)) :
    (l.filter p).filter q = (l.filter q).filter p := by
  rw [List.filter_filter, List.filter_filter]
  congr 1
  funext x
  exact Bool.and_comm _ _

/-- C18: timer ordering.  Timers are posted with `PostTimerTask`, in any order,
to a controller without timers; in the `Process` pass that follows (whose
timer tasks post nothing) the timers fired are the posted timers that are
due, they fire in ascending order of time point, and the timers of one time
point fire in the order in which they were posted.  A timer at 10 posted
after a timer at 20, both due, fires first. -/
theorem timers_fire_in_order (code : TimerCode) (now : Int) (fuel : Nat)
    (self : ThreadController) (posts : List (Int × Nat))
    (hempty : self.mTimers = [])
    (hcode : ∀ t st, code t st = [])
    (hfuel : posts.length ≤ fuel) :
    (∃ firedNow,
      (Process code now fuel (posts.foldl (fun s p => s.PostTimerTask p.1 p.2) self)).2 = true ∧
      (Process code now fuel (posts.foldl (fun s p => s.PostTimerTask p.1 p.2) self)).1.fired
        = self.fired ++ firedNow ∧
      firedNow.Perm (posts.filter (fun p => decide (p.1 ≤ now))) ∧
      firedNow.Pairwise (fun a b => a.1 ≤ b.1) ∧
      ∀ d, firedNow.filter (fun p => decide (p.1 = d))
        = (posts.filter (fun p => decide (p.1 ≤ now))).filter (fun p => decide (p.1 = d))) ∧
    (Process plainTimers 25 2
      ((idleController.PostTimerTask 20 0).PostTimerTask 10 1)).1.fired = [(10, 1), (20, 0)] := by
  refine ⟨?_, by decide⟩
  obtain ⟨h1, h2, h3⟩ := foldl_multimapInsert posts [] List.Pairwise.nil
  rw [foldl_PostTimerTask, hempty]
  have hlen : (posts.foldl (fun q p => multimapInsert p q) []).length ≤ fuel := by
    rw [h2.length_eq]; simpa using hfuel
  obtain ⟨r1, r2, -⟩ := Process_plain code now fuel
    { self with
      mTimers := posts.foldl (fun q p => multimapInsert p q) [],
      posted := self.posted ++ posts } h1 hcode hlen
  refine ⟨(posts.foldl (fun q p => multimapInsert p q) []).filter (fun x => decide (x.1 ≤ now)),
    r1, r2, ?_, ?_, ?_⟩
  · simpa using h2.filter (fun x => decide (x.1 ≤ now))
  · exact h1.filter _
  · intro d
    rw [filter_comm', h3 d, filter_comm']
    simp


/-- Witness of C18: a timer at 20, then two timers at 10, and a pass at 25. -/
theorem timers_fire_in_order_witness :
    (∃ firedNow,
      (Process plainTimers 25 3 ([((20 : Int), 0), (10, 1), (10, 2)].foldl
        (fun s p => s.PostTimerTask p.1 p.2) idleController)).2 = true ∧
      (Process plainTimers 25 3 ([((20 : Int), 0), (10, 1), (10, 2)].foldl
        (fun s p => s.PostTimerTask p.1 p.2) idleController)).1.fired
        = idleController.fired ++ firedNow ∧
      firedNow.Perm ([((20 : Int), 0), (10, 1), (10, 2)].filter (fun p => decide (p.1 ≤ 25))) ∧
      firedNow.Pairwise (fun a b => a.1 ≤ b.1) ∧
      ∀ d, firedNow.filter (fun p => decide (p.1 = d))
        = ([((20 : Int), 0), (10, 1), (10, 2)].filter
            (fun p => decide (p.1 ≤ 25))).filter (fun p => decide (p.1 = d))) ∧
    (Process plainTimers 25 2
      ((idleController.PostTimerTask 20 0).PostTimerTask 10 1)).1.fired = [(10, 1), (20, 0)] :=
  timers_fire_in_order plainTimers 25 3 idleController [(20, 0), (10, 1), (10, 2)] rfl
    (fun _ _ => rfl) (by decide)

theorem runTimerSteps_inv (steps : List TimerStep) (self : ThreadController)
    (hsorted : self.mTimers.Pairwise (fun a b => a.1 ≤ b.1)) :
    (runTimerSteps steps self).mTimers.Pairwise (fun a b => a.1 ≤ b.1) ∧
    (∀ q ∈ self.mTimers, q ∈ (runTimerSteps steps self).mTimers) ∧
    ∃ new, (runTimerSteps steps self).posted = self.posted ++ new ∧
      ∀ p ∈ new, p ∈ (runTimerSteps steps self).mTimers := by
  induction steps generalizing self with
  | nil => exact ⟨hsorted, fun q hq => hq, [], by simp [runTimerSteps], by simp⟩
  | cons s rest ih =>
    cases s with
    | postTimerTask tp task =>
      rw [runTimerSteps]
      obtain ⟨h1, h2, new, h3, h4⟩ := ih (self.PostTimerTask tp task)
        (multimapInsert_sorted (tp, task) self.mTimers hsorted)
      refine ⟨h1, ?_, (tp, task) :: new, ?_, ?_⟩
      · intro q hq
        exact h2 q ((mem_multimapInsert (tp, task) q self.mTimers).2 (Or.inr hq))
      · rw [h3]
        simp [PostTimerTask]
      · intro p hp
        rcases List.mem_cons.1 hp with e | e
        · rw [e]
          exact h2 _ ((mem_multimapInsert (tp, task) (tp, task) self.mTimers).2 (Or.inl rfl))
        · exact h4 p e

/-- Every timer fired by the loop is due. -/
theorem drainTimers_fired_due (code : TimerCode) (now : Int) (fuel : Nat)
    (self : ThreadController) :
    ∃ ext, (drainTimers code now fuel self).1.fired = self.fired ++ ext ∧
      ∀ e ∈ ext, e.1 ≤ now := by
  induction fuel generalizing self with
  | zero =>
    refine ⟨[], ?_, by simp⟩
    rcases list_nil_or_cons self.mTimers with hq | ⟨t, rest, hq⟩
    · rw [drainTimers_nil code now _ self hq]; simp
    · by_cases hdue : t.1 ≤ now
      · rw [drainTimers_zero code now self t rest hq hdue]; simp
      · rw [drainTimers_later code now _ self t rest hq hdue]; simp
  | succ n ih =>
    rcases list_nil_or_cons self.mTimers with hq | ⟨t, rest, hq⟩
    · rw [drainTimers_nil code now _ self hq]; exact ⟨[], by simp, by simp⟩
    · by_cases hdue : t.1 ≤ now
      · rw [drainTimers_succ code now n self t rest hq hdue]
        have hf := runTimerSteps_fired (code t.2 { self with fired := self.fired ++ [t] })
          { self with fired := self.fired ++ [t] }
        generalize runTimerSteps (code t.2 { self with fired := self.fired ++ [t] })
          { self with fired := self.fired ++ [t] } = X at hf ⊢
        obtain ⟨ext, h1, h2⟩ := ih { X with mTimers := X.mTimers.tail }
        refine ⟨t :: ext, ?_, ?_⟩
        · rw [h1]
          show X.fired ++ ext = _
          rw [hf]
          simp
        · intro e he
          rcases List.mem_cons.1 he with e1 | e1
          · rw [e1]; exact hdue
          · exact h2 e e1
      · rw [drainTimers_later code now _ self t rest hq hdue]; exact ⟨[], by simp, by simp⟩

/-- A timer posted during the loop with a time point later than `now` stays in
the queue. -/
theorem drainTimers_keeps_later (code : TimerCode) (now : Int) (n0 : Nat) (fuel : Nat)
    (self : ThreadController)
    (hn0 : n0 ≤ self.posted.length)
    (hsorted : self.mTimers.Pairwise (fun a b => a.1 ≤ b.1))
    (hinv : ∀ p ∈ self.posted.drop n0, now < p.1 → p ∈ self.mTimers) :
    ∀ p ∈ (drainTimers code now fuel self).1.posted.drop n0, now < p.1 →
      p ∈ (drainTimers code now fuel self).1.mTimers := by
  induction fuel generalizing self with
  | zero =>
    rcases list_nil_or_cons self.mTimers with hq | ⟨t, rest, hq⟩
    · rw [drainTimers_nil code now _ self hq]; exact hinv
    · by_cases hdue : t.1 ≤ now
      · rw [drainTimers_zero code now self t rest hq hdue]; exact hinv
      · rw [drainTimers_later code now _ self t rest hq hdue]; exact hinv
  | succ n ih =>
    rcases list_nil_or_cons self.mTimers with hq | ⟨t, rest, hq⟩
    · rw [drainTimers_nil code now _ self hq]; exact hinv
    · by_cases hdue : t.1 ≤ now
      · rw [drainTimers_succ code now n self t rest hq hdue]
        obtain ⟨s1, s2, new, s3, s4⟩ := runTimerSteps_inv
          (code t.2 { self with fired := self.fired ++ [t] })
          { self with fired := self.fired ++ [t] } hsorted
        generalize runTimerSteps (code t.2 { self with fired := self.fired ++ [t] })
          { self with fired := self.fired ++ [t] } = X at s1 s2 s3 s4 ⊢
        have s3' : X.posted = self.posted ++ new := s3
        have ht : t ∈ X.mTimers := s2 t (by show t ∈ self.mTimers; rw [hq]; exact List.mem_cons_self _ _)
        obtain ⟨x, xs, hX⟩ : ∃ x xs, X.mTimers = x :: xs := by
          rcases list_nil_or_cons X.mTimers with h | h
          · rw [h] at ht; cases ht
          · exact h
        have hxt : x.1 ≤ t.1 := by
          rw [hX] at ht s1
          rcases List.mem_cons.1 ht with e | e
          · rw [e]
          · exact (List.pairwise_cons.1 s1).1 t e
        apply ih { X with mTimers := X.mTimers.tail }
        · show n0 ≤ X.posted.length
          rw [s3', List.length_append]; omega
        · show X.mTimers.tail.Pairwise _
          rw [hX] at s1 ⊢
          exact (List.pairwise_cons.1 s1).2
        · intro p hp hlate
          have hp' : p ∈ X.posted.drop n0 := hp
          rw [s3', List.drop_append_of_le_length hn0] at hp'
          have hpX : p ∈ X.mTimers := by
            rcases List.mem_append.1 hp' with e | e
            · exact s2 p (hinv p e hlate)
            · exact s4 p e
          show p ∈ X.mTimers.tail
          rw [hX] at hpX ⊢
          rcases List.mem_cons.1 hpX with e | e
          · rw [e] at hlate; omega
          · exact e
      · rw [drainTimers_later code now _ self t rest hq hdue]; exact hinv

/-- C20 fails as stated: the timer task 0, at the time point 5, posts the
task 1 at the time point 7 while it is fired by a `Process` pass whose `now` is
10; the new timer is fired during that same pass. -/
theorem posted_timer_fired_in_same_pass :
    repostingTimers 0 idleController = [.postTimerTask 7 1] ∧
    (Process repostingTimers 10 10 (idleController.PostTimerTask 5 0)).2 = true ∧
    (Process repostingTimers 10 10 (idleController.PostTimerTask 5 0)).1.posted.drop
      (idleController.PostTimerTask 5 0).posted.length = [(7, 1)] ∧
    (Process repostingTimers 10 10 (idleController.PostTimerTask 5 0)).1.fired
      = [(5, 0), (7, 1)] ∧
    (7, 1) ∈ (Process repostingTimers 10 10 (idleController.PostTimerTask 5 0)).1.fired := by
  refine ⟨rfl, rfl, by decide, by decide, by decide⟩

/-- C20, amended: a timer that is posted while a `Process` pass is firing
timers, with a time point later than the `now` read at the start of the pass,
is not fired during that pass, and it is in the queue when the pass ends. -/
theorem later_timer_not_fired (code : TimerCode) (now : Int) (fuel : Nat)
    (self : ThreadController) (p : Int × Nat)
    (hsorted : self.mTimers.Pairwise (fun a b => a.1 ≤ b.1))
    (hposted : p ∈ (Process code now fuel self).1.posted.drop self.posted.length)
    (hlate : now < p.1) :
    p ∉ (Process code now fuel self).1.fired.drop self.fired.length ∧
    p ∈ (Process code now fuel self).1.mTimers := by
  constructor
  · obtain ⟨ext, h1, h2⟩ := drainTimers_fired_due code now fuel self
    rw [Process, h1, List.drop_left]
    intro hp
    have := h2 p hp
    omega
  · exact drainTimers_keeps_later code now self.posted.length fuel self (le_refl _) hsorted
      (by simp) p hposted hlate

/-- Witness of the amended C20: the timer task 0, at the time point 5, posts
the task 1 at the time point 17 during a pass whose `now` is 10. -/
theorem later_timer_not_fired_witness :
    ((17 : Int), 1) ∉ (Process deferringTimers 10 10
        (idleController.PostTimerTask 5 0)).1.fired.drop
          (idleController.PostTimerTask 5 0).fired.length ∧
    ((17 : Int), 1) ∈ (Process deferringTimers 10 10
        (idleController.PostTimerTask 5 0)).1.mTimers :=
  later_timer_not_fired deferringTimers 10 10 (idleController.PostTimerTask 5 0) (17, 1)
    (by decide) (by decide) (by decide)

end ThreadController

/-! ## Error translation (claim C27) -/

/-- C27: `OtbrErrorToOtError` maps `OTBR_ERROR_NONE` to `OT_ERROR_NONE`,
`NOT_FOUND` to `NOT_FOUND`, `PARSE` to `PARSE`, `NOT_IMPLEMENTED` to
`NOT_IMPLEMENTED`, `INVALID_ARGS` to `INVALID_ARGS`, `DUPLICATED` to
`DUPLICATED`, and every other code to `OT_ERROR_FAILED`; it returns
`OT_ERROR_NONE` if and only if its argument is `OTBR_ERROR_NONE`. -/
theorem OtbrErrorToOtError_translation :
    OtbrErrorToOtError OTBR_ERROR_NONE = OT_ERROR_NONE ∧
    OtbrErrorToOtError OTBR_ERROR_NOT_FOUND = OT_ERROR_NOT_FOUND ∧
    OtbrErrorToOtError OTBR_ERROR_PARSE = OT_ERROR_PARSE ∧
    OtbrErrorToOtError OTBR_ERROR_NOT_IMPLEMENTED = OT_ERROR_NOT_IMPLEMENTED ∧
    OtbrErrorToOtError OTBR_ERROR_INVALID_ARGS = OT_ERROR_INVALID_ARGS ∧
    OtbrErrorToOtError OTBR_ERROR_DUPLICATED = OT_ERROR_DUPLICATED ∧
    (∀ e, e ≠ OTBR_ERROR_NONE → e ≠ OTBR_ERROR_NOT_FOUND → e ≠ OTBR_ERROR_PARSE →
      e ≠ OTBR_ERROR_NOT_IMPLEMENTED → e ≠ OTBR_ERROR_INVALID_ARGS →
      e ≠ OTBR_ERROR_DUPLICATED → OtbrErrorToOtError e = OT_ERROR_FAILED) ∧
    (∀ e, OtbrErrorToOtError e = OT_ERROR_NONE ↔ e = OTBR_ERROR_NONE) := by
  refine ⟨rfl, rfl, rfl, rfl, rfl, rfl, ?_, ?_⟩
  · intro e h1 h2 h3 h4 h5 h6
    cases e <;> first | rfl | contradiction
  · intro e
    cases e <;> simp [OtbrErrorToOtError]

/-! ## One step of completion handling (claims C22 and C23) -/

namespace AdvertisingProxy

theorem scanServices_notFound_elim (n nt : List Char) (svcs : List otSrpServerService)
    (h : scanServices n nt svcs = .notFound) :
    ∀ s ∈ svcs, ∃ inst type dom,
      SplitFullServiceName s.mFullName = .ok (inst, type, dom) ∧ ¬ (inst = n ∧ type = nt) := by
  induction svcs with
  | nil => intro s hs; cases hs
  | cons x rest ih =>
    rw [scanServices] at h
    cases hx : SplitFullServiceName x.mFullName with
    | error e => rw [hx] at h; cases h
    | ok r =>
      obtain ⟨inst, type, dom⟩ := r
      rw [hx] at h
      simp only [] at h
      by_cases hm : n = inst ∧ nt = type
      · rw [if_pos hm] at h; cases h
      · rw [if_neg hm] at h
        intro s hs
        rcases List.mem_cons.1 hs with heq | hs'
        · rw [heq]
          exact ⟨inst, type, dom, hx, fun ⟨a, b⟩ => hm ⟨a.symm, b.symm⟩⟩
        · exact ih h s hs'

theorem scanServices_found_elim (n nt : List Char) (svcs : List otSrpServerService)
    (h : scanServices n nt svcs = .found) :
    ∃ before s after dom, svcs = before ++ s :: after ∧
      SplitFullServiceName s.mFullName = .ok (n, nt, dom) ∧
      ∀ s' ∈ before, ∃ inst type dom',
        SplitFullServiceName s'.mFullName = .ok (inst, type, dom') ∧
          ¬ (inst = n ∧ type = nt) := by
  induction svcs with
  | nil => rw [scanServices] at h; cases h
  | cons x rest ih =>
    rw [scanServices] at h
    cases hx : SplitFullServiceName x.mFullName with
    | error e => rw [hx] at h; cases h
    | ok r =>
      obtain ⟨inst, type, dom⟩ := r
      rw [hx] at h
      simp only [] at h
      by_cases hm : n = inst ∧ nt = type
      · refine ⟨[], x, rest, dom, rfl, ?_, ?_⟩
        · rw [hx, hm.1, hm.2]
        · intro s hs; cases hs
      · rw [if_neg hm] at h
        obtain ⟨before, s, after, dom2, hl, hs, hb⟩ := ih h
        refine ⟨x :: before, s, after, dom2, by rw [hl]; rfl, hs, ?_⟩
        intro s' hs'
        rcases List.mem_cons.1 hs' with heq | hmem
        · rw [heq]
          exact ⟨inst, type, dom, hx, fun ⟨a, b⟩ => hm ⟨a.symm, b.symm⟩⟩
        · exact hb s' hmem

/-- The loop over the in-flight list either changes nothing or stops at a
first record with a matching service. -/
theorem serviceUpdates_cases (n nt : List Char) (e : otbrError) (l : List OutstandingUpdate) :
    serviceUpdates n nt e l = (l, []) ∨
    ∃ pre r post, l = pre ++ r :: post ∧
      (∀ u ∈ pre, scanServices n nt u.mHost.mServices = .notFound) ∧
      scanServices n nt r.mHost.mServices = .found := by
  induction l with
  | nil => exact Or.inl rfl
  | cons u rest ih =>
    cases hs : scanServices n nt u.mHost.mServices with
    | failed err => left; rw [serviceUpdates, hs]
    | found => exact Or.inr ⟨[], u, rest, rfl, fun x hx => absurd hx (List.not_mem_nil _), hs⟩
    | notFound =>
      rcases ih with h | ⟨pre, r, post, hl, hp, hr⟩
      · left
        rw [serviceUpdates, hs]
        simp only []
        rw [h]
      · right
        refine ⟨u :: pre, r, post, by rw [hl]; rfl, ?_, hr⟩
        intro x hx
        rcases List.mem_cons.1 hx with heq | hx'
        · rw [heq]; exact hs
        · exact hp x hx'

theorem hostUpdates_cases (n : List Char) (e : otbrError) (l : List OutstandingUpdate) :
    hostUpdates n e l = (l, []) ∨
    ∃ pre r post, l = pre ++ r :: post ∧
      (∀ u ∈ pre, ∃ inst dom,
        SplitFullHostName u.mHost.mFullName = .ok (inst, dom) ∧ inst ≠ n) ∧
      ∃ dom, SplitFullHostName r.mHost.mFullName = .ok (n, dom) := by
  induction l with
  | nil => exact Or.inl rfl
  | cons u rest ih =>
    cases hs : SplitFullHostName u.mHost.mFullName with
    | error err => left; rw [hostUpdates, hs]
    | ok p =>
      obtain ⟨inst, dom⟩ := p
      by_cases hm : n = inst
      · right
        refine ⟨[], u, rest, rfl, fun x hx => absurd hx (List.not_mem_nil _), dom, ?_⟩
        rw [hs, hm]
      · rcases ih with h | ⟨pre, r, post, hl, hp, hr⟩
        · left
          rw [hostUpdates, hs]
          simp only [hm, if_false]
          rw [h]
        · right
          refine ⟨u :: pre, r, post, by rw [hl]; rfl, ?_, hr⟩
          intro x hx
          rcases List.mem_cons.1 hx with heq | hx'
          · rw [heq]; exact ⟨inst, dom, hs, fun a => hm a.symm⟩
          · exact hp x hx'

theorem PublishHostHandler_eq (self : AdvertisingProxy) (n : List Char) (e : otbrError)
    (hdef : self.undefinedBehaviour = false) :
    self.PublishHostHandler n e
      = { self with
          mOutstandingUpdates := (hostUpdates n e self.mOutstandingUpdates).1,
          stackResults := self.stackResults ++ (hostUpdates n e self.mOutstandingUpdates).2 } := by
  unfold PublishHostHandler
  rw [if_neg (by simp [hdef])]

theorem PublishServiceHandler_eq (self : AdvertisingProxy) (n t nt : List Char) (e : otbrError)
    (hdef : self.undefinedBehaviour = false) (hnt : normalizeType t = some nt) :
    self.PublishServiceHandler n t e
      = { self with
          mOutstandingUpdates := (serviceUpdates n nt e self.mOutstandingUpdates).1,
          stackResults := self.stackResults
            ++ (serviceUpdates n nt e self.mOutstandingUpdates).2 } := by
  unfold PublishServiceHandler
  rw [if_neg (by simp [hdef]), hnt]

/-- The three ways a completion is handled: it changes nothing; or its type is
empty; or it is attributed to the first record that it matches. -/
theorem deliver_cases (self : AdvertisingProxy) (c : Completion) :
    self.deliver c = self ∨
    self.deliver c = { self with undefinedBehaviour := true } ∨
    (self.undefinedBehaviour = false ∧
      ∃ pre r post, self.mOutstandingUpdates = pre ++ r :: post ∧
        (∀ u ∈ pre, c.Skips u) ∧ c.Matches r) := by
  rcases bool_false_or_true self.undefinedBehaviour with hdef | hdef
  · cases c with
    | host n e =>
      rcases hostUpdates_cases n e self.mOutstandingUpdates with h | ⟨pre, r, post, hl, hp, hr⟩
      · left
        show self.PublishHostHandler n e = self
        rw [PublishHostHandler_eq self n e hdef, h]
        cases self
        simp
      · exact Or.inr (Or.inr ⟨hdef, pre, r, post, hl, hp, hr⟩)
    | service n t e =>
      cases hnt : normalizeType t with
      | none =>
        right; left
        show self.PublishServiceHandler n t e = _
        unfold PublishServiceHandler
        rw [if_neg (by simp [hdef]), hnt]
      | some nt =>
        rcases serviceUpdates_cases n nt e self.mOutstandingUpdates with
          h | ⟨pre, r, post, hl, hp, hr⟩
        · left
          show self.PublishServiceHandler n t e = self
          rw [PublishServiceHandler_eq self n t nt e hdef hnt, h]
          cases self
          simp
        · refine Or.inr (Or.inr ⟨hdef, pre, r, post, hl, ?_, ?_⟩)
          · intro u hu
            exact ⟨nt, hnt, scanServices_notFound_elim n nt _ (hp u hu)⟩
          · obtain ⟨before, s, after, dom, hsv, hs, hb⟩ := scanServices_found_elim n nt _ hr
            exact ⟨nt, hnt, before, s, after, dom, hsv, hs, hb⟩
  · left
    cases c with
    | host n e => simp [deliver, PublishHostHandler, hdef]
    | service n t e => simp [deliver, PublishServiceHandler, hdef]


/-- The one-step completion rule, as the handlers apply it.  For a completion,
of the host or of a service, that is attributed to the record `r` of the
in-flight list (it matches `r` and none of the records listed before it): if
the outcome is an error or the count of `r` is one, exactly one result is
reported, for the host of `r`, and the list is the old list without `r`;
otherwise nothing is reported and the list is the old list with the count of
`r` decremented, `r` staying where it is.  The decrement is that of a
`uint32_t`: it yields the count minus one for every count from one on; the
count zero wraps around to `2 ^ 32 - 1`. -/
theorem one_step_completion_rule (self : AdvertisingProxy) (c : Completion)
    (pre post : List OutstandingUpdate) (r : OutstandingUpdate)
    (hdef : self.undefinedBehaviour = false)
    (hlist : self.mOutstandingUpdates = pre ++ r :: post)
    (hpre : ∀ u ∈ pre, c.Skips u) (hr : c.Matches r) :
    (c.error ≠ OTBR_ERROR_NONE ∨ r.mCount = 1 →
      (self.deliver c).stackResults = self.stackResults ++ [(r.mHost, c.result)] ∧
      (self.deliver c).mOutstandingUpdates = pre ++ post) ∧
    (c.error = OTBR_ERROR_NONE ∧ r.mCount ≠ 1 →
      (self.deliver c).stackResults = self.stackResults ∧
      (self.deliver c).mOutstandingUpdates
        = pre ++ ⟨r.mHost, decrementCount r.mCount⟩ :: post ∧
      (1 ≤ r.mCount → r.mCount ≤ 2 ^ 32 → decrementCount r.mCount = r.mCount - 1)) ∧
    (self.deliver c).undefinedBehaviour = false ∧
    (self.deliver c).publisherTrace = self.publisherTrace := by
  have key := deliver_first_match self c pre post r hdef hlist hpre hr
  refine ⟨?_, ?_, ?_, deliver_trace self c⟩
  · intro h
    rw [key, if_pos h]
    exact ⟨rfl, rfl⟩
  · rintro ⟨h1, h2⟩
    rw [key, if_neg (by simp [h1, h2])]
    refine ⟨rfl, rfl, ?_⟩
    intro a b
    exact decrementCount_pos r.mCount a b
  · rw [key]
    split <;> exact hdef

/-- An instance of the rule: with the router record in flight with count two,
a host completion without error is counted; the record stays, with count
one. -/
theorem one_step_completion_rule_witness :
    (Completion.error (.host "router1".toList OTBR_ERROR_NONE) ≠ OTBR_ERROR_NONE ∨
        (⟨routerHost, 2⟩ : OutstandingUpdate).mCount = 1 →
      (routerInFlight.deliver (.host "router1".toList OTBR_ERROR_NONE)).stackResults
        = routerInFlight.stackResults
          ++ [(routerHost, Completion.result (.host "router1".toList OTBR_ERROR_NONE))] ∧
      (routerInFlight.deliver (.host "router1".toList OTBR_ERROR_NONE)).mOutstandingUpdates
        = [] ++ []) ∧
    (Completion.error (.host "router1".toList OTBR_ERROR_NONE) = OTBR_ERROR_NONE ∧
        (⟨routerHost, 2⟩ : OutstandingUpdate).mCount ≠ 1 →
      (routerInFlight.deliver (.host "router1".toList OTBR_ERROR_NONE)).stackResults
        = routerInFlight.stackResults ∧
      (routerInFlight.deliver (.host "router1".toList OTBR_ERROR_NONE)).mOutstandingUpdates
        = [] ++ ⟨routerHost, decrementCount 2⟩ :: [] ∧
      (1 ≤ 2 → 2 ≤ 2 ^ 32 → decrementCount 2 = 2 - 1)) ∧
    (routerInFlight.deliver (.host "router1".toList OTBR_ERROR_NONE)).undefinedBehaviour
      = false ∧
    (routerInFlight.deliver (.host "router1".toList OTBR_ERROR_NONE)).publisherTrace
      = routerInFlight.publisherTrace :=
  one_step_completion_rule routerInFlight (.host "router1".toList OTBR_ERROR_NONE)
    [] [] ⟨routerHost, 2⟩ rfl rfl (fun _ h => absurd h (List.not_mem_nil _))
    ⟨"default.service.arpa".toList, rfl⟩

/-- C22, the code at the failing input: the record of the departed host is in
flight with count zero (the host has no address and its service is deleted);
the completion of the service operation, without error, matches the record.
The outcome is not an error and the count is not one, so the count is
decremented: it becomes `2 ^ 32 - 1`, which is not the count minus one, and
nothing is reported.  The record stays in flight with a count that is greater
than before. -/
theorem one_step_rule_at_count_zero :
    departedInFlight.mOutstandingUpdates = [⟨departedHost, 0⟩] ∧
    Completion.matchesHost (.service "myprinter".toList "_ipp._tcp".toList OTBR_ERROR_NONE)
      departedHost = true ∧
    (departedInFlight.deliver
      (.service "myprinter".toList "_ipp._tcp".toList OTBR_ERROR_NONE)).mOutstandingUpdates
      = [⟨departedHost, 4294967295⟩] ∧
    (departedInFlight.deliver
      (.service "myprinter".toList "_ipp._tcp".toList OTBR_ERROR_NONE)).stackResults = [] ∧
    decrementCount 0 = 4294967295 ∧
    (4294967295 : Int) ≠ 0 - 1 ∧
    (4294967295 : Nat) ≠ 0 - 1 := by
  refine ⟨rfl, by decide, by decide, rfl, by decide, by decide, by decide⟩

/-- C23: first match wins, and nothing else is touched.  Whatever the in-flight
list and the completion, either the list and the reported results stay as they
are, or the list is `pre ++ r :: post` where `r` is the first record that the
completion matches, and the handler either removes `r`, reporting one result
for its host, or decrements the count of `r`: the records of `pre` and of
`post` keep their host, their count and their order.  The second part says
that the first matching record is the one concerned whatever follows it,
records that match the completion too included. -/
theorem first_match_wins (self : AdvertisingProxy) (c : Completion) :
    (((self.deliver c).mOutstandingUpdates = self.mOutstandingUpdates ∧
        (self.deliver c).stackResults = self.stackResults) ∨
      ∃ pre r post, self.mOutstandingUpdates = pre ++ r :: post ∧
        (∀ u ∈ pre, c.Skips u) ∧ c.Matches r ∧
        (((self.deliver c).mOutstandingUpdates = pre ++ post ∧
            (self.deliver c).stackResults = self.stackResults ++ [(r.mHost, c.result)]) ∨
          ((self.deliver c).mOutstandingUpdates
              = pre ++ ⟨r.mHost, decrementCount r.mCount⟩ :: post ∧
            (self.deliver c).stackResults = self.stackResults))) ∧
    (∀ pre r post, self.undefinedBehaviour = false →
      self.mOutstandingUpdates = pre ++ r :: post →
      (∀ u ∈ pre, c.Skips u) → c.Matches r →
      ((self.deliver c).mOutstandingUpdates = pre ++ post ∧
          (self.deliver c).stackResults = self.stackResults ++ [(r.mHost, c.result)]) ∨
        ((self.deliver c).mOutstandingUpdates
            = pre ++ ⟨r.mHost, decrementCount r.mCount⟩ :: post ∧
          (self.deliver c).stackResults = self.stackResults)) := by
  have step : ∀ pre r post, self.undefinedBehaviour = false →
      self.mOutstandingUpdates = pre ++ r :: post →
      (∀ u ∈ pre, c.Skips u) → c.Matches r →
      ((self.deliver c).mOutstandingUpdates = pre ++ post ∧
          (self.deliver c).stackResults = self.stackResults ++ [(r.mHost, c.result)]) ∨
        ((self.deliver c).mOutstandingUpdates
            = pre ++ ⟨r.mHost, decrementCount r.mCount⟩ :: post ∧
          (self.deliver c).stackResults = self.stackResults) := by
    intro pre r post hdef hl hp hr
    rw [deliver_first_match self c pre post r hdef hl hp hr]
    split
    · exact Or.inl ⟨rfl, rfl⟩
    · exact Or.inr ⟨rfl, rfl⟩
  refine ⟨?_, step⟩
  rcases deliver_cases self c with h | h | ⟨hdef, pre, r, post, hl, hp, hr⟩
  · left; rw [h]; exact ⟨rfl, rfl⟩
  · left; rw [h]; exact ⟨rfl, rfl⟩
  · right
    exact ⟨pre, r, post, hl, hp, hr, step pre r post hdef hl hp hr⟩

/-- An instance of the first-match rule: two records of hosts with the same
instance label are in flight; a host completion for that label is counted on
the first one, the second one is left as it is. -/
theorem first_match_example :
    (AdvertisingProxy.deliver ⟨[⟨routerHost, 2⟩, ⟨renewedHost, 2⟩], [], [], false⟩
      (.host "router1".toList OTBR_ERROR_NONE)).mOutstandingUpdates
      = [⟨routerHost, 1⟩, ⟨renewedHost, 2⟩] := by
  decide


/-! ## Repeated completions, type normalization, outcome conversion
(claims C24 to C26 and C28) -/

/-- C24 fails as stated: the router record is in flight with count two, for
the host and for the printer service.  The host completion is counted, the
count is one; the same host completion once more matches the record again and
finalizes it: the record is removed and success is reported for the router
host, although no completion of the printer service has been handled. -/
theorem repeated_completion_finalizes :
    routerInFlight.mOutstandingUpdates = [⟨routerHost, 2⟩] ∧
    routerInFlight.stackResults = [] ∧
    (routerInFlight.deliver (.host "router1".toList OTBR_ERROR_NONE)).mOutstandingUpdates
      = [⟨routerHost, 1⟩] ∧
    ((routerInFlight.deliver (.host "router1".toList OTBR_ERROR_NONE)).deliver
      (.host "router1".toList OTBR_ERROR_NONE)).mOutstandingUpdates = [] ∧
    ((routerInFlight.deliver (.host "router1".toList OTBR_ERROR_NONE)).deliver
      (.host "router1".toList OTBR_ERROR_NONE)).stackResults = [(routerHost, OT_ERROR_NONE)] := by
  refine ⟨rfl, rfl, by decide, by decide, by decide⟩

theorem Completion.Matches_count (c : Completion) (r : OutstandingUpdate) (n : Nat)
    (h : c.Matches r) : c.Matches ⟨r.mHost, n⟩ := by
  cases c with
  | host a e => exact h
  | service a t e => exact h

/-- C24, amended: a completion is compared with all the sub-operations of a
record, and a record keeps only a count.  When a completion without error has
been counted on the record `r` (whose count was not one), a second completion
with the same identifiers is attributed to the same record again and is
counted again: it finalizes the record, reporting one result for its host, if
the count has come down to one, and decrements the count once more
otherwise. -/
theorem repeated_completion_counted_again (self : AdvertisingProxy) (c : Completion)
    (pre post : List OutstandingUpdate) (r : OutstandingUpdate)
    (hdef : self.undefinedBehaviour = false)
    (hlist : self.mOutstandingUpdates = pre ++ r :: post)
    (hpre : ∀ u ∈ pre, c.Skips u) (hr : c.Matches r)
    (hok : c.error = OTBR_ERROR_NONE) (hcount : r.mCount ≠ 1) :
    (self.deliver c).mOutstandingUpdates
      = pre ++ ⟨r.mHost, decrementCount r.mCount⟩ :: post ∧
    (self.deliver c).stackResults = self.stackResults ∧
    (decrementCount r.mCount = 1 →
      ((self.deliver c).deliver c).mOutstandingUpdates = pre ++ post ∧
      ((self.deliver c).deliver c).stackResults
        = self.stackResults ++ [(r.mHost, c.result)]) ∧
    (decrementCount r.mCount ≠ 1 →
      ((self.deliver c).deliver c).mOutstandingUpdates
        = pre ++ ⟨r.mHost, decrementCount (decrementCount r.mCount)⟩ :: post ∧
      ((self.deliver c).deliver c).stackResults = self.stackResults) := by
  have first := deliver_first_match self c pre post r hdef hlist hpre hr
  rw [if_neg (by simp [hok, hcount])] at first
  have second := deliver_first_match
    { self with mOutstandingUpdates :=
        pre ++ { r with mCount := decrementCount r.mCount } :: post }
    c pre post ⟨r.mHost, decrementCount r.mCount⟩ hdef rfl hpre
    (Completion.Matches_count c r _ hr)
  rw [first]
  refine ⟨rfl, rfl, ?_, ?_⟩
  · intro h1
    rw [second, if_pos (Or.inr h1)]
    exact ⟨rfl, rfl⟩
  · intro h1
    rw [second, if_neg (by simp [hok]; exact h1)]
    exact ⟨rfl, rfl⟩

/-- Witness of the amended C24 on the router record, in flight with count
two. -/
theorem repeated_completion_counted_again_witness :
    (routerInFlight.deliver (.host "router1".toList OTBR_ERROR_NONE)).mOutstandingUpdates
      = [] ++ ⟨routerHost, decrementCount 2⟩ :: [] ∧
    (routerInFlight.deliver (.host "router1".toList OTBR_ERROR_NONE)).stackResults
      = routerInFlight.stackResults ∧
    (decrementCount 2 = 1 →
      ((routerInFlight.deliver (.host "router1".toList OTBR_ERROR_NONE)).deliver
        (.host "router1".toList OTBR_ERROR_NONE)).mOutstandingUpdates = [] ++ [] ∧
      ((routerInFlight.deliver (.host "router1".toList OTBR_ERROR_NONE)).deliver
        (.host "router1".toList OTBR_ERROR_NONE)).stackResults
        = routerInFlight.stackResults
          ++ [(routerHost, Completion.result (.host "router1".toList OTBR_ERROR_NONE))]) ∧
    (decrementCount 2 ≠ 1 →
      ((routerInFlight.deliver (.host "router1".toList OTBR_ERROR_NONE)).deliver
        (.host "router1".toList OTBR_ERROR_NONE)).mOutstandingUpdates
        = [] ++ ⟨routerHost, decrementCount (decrementCount 2)⟩ :: [] ∧
      ((routerInFlight.deliver (.host "router1".toList OTBR_ERROR_NONE)).deliver
        (.host "router1".toList OTBR_ERROR_NONE)).stackResults
        = routerInFlight.stackResults) :=
  repeated_completion_counted_again routerInFlight (.host "router1".toList OTBR_ERROR_NONE)
    [] [] ⟨routerHost, 2⟩ rfl rfl (fun _ h => absurd h (List.not_mem_nil _))
    ⟨"default.service.arpa".toList, rfl⟩ rfl (by decide)

theorem normalizeType_concat (t : List Char) (ch : Char) :
    normalizeType (t ++ [ch]) = some (if ch = '.' then t else t ++ [ch]) := by
  unfold normalizeType
  rw [List.getLast?_concat]
  simp only []
  by_cases h : ch = '.'
  · rw [if_pos h, if_pos h, List.dropLast_concat]
  · rw [if_neg h, if_neg h]

theorem exists_concat_of_ne_nil (t : List Char) (h : t ≠ []) :
    ∃ init last, t = init ++ [last] :=
  ⟨t.dropLast, t.getLast h, (List.dropLast_append_getLast h).symm⟩

/-- C25: type normalization.  For a non-empty type `t` the normalized type is
`t` without its last character if that character is the separator, and `t`
otherwise.  Hence, for a non-empty `t` that does not end in the separator, a
service completion with the type `t` followed by one separator leaves the
proxy in the same state (in-flight list, reported results) as the completion
with the type `t`; and of two trailing separators one is kept. -/
theorem type_normalization :
    (∀ t : List Char, t ≠ [] →
      normalizeType t = some (if t.getLast? = some '.' then t.dropLast else t)) ∧
    (∀ (self : AdvertisingProxy) (n t : List Char) (e : otbrError),
      t ≠ [] → t.getLast? ≠ some '.' →
      self.PublishServiceHandler n (t ++ ['.']) e = self.PublishServiceHandler n t e) ∧
    (∀ t : List Char, normalizeType (t ++ ['.', '.']) = some (t ++ ['.'])) := by
  refine ⟨?_, ?_, ?_⟩
  · intro t ht
    obtain ⟨init, last, rfl⟩ := exists_concat_of_ne_nil t ht
    rw [normalizeType_concat, List.getLast?_concat, List.dropLast_concat]
    by_cases h : last = '.'
    · simp [h]
    · simp [h]
  · intro self n t e ht hdot
    obtain ⟨init, last, rfl⟩ := exists_concat_of_ne_nil t ht
    have hl : last ≠ '.' := by
      intro h
      apply hdot
      rw [List.getLast?_concat, h]
    have h1 : normalizeType (init ++ [last] ++ ['.']) = some (init ++ [last]) := by
      rw [normalizeType_concat, if_pos rfl]
    have h2 : normalizeType (init ++ [last]) = some (init ++ [last]) := by
      rw [normalizeType_concat, if_neg hl]
    unfold PublishServiceHandler
    rw [h1, h2]
  · intro t
    have h : t ++ ['.', '.'] = (t ++ ['.']) ++ ['.'] := by simp
    rw [h, normalizeType_concat, if_pos rfl]

/-- C26, the code at the failing input: `normType.back()` is evaluated
whatever the length of `normType`; for the empty type this is the `back()` of
an empty string, an operation without defined behaviour.  It is reached from
every state, here with the router record in flight. -/
theorem empty_type_reads_back :
    normalizeType "".toList = none ∧
    (∀ (self : AdvertisingProxy) (n : List Char) (e : otbrError),
      self.undefinedBehaviour = false →
      (self.PublishServiceHandler n "".toList e).undefinedBehaviour = true) ∧
    routerInFlight.undefinedBehaviour = false ∧
    (routerInFlight.PublishServiceHandler "myprinter".toList "".toList
      OTBR_ERROR_NONE).undefinedBehaviour = true := by
  refine ⟨rfl, ?_, rfl, rfl⟩
  intro self n e h
  unfold PublishServiceHandler
  rw [if_neg (by simp [h])]
  rfl

/-- C28, the code at the failing input: the router record is in flight; a host
completion with `OTBR_ERROR_NOT_FOUND` finalizes it and reports the code
unconverted, which is not `OT_ERROR_NOT_FOUND`; a service completion with the
same outcome finalizes it and reports `OtbrErrorToOtError` of the code,
`OT_ERROR_NOT_FOUND`. -/
theorem host_outcome_not_translated :
    routerInFlight.mOutstandingUpdates = [⟨routerHost, 2⟩] ∧
    (routerInFlight.deliver (.host "router1".toList OTBR_ERROR_NOT_FOUND)).stackResults
      = [(routerHost, staticCastOtError OTBR_ERROR_NOT_FOUND)] ∧
    (routerInFlight.deliver
      (.service "myprinter".toList "_ipp._tcp".toList OTBR_ERROR_NOT_FOUND)).stackResults
      = [(routerHost, OtbrErrorToOtError OTBR_ERROR_NOT_FOUND)] ∧
    OtbrErrorToOtError OTBR_ERROR_NOT_FOUND = OT_ERROR_NOT_FOUND ∧
    staticCastOtError OTBR_ERROR_NOT_FOUND ≠ OtbrErrorToOtError OTBR_ERROR_NOT_FOUND := by
  refine ⟨rfl, by decide, by decide, rfl, by decide⟩


/-! ## Dispatch stops at the first failure (claim C30) -/

theorem publishServices_frozen (pub : Publisher) (hn : List Char) (ph : Bool)
    (svcs : List otSrpServerService) (self : AdvertisingProxy)
    (h : self.undefinedBehaviour = true) :
    (publishServices pub hn ph svcs self).1 = self := by
  induction svcs with
  | nil => rfl
  | cons s rest ih =>
    cases hsplit : SplitFullServiceName s.mFullName with
    | error e => rw [publishServices_cons_error _ _ _ _ _ _ e hsplit]
    | ok r =>
      obtain ⟨n, t, d⟩ := r
      have hc := callPublisher_frozen pub self (serviceCall hn ph s n t) h
      rw [publishServices_cons_next _ _ _ _ _ _ n t d hsplit (by rw [hc]), hc]
      exact ih

/-- The calls of the services loop, for any publisher: they are made for the
first `k` services, one each and in order; a service whose name does not split
is not among them, nor is any service after it; and a call that fails is the
last one. -/
theorem publishServices_prefix (pub : Publisher) (hn : List Char) (ph : Bool)
    (svcs : List otSrpServerService) (self : AdvertisingProxy) :
    ∃ ext k, (publishServices pub hn ph svcs self).1.publisherTrace
        = self.publisherTrace ++ ext ∧
      List.Forall₂ (fun s e => ∃ n t d, SplitFullServiceName s.mFullName = .ok (n, t, d) ∧
        e.1 = serviceCall hn ph s n t) (svcs.take k) ext ∧
      (∀ before s after, svcs = before ++ s :: after →
        (∃ err, SplitFullServiceName s.mFullName = .error err) → k ≤ before.length) ∧
      (∀ p e q, ext = p ++ e :: q → e.2.result ≠ OTBR_ERROR_NONE → q = []) := by
  induction svcs generalizing self with
  | nil =>
    refine ⟨[], 0, by simp [publishServices], List.Forall₂.nil, ?_, ?_⟩
    · intro before s after h
      cases before <;> cases h
    · intro p e q h
      cases p <;> cases h
  | cons s rest ih =>
    cases hsplit : SplitFullServiceName s.mFullName with
    | error err =>
      refine ⟨[], 0, by simp [publishServices_cons_error _ _ _ _ _ _ err hsplit],
        List.Forall₂.nil, fun _ _ _ _ _ => Nat.zero_le _, ?_⟩
      intro p e q h
      cases p <;> cases h
    | ok r =>
      obtain ⟨n, t, d⟩ := r
      have hsok : ∀ before s' after, s :: rest = before ++ s' :: after →
          (∃ err, SplitFullServiceName s'.mFullName = .error err) →
          ∃ before', before = s :: before' ∧ rest = before' ++ s' :: after := by
        intro before s' after h herr
        cases before with
        | nil =>
          rw [List.nil_append] at h
          obtain ⟨err, herr⟩ := herr
          rw [← (List.cons.inj h).1, hsplit] at herr
          cases herr
        | cons b bs =>
          rw [List.cons_append] at h
          exact ⟨bs, by rw [(List.cons.inj h).1], (List.cons.inj h).2⟩
      rcases bool_false_or_true self.undefinedBehaviour with hdef | hdef
      · have htr := callPublisher_trace pub self (serviceCall hn ph s n t) hdef
        by_cases hr : (callPublisher pub self (serviceCall hn ph s n t)).2 = OTBR_ERROR_NONE
        · rw [publishServices_cons_next _ _ _ _ _ _ n t d hsplit hr]
          obtain ⟨ext, k, h1, h2, h3, h4⟩ := ih (callPublisher pub self (serviceCall hn ph s n t)).1
          refine ⟨(serviceCall hn ph s n t, pub self.publisherTrace (serviceCall hn ph s n t))
            :: ext, k + 1, ?_, ?_, ?_, ?_⟩
          · rw [h1, htr.1]; simp
          · rw [List.take_succ_cons]
            exact List.Forall₂.cons ⟨n, t, d, hsplit, rfl⟩ h2
          · intro before s' after h herr
            obtain ⟨before', hb, hrest⟩ := hsok before s' after h herr
            rw [hb, List.length_cons]
            exact Nat.succ_le_succ (h3 before' s' after hrest herr)
          · intro p e q h hne
            cases p with
            | nil =>
              rw [List.nil_append] at h
              rw [← (List.cons.inj h).1] at hne
              rw [htr.2] at hr
              exact absurd hr hne
            | cons x xs =>
              rw [List.cons_append] at h
              exact h4 xs e q (List.cons.inj h).2 hne
        · rw [publishServices_cons_stop _ _ _ _ _ _ n t d hsplit hr]
          refine ⟨[(serviceCall hn ph s n t, pub self.publisherTrace (serviceCall hn ph s n t))],
            1, htr.1, ?_, ?_, ?_⟩
          · rw [List.take_succ_cons, List.take_zero]
            exact List.Forall₂.cons ⟨n, t, d, hsplit, rfl⟩ List.Forall₂.nil
          · intro before s' after h herr
            obtain ⟨before', hb, -⟩ := hsok before s' after h herr
            rw [hb, List.length_cons]
            exact Nat.succ_le_succ (Nat.zero_le _)
          · intro p e q h _
            cases p with
            | nil =>
              rw [List.nil_append] at h
              exact ((List.cons.inj h).2).symm
            | cons x xs =>
              rw [List.cons_append] at h
              have := (List.cons.inj h).2
              cases xs <;> cases this
      · refine ⟨[], 0, ?_, List.Forall₂.nil, fun _ _ _ _ _ => Nat.zero_le _, ?_⟩
        · rw [publishServices_frozen pub hn ph _ self hdef]; simp
        · intro p e q h
          cases p <;> cases h

/-- C30: the dispatch stops at the first failure.  If the host name does not
split, no publisher call is made.  If it splits, the first call is the host
operation, and if that call fails it is the only call.  The calls that follow
are made for the first `k` services, one each and in order: if the name of a
service does not split, no call is made for it nor for any later service
(`k` is at most its position), and a service call that fails is the last call
of the dispatch.  The calls made before the failure stay in the trace, and no
other call is made: nothing is undone. -/
theorem dispatch_aborts_at_first_failure (pub : Publisher) (self : AdvertisingProxy)
    (aHost : otSrpServerHost) (hdef : self.undefinedBehaviour = false) :
    ((∃ err, SplitFullHostName aHost.mFullName = .error err) →
      (AdvertisingHandler pub self aHost).publisherTrace = self.publisherTrace) ∧
    (∀ hn dom, SplitFullHostName aHost.mFullName = .ok (hn, dom) →
      ∃ entries k,
        (AdvertisingHandler pub self aHost).publisherTrace
          = self.publisherTrace ++
            (hostCall hn aHost.mAddresses,
              pub self.publisherTrace (hostCall hn aHost.mAddresses)) :: entries ∧
        ((pub self.publisherTrace (hostCall hn aHost.mAddresses)).result ≠ OTBR_ERROR_NONE →
          entries = []) ∧
        List.Forall₂ (fun s e => ∃ n t d, SplitFullServiceName s.mFullName = .ok (n, t, d) ∧
          e.1 = serviceCall hn (decide (aHost.mAddresses.length > 0)) s n t)
          (aHost.mServices.take k) entries ∧
        (∀ before s after, aHost.mServices = before ++ s :: after →
          (∃ err, SplitFullServiceName s.mFullName = .error err) → k ≤ before.length) ∧
        (∀ p e q, entries = p ++ e :: q → e.2.result ≠ OTBR_ERROR_NONE → q = [])) := by
  constructor
  · rintro ⟨err, herr⟩
    rw [AdvertisingHandler_trace pub self aHost hdef, advertise_error pub self aHost err herr]
  · intro hn dom hsplit
    rw [AdvertisingHandler_trace pub self aHost hdef]
    have htr := callPublisher_trace pub { self with mOutstandingUpdates :=
        self.mOutstandingUpdates ++
          [⟨aHost, countUpdates (decide (aHost.mAddresses.length > 0)) aHost.mServices⟩] }
      (hostCall hn aHost.mAddresses) hdef
    by_cases hr : (callPublisher pub { self with mOutstandingUpdates :=
        self.mOutstandingUpdates ++
          [⟨aHost, countUpdates (decide (aHost.mAddresses.length > 0)) aHost.mServices⟩] }
      (hostCall hn aHost.mAddresses)).2 = OTBR_ERROR_NONE
    · rw [advertise_next pub self aHost hn dom hsplit hr]
      obtain ⟨ext, k, h1, h2, h3, h4⟩ := publishServices_prefix pub hn
        (decide (aHost.mAddresses.length > 0)) aHost.mServices
        (callPublisher pub { self with mOutstandingUpdates := self.mOutstandingUpdates ++
          [⟨aHost, countUpdates (decide (aHost.mAddresses.length > 0)) aHost.mServices⟩] }
          (hostCall hn aHost.mAddresses)).1
      refine ⟨ext, k, ?_, ?_, h2, h3, h4⟩
      · rw [h1, htr.1]; simp
      · intro hne
        rw [htr.2] at hr
        exact absurd hr hne
    · rw [advertise_stop pub self aHost hn dom hsplit hr]
      refine ⟨[], 0, htr.1, fun _ => rfl, List.Forall₂.nil, fun _ _ _ _ _ => Nat.zero_le _, ?_⟩
      intro p e q h
      cases p <;> cases h

/-- Witness of C30: the camera host, whose only service has a name that does
not split, dispatched to a quiet publisher while the router record is in
flight: the host call is the only call. -/
theorem dispatch_aborts_at_first_failure_witness :
    ((∃ err, SplitFullHostName brokenHost.mFullName = .error err) →
      (AdvertisingHandler quietPublisher routerInFlight brokenHost).publisherTrace
        = routerInFlight.publisherTrace) ∧
    (∀ hn dom, SplitFullHostName brokenHost.mFullName = .ok (hn, dom) →
      ∃ entries k,
        (AdvertisingHandler quietPublisher routerInFlight brokenHost).publisherTrace
          = routerInFlight.publisherTrace ++
            (hostCall hn brokenHost.mAddresses,
              quietPublisher routerInFlight.publisherTrace
                (hostCall hn brokenHost.mAddresses)) :: entries ∧
        ((quietPublisher routerInFlight.publisherTrace
            (hostCall hn brokenHost.mAddresses)).result ≠ OTBR_ERROR_NONE → entries = []) ∧
        List.Forall₂ (fun s e => ∃ n t d, SplitFullServiceName s.mFullName = .ok (n, t, d) ∧
          e.1 = serviceCall hn (decide (brokenHost.mAddresses.length > 0)) s n t)
          (brokenHost.mServices.take k) entries ∧
        (∀ before s after, brokenHost.mServices = before ++ s :: after →
          (∃ err, SplitFullServiceName s.mFullName = .error err) → k ≤ before.length) ∧
        (∀ p e q, entries = p ++ e :: q → e.2.result ≠ OTBR_ERROR_NONE → q = [])) :=
  dispatch_aborts_at_first_failure quietPublisher routerInFlight brokenHost rfl


/-! ## The record is in flight at each call (claim C29) -/

end AdvertisingProxy

/-! ## Listeners (claim C21) -/

namespace ThreadController

/-- A listener that is registered already is not registered again: the
`assert` of `AddThreadListener` fails. -/
theorem AddThreadListener_twice :
    (idleController.AddThreadListener 5).bind (fun s => s.AddThreadListener 5) = none := by
  decide

end ThreadController

/-! ## Wakeup channel (claims C33 and C34) -/

namespace TaskRunner

/-- C33: a failed wakeup write does not lose the task.  Whatever `write`
returns (1 on success, -1 on failure, 0 for a partial write), `Post`, called
by a thread that does not own the mutex, appends the given task at the end of
the queue and leaves the tasks queued before as they are; `write` is called
once; the method returns, with the mutex released; no task is called.  The
byte is in the pipe only if the write succeeded. -/
theorem Post_keeps_task (write : WriteOracle) (self : TaskRunner) (aTask : Nat)
    (hdead : self.deadlock = false) (hmutex : self.mTaskQueueMutex = false) :
    (Post write self aTask).mTaskQueue = self.mTaskQueue ++ [aTask] ∧
    (Post write self aTask).writeCalls = self.writeCalls + 1 ∧
    (Post write self aTask).deadlock = false ∧
    (Post write self aTask).mTaskQueueMutex = false ∧
    (Post write self aTask).executed = self.executed ∧
    (Post write self aTask).counter = self.counter ∧
    (Post write self aTask).pipe
      = if write self.writeCalls = 1 then self.pipe + 1 else self.pipe := by
  unfold Post
  rw [PushTask_unlocked write self aTask hdead hmutex]
  exact ⟨rfl, rfl, hdead, hmutex, rfl, rfl, rfl⟩

/-- Witness of C33: a task posted to a fresh runner when the write to the pipe
fails. -/
theorem Post_keeps_task_witness :
    (Post writeFails freshRunner 7).mTaskQueue = freshRunner.mTaskQueue ++ [7] ∧
    (Post writeFails freshRunner 7).writeCalls = freshRunner.writeCalls + 1 ∧
    (Post writeFails freshRunner 7).deadlock = false ∧
    (Post writeFails freshRunner 7).mTaskQueueMutex = false ∧
    (Post writeFails freshRunner 7).executed = freshRunner.executed ∧
    (Post writeFails freshRunner 7).counter = freshRunner.counter ∧
    (Post writeFails freshRunner 7).pipe
      = if writeFails freshRunner.writeCalls = 1 then freshRunner.pipe + 1
        else freshRunner.pipe :=
  Post_keeps_task writeFails freshRunner 7 rfl rfl

theorem FD_ISSET_FD_SET (fd x : Int) (set : List Int) :
    FD_ISSET x (FD_SET fd set) = true ↔ x = fd ∨ FD_ISSET x set = true := by
  unfold FD_SET FD_ISSET
  by_cases h : set.contains fd = true
  · rw [if_pos h]
    constructor
    · intro hx; exact Or.inr hx
    · rintro (hx | hx)
      · rw [hx]; exact h
      · exact hx
  · rw [if_neg h]
    simp

/-- C34: registration of the wakeup channel and gating.  After `UpdateFdSet`
the read end of the pipe is in the read set, every descriptor that was in the
read set is still in it and no other descriptor has been added, `mMaxFd` is
the greater of its former value and the read end, and the rest of the context
is as before.  A call of `Process` with a context whose read set does not hold
the read end leaves the runner as it is: no task is called and the queue is
unchanged.  The context of the unit test comes out with the read end 3 in the
read set and `mMaxFd` equal to 3. -/
theorem UpdateFdSet_registers (code : TaskCode) (write : WriteOracle) (self : TaskRunner)
    (aMainloop : otSysMainloopContext) :
    FD_ISSET self.mEventFd.1 (self.UpdateFdSet aMainloop).mReadFdSet = true ∧
    (∀ fd, FD_ISSET fd aMainloop.mReadFdSet = true →
      FD_ISSET fd (self.UpdateFdSet aMainloop).mReadFdSet = true) ∧
    (∀ fd, FD_ISSET fd (self.UpdateFdSet aMainloop).mReadFdSet = true →
      fd = self.mEventFd.1 ∨ FD_ISSET fd aMainloop.mReadFdSet = true) ∧
    (self.UpdateFdSet aMainloop).mMaxFd = max aMainloop.mMaxFd self.mEventFd.1 ∧
    (self.UpdateFdSet aMainloop).mWriteFdSet = aMainloop.mWriteFdSet ∧
    (self.UpdateFdSet aMainloop).mErrorFdSet = aMainloop.mErrorFdSet ∧
    (self.UpdateFdSet aMainloop).mTimeout = aMainloop.mTimeout ∧
    (FD_ISSET self.mEventFd.1 aMainloop.mReadFdSet = false →
      Process code write self aMainloop = self ∧
      (Process code write self aMainloop).executed = self.executed ∧
      (Process code write self aMainloop).mTaskQueue = self.mTaskQueue) ∧
    freshRunner.UpdateFdSet testContext = { testContext with mReadFdSet := [3], mMaxFd := 3 } := by
  refine ⟨?_, ?_, ?_, ?_, rfl, rfl, rfl, ?_, by decide⟩
  · exact (FD_ISSET_FD_SET _ _ _).2 (Or.inl rfl)
  · intro fd h
    exact (FD_ISSET_FD_SET _ _ _).2 (Or.inr h)
  · intro fd h
    exact (FD_ISSET_FD_SET _ _ _).1 h
  · show max self.mEventFd.1 aMainloop.mMaxFd = _
    exact max_comm _ _
  · intro h
    have key : Process code write self aMainloop = self := by
      unfold Process
      split
      · rfl
      · rw [if_neg (by simp [h])]
    rw [key]
    exact ⟨rfl, rfl, rfl⟩

end TaskRunner

/-! ## Operations issued and operations counted (claim C35) -/

namespace AdvertisingProxy

/-- C35: operations issued and operations counted.  In a successful dispatch
(the host name and all service names split, every publisher call made during
the dispatch returns `OTBR_ERROR_NONE` and delivers no completion; the host
has fewer than `2 ^ 32 - 1` services) `AdvertisingHandler` makes one host
call followed by one service call for each service, deleted or not, in the
order of the services: one call more than there are services.  The count of
the record of the event is one if the host has an address, else zero, plus
the number of services that are not deleted.  The count is the number of
calls if and only if the host has an address and no service is deleted, and
it is less otherwise. -/
theorem issued_versus_counted (pub : Publisher) (self : AdvertisingProxy)
    (aHost : otSrpServerHost) (hostInst hostDom : List Char)
    (hdef : self.undefinedBehaviour = false)
    (hhost : SplitFullHostName aHost.mFullName = .ok (hostInst, hostDom))
    (hsvc : ∀ s ∈ aHost.mServices, ∃ r, SplitFullServiceName s.mFullName = .ok r)
    (hpub : ∀ e ∈ (AdvertisingHandler pub self aHost).publisherTrace.drop
      self.publisherTrace.length, e.2 = ⟨[], OTBR_ERROR_NONE⟩)
    (hbound : aHost.mServices.length + 1 < 2 ^ 32) :
    ∃ hostEntry entries count,
      (AdvertisingHandler pub self aHost).publisherTrace
        = self.publisherTrace ++ hostEntry :: entries ∧
      hostEntry.1 = hostCall hostInst aHost.mAddresses ∧
      List.Forall₂ (fun s e => IsServiceCall e.1 ∧ ∃ inst type dom,
        SplitFullServiceName s.mFullName = .ok (inst, type, dom) ∧
        e.1 = serviceCall hostInst (decide (aHost.mAddresses.length > 0)) s inst type)
        aHost.mServices entries ∧
      (hostEntry :: entries).length = 1 + aHost.mServices.length ∧
      (AdvertisingHandler pub self aHost).mOutstandingUpdates
        = self.mOutstandingUpdates ++ [⟨aHost, count⟩] ∧
      count = (if aHost.mAddresses ≠ [] then 1 else 0)
        + (aHost.mServices.filter (fun s => !s.mIsDeleted)).length ∧
      (count = 1 + aHost.mServices.length ↔
        aHost.mAddresses ≠ [] ∧ ∀ s ∈ aHost.mServices, s.mIsDeleted = false) ∧
      (¬ (aHost.mAddresses ≠ [] ∧ ∀ s ∈ aHost.mServices, s.mIsDeleted = false) →
        count < 1 + aHost.mServices.length) := by
  obtain ⟨ext, h1, h2, h3, h4⟩ := AdvertisingHandler_silent pub self aHost hdef
    (fun e he => by rw [hpub e he])
  have hok : (advertise pub self aHost).2 = OTBR_ERROR_NONE := by
    by_contra hne
    rcases h4 hne with ⟨err, herr⟩ | ⟨s, hs, err, herr⟩ | ⟨e, he, hres⟩
    · rw [hhost] at herr; cases herr
    · obtain ⟨r, hr⟩ := hsvc s hs; rw [hr] at herr; cases herr
    · apply hres
      rw [hpub e (by rw [h2 hne]; simp only [List.drop_left]; exact he)]
  obtain ⟨hn, dom, e0, exts, hsp, hext, he0, -, hall⟩ := h3 hok
  rw [hhost] at hsp
  cases hsp
  have hfilter : (aHost.mServices.filter (fun s => !s.mIsDeleted)).length
      ≤ aHost.mServices.length := List.length_filter_le _ _
  have hall_iff : (aHost.mServices.filter (fun s => !s.mIsDeleted)).length
      = aHost.mServices.length ↔ ∀ s ∈ aHost.mServices, s.mIsDeleted = false := by
    rw [List.filter_length_eq_length]
    constructor
    · intro h s hs; simpa using h s hs
    · intro h s hs; simpa using h s hs
  refine ⟨e0, exts,
    (if aHost.mAddresses ≠ [] then 1 else 0)
      + (aHost.mServices.filter (fun s => !s.mIsDeleted)).length, ?_, he0, ?_, ?_, ?_, rfl, ?_, ?_⟩
  · rw [h1 hok, hext]
  · refine List.Forall₂.imp ?_ hall
    rintro s e ⟨n, t, d, hs, hc, -⟩
    exact ⟨by rw [hc]; exact serviceCall_isServiceCall _ _ _ _ _, n, t, d, hs, hc⟩
  · rw [List.length_cons, ← hall.length_eq]; omega
  · rw [h1 hok, countUpdates_bounded aHost.mAddresses aHost.mServices hbound]
  · by_cases ha : aHost.mAddresses ≠ []
    · rw [if_pos ha]
      constructor
      · intro h; exact ⟨ha, hall_iff.1 (by omega)⟩
      · rintro ⟨-, h⟩; rw [hall_iff.2 h]
    · rw [if_neg ha]
      constructor
      · intro h; omega
      · rintro ⟨h, -⟩; exact absurd h ha
  · intro hnot
    by_cases ha : aHost.mAddresses ≠ []
    · rw [if_pos ha]
      have hne : (aHost.mServices.filter (fun s => !s.mIsDeleted)).length
          ≠ aHost.mServices.length := fun h => hnot ⟨ha, hall_iff.1 h⟩
      omega
    · rw [if_neg ha]; omega

/-- Witness of C35: the departed host, without address and with one deleted
service: two calls are made, the count is zero. -/
theorem issued_versus_counted_witness :
    ∃ hostEntry entries count,
      (AdvertisingHandler quietPublisher idleProxy departedHost).publisherTrace
        = idleProxy.publisherTrace ++ hostEntry :: entries ∧
      hostEntry.1 = hostCall "router1".toList departedHost.mAddresses ∧
      List.Forall₂ (fun s e => IsServiceCall e.1 ∧ ∃ inst type dom,
        SplitFullServiceName s.mFullName = .ok (inst, type, dom) ∧
        e.1 = serviceCall "router1".toList (decide (departedHost.mAddresses.length > 0))
          s inst type)
        departedHost.mServices entries ∧
      (hostEntry :: entries).length = 1 + departedHost.mServices.length ∧
      (AdvertisingHandler quietPublisher idleProxy departedHost).mOutstandingUpdates
        = idleProxy.mOutstandingUpdates ++ [⟨departedHost, count⟩] ∧
      count = (if departedHost.mAddresses ≠ [] then 1 else 0)
        + (departedHost.mServices.filter (fun s => !s.mIsDeleted)).length ∧
      (count = 1 + departedHost.mServices.length ↔
        departedHost.mAddresses ≠ [] ∧ ∀ s ∈ departedHost.mServices, s.mIsDeleted = false) ∧
      (¬ (departedHost.mAddresses ≠ [] ∧
          ∀ s ∈ departedHost.mServices, s.mIsDeleted = false) →
        count < 1 + departedHost.mServices.length) :=
  issued_versus_counted quietPublisher idleProxy departedHost "router1".toList
    "default.service.arpa".toList rfl rfl
    (by intro s hs; rw [List.mem_singleton.1 hs]; exact ⟨_, rfl⟩) (by decide) (by decide)

end AdvertisingProxy

/-! ## Erasure after a firing, timeout of the mainloop (claims C31 and C32) -/

theorem wrapInt64_eq (x : Int) (h1 : -2 ^ 63 ≤ x) (h2 : x < 2 ^ 63) : wrapInt64 x = x := by
  unfold wrapInt64
  omega

theorem wrapInt64_add_mul (a b : Int) (h1 : -2 ^ 63 ≤ b * 1000000 + a)
    (h2 : b * 1000000 + a < 2 ^ 63) :
    wrapInt64 (a + wrapInt64 (b * 1000000)) = b * 1000000 + a := by
  unfold wrapInt64
  omega

theorem ToTimeVal_nonneg (t : Int) (h : 0 ≤ t) :
    0 ≤ (ToTimeVal t).tv_usec ∧ (ToTimeVal t).tv_usec < 1000000 ∧
    (ToTimeVal t).tv_sec * 1000000 + (ToTimeVal t).tv_usec = t := by
  unfold ToTimeVal kUsPerSecond
  simp only []
  rw [Int.tdiv_eq_ediv h (by decide), Int.tmod_eq_emod h (by decide)]
  omega

namespace ThreadController

/-- A timer at the time point 8 whose task posts a timer at the time point 7
each time it is called: the posted timer is at the head of the queue when the
call returns and is the one erased; the timer at 8 is due again, and the loop
is not left, however many iterations are allowed. -/
theorem drainTimers_rearming (fuel : Nat) (self : ThreadController)
    (h : self.mTimers = [(8, 0)]) :
    (drainTimers repostingTimers 10 fuel self).2 = false := by
  induction fuel generalizing self with
  | zero => rw [drainTimers_zero repostingTimers 10 self (8, 0) [] h (by decide)]
  | succ n ih =>
    rw [drainTimers_succ repostingTimers 10 n self (8, 0) [] h (by decide)]
    apply ih
    show (runTimerSteps [.postTimerTask 7 1] { self with fired := self.fired ++ [(8, 0)] }
      ).mTimers.tail = [(8, 0)]
    show (multimapInsert (7, 1) self.mTimers).tail = [(8, 0)]
    rw [h]
    rfl

/-- C31, the code at the failing input: the queue holds one timer, at the time
point 8, whose task posts a timer at the time point 7 the first time it is
called.  In the `Process` pass with `now` equal to 10 the timer at 8 fires;
`erase(mTimers.begin())` then removes the timer at 7, which is the first
entry by now; the timer at 8 is still in the queue and fires a second time.
When the pass ends the queue is empty, and the timer at 7 has been posted but
has not fired.  If the task posts a timer at 7 every time it is called, the
loop is never left. -/
theorem earlier_timer_erased_unfired :
    (idleController.PostTimerTask 8 0).mTimers = [(8, 0)] ∧
    onceTimers 0 { idleController.PostTimerTask 8 0 with fired := [(8, 0)] }
      = [.postTimerTask 7 1] ∧
    (Process onceTimers 10 10 (idleController.PostTimerTask 8 0)).2 = true ∧
    (Process onceTimers 10 10 (idleController.PostTimerTask 8 0)).1.fired
      = [(8, 0), (8, 0)] ∧
    (Process onceTimers 10 10 (idleController.PostTimerTask 8 0)).1.posted
      = [(8, 0), (7, 1)] ∧
    (7, 1) ∉ (Process onceTimers 10 10 (idleController.PostTimerTask 8 0)).1.fired ∧
    (Process onceTimers 10 10 (idleController.PostTimerTask 8 0)).1.mTimers = [] ∧
    (∀ fuel, (Process repostingTimers 10 fuel (idleController.PostTimerTask 8 0)).2 = false) := by
  refine ⟨rfl, rfl, by decide, by decide, by decide, by decide, by decide, ?_⟩
  intro fuel
  exact drainTimers_rearming fuel _ rfl

/-- C32: the timeout set by `Update`.  The proposed timeout `P`, in
microseconds, is not negative and fits the 64-bit representation, as does the
distance from `now` to the earliest timer; the clock has `ticksPerUs` ticks in
a microsecond.  The timeout handed on is 0 if tasklets are pending; otherwise,
if there is a timer, with the earliest time point `D`, it is 0 when `D < now`
and the lesser of `P` and the whole microseconds of `D - now` when
`now ≤ D`; otherwise it is `P`.  It is not negative and at most `P`, and it is
written as a `timeval` with `0 ≤ tv_usec < 1000000` and
`tv_sec * 1000000 + tv_usec` equal to it; the rest of the context is as
before. -/
theorem Update_timeout (tasklets : Bool) (now ticksPerUs : Int) (self : ThreadController)
    (aMainloop : otSysMainloopContext)
    (hP0 : 0 ≤ aMainloop.mTimeout.tv_sec * 1000000 + aMainloop.mTimeout.tv_usec)
    (hP1 : aMainloop.mTimeout.tv_sec * 1000000 + aMainloop.mTimeout.tv_usec < 2 ^ 63)
    (hticks : 0 < ticksPerUs)
    (hclock : ∀ D task rest, self.mTimers = (D, task) :: rest → D - now < 2 ^ 63) :
    ∃ result : Int,
      (tasklets = true → result = 0) ∧
      (tasklets = false → self.mTimers = [] →
        result = aMainloop.mTimeout.tv_sec * 1000000 + aMainloop.mTimeout.tv_usec) ∧
      (∀ D task rest, tasklets = false → self.mTimers = (D, task) :: rest →
        (D < now → result = 0) ∧
        (now ≤ D → result = min
          (aMainloop.mTimeout.tv_sec * 1000000 + aMainloop.mTimeout.tv_usec)
          ((D - now) / ticksPerUs))) ∧
      0 ≤ result ∧
      result ≤ aMainloop.mTimeout.tv_sec * 1000000 + aMainloop.mTimeout.tv_usec ∧
      0 ≤ (Update tasklets now ticksPerUs self aMainloop).mTimeout.tv_usec ∧
      (Update tasklets now ticksPerUs self aMainloop).mTimeout.tv_usec < 1000000 ∧
      (Update tasklets now ticksPerUs self aMainloop).mTimeout.tv_sec * 1000000
        + (Update tasklets now ticksPerUs self aMainloop).mTimeout.tv_usec = result ∧
      (Update tasklets now ticksPerUs self aMainloop).mReadFdSet = aMainloop.mReadFdSet ∧
      (Update tasklets now ticksPerUs self aMainloop).mWriteFdSet = aMainloop.mWriteFdSet ∧
      (Update tasklets now ticksPerUs self aMainloop).mErrorFdSet = aMainloop.mErrorFdSet ∧
      (Update tasklets now ticksPerUs self aMainloop).mMaxFd = aMainloop.mMaxFd := by
  have hP := wrapInt64_add_mul aMainloop.mTimeout.tv_usec aMainloop.mTimeout.tv_sec
    (by omega) hP1
  rcases bool_false_or_true tasklets with ht | ht
  · rcases list_nil_or_cons self.mTimers with hq | ⟨timer, rest, hq⟩
    · have hU : (Update tasklets now ticksPerUs self aMainloop).mTimeout
          = ToTimeVal (aMainloop.mTimeout.tv_sec * 1000000 + aMainloop.mTimeout.tv_usec) := by
        unfold Update
        rw [hP, hq, ht]
        rfl
      obtain ⟨a, b, c⟩ := ToTimeVal_nonneg _ hP0
      refine ⟨aMainloop.mTimeout.tv_sec * 1000000 + aMainloop.mTimeout.tv_usec, ?_, ?_, ?_,
        hP0, le_refl _, by rw [hU]; exact a, by rw [hU]; exact b, by rw [hU]; exact c,
        rfl, rfl, rfl, rfl⟩
      · intro h; rw [ht] at h; cases h
      · intro _ _; rfl
      · intro D task rest2 _ h; rw [hq] at h; cases h
    · by_cases hlate : timer.1 < now
      · have hU : (Update tasklets now ticksPerUs self aMainloop).mTimeout = ToTimeVal 0 := by
          unfold Update
          rw [hq, ht]
          simp only [Bool.false_eq_true, if_false, hlate, if_true]
        obtain ⟨a, b, c⟩ := ToTimeVal_nonneg 0 (le_refl _)
        refine ⟨0, ?_, ?_, ?_, le_refl _, hP0, by rw [hU]; exact a, by rw [hU]; exact b,
          by rw [hU]; exact c, rfl, rfl, rfl, rfl⟩
        · intro _; rfl
        · intro _ h; rw [hq] at h; cases h
        · intro D task rest2 _ h
          rw [hq] at h
          have hD : timer.1 = D := by
            have := (List.cons.inj h).1
            rw [this]
          constructor
          · intro _; rfl
          · intro hge; rw [hD] at hlate; omega
      · have hge : now ≤ timer.1 := by omega
        have hdist : timer.1 - now < 2 ^ 63 := hclock timer.1 timer.2 rest hq
        have hw : wrapInt64 (timer.1 - now) = timer.1 - now :=
          wrapInt64_eq _ (by omega) hdist
        have hdiv : Int.tdiv (timer.1 - now) ticksPerUs = (timer.1 - now) / ticksPerUs :=
          Int.tdiv_eq_ediv (by omega) (le_of_lt hticks)
        have hq0 : 0 ≤ (timer.1 - now) / ticksPerUs :=
          Int.ediv_nonneg (by omega) (le_of_lt hticks)
        have hU : (Update tasklets now ticksPerUs self aMainloop).mTimeout
            = ToTimeVal (min
                (aMainloop.mTimeout.tv_sec * 1000000 + aMainloop.mTimeout.tv_usec)
                ((timer.1 - now) / ticksPerUs)) := by
          unfold Update
          rw [hP, hq, ht]
          simp only [Bool.false_eq_true, if_false, hlate, hw, hdiv]
        have hmin0 : 0 ≤ min
            (aMainloop.mTimeout.tv_sec * 1000000 + aMainloop.mTimeout.tv_usec)
            ((timer.1 - now) / ticksPerUs) := le_min hP0 hq0
        obtain ⟨a, b, c⟩ := ToTimeVal_nonneg _ hmin0
        refine ⟨_, ?_, ?_, ?_, hmin0, min_le_left _ _, by rw [hU]; exact a,
          by rw [hU]; exact b, by rw [hU]; exact c, rfl, rfl, rfl, rfl⟩
        · intro h; rw [ht] at h; cases h
        · intro _ h; rw [hq] at h; cases h
        · intro D task rest2 _ h
          rw [hq] at h
          have hD : timer.1 = D := by
            have := (List.cons.inj h).1
            rw [this]
          constructor
          · intro hlt; rw [hD] at hlate; exact absurd hlt hlate
          · intro _; rw [hD]
  · have hU : (Update tasklets now ticksPerUs self aMainloop).mTimeout = ToTimeVal 0 := by
      unfold Update
      rw [ht]
      rfl
    obtain ⟨a, b, c⟩ := ToTimeVal_nonneg 0 (le_refl _)
    refine ⟨0, ?_, ?_, ?_, le_refl _, hP0, by rw [hU]; exact a, by rw [hU]; exact b,
      by rw [hU]; exact c, rfl, rfl, rfl, rfl⟩
    · intro _; rfl
    · intro h; rw [ht] at h; cases h
    · intro D task rest2 h; rw [ht] at h; cases h


/-- Witness of C32: the context of the unit test, with a timeout of ten
seconds, and a timer at the tick 2600 of a nanosecond clock that is read at
the tick 100, without pending tasklets. -/
theorem Update_timeout_witness :
    ∃ result : Int,
      (false = true → result = 0) ∧
      (false = false → (idleController.PostTimerTask 2600 0).mTimers = [] →
        result = testContext.mTimeout.tv_sec * 1000000 + testContext.mTimeout.tv_usec) ∧
      (∀ D task rest, false = false →
        (idleController.PostTimerTask 2600 0).mTimers = (D, task) :: rest →
        (D < 100 → result = 0) ∧
        (100 ≤ D → result = min
          (testContext.mTimeout.tv_sec * 1000000 + testContext.mTimeout.tv_usec)
          ((D - 100) / 1000))) ∧
      0 ≤ result ∧
      result ≤ testContext.mTimeout.tv_sec * 1000000 + testContext.mTimeout.tv_usec ∧
      0 ≤ (Update false 100 1000 (idleController.PostTimerTask 2600 0)
        testContext).mTimeout.tv_usec ∧
      (Update false 100 1000 (idleController.PostTimerTask 2600 0)
        testContext).mTimeout.tv_usec < 1000000 ∧
      (Update false 100 1000 (idleController.PostTimerTask 2600 0)
          testContext).mTimeout.tv_sec * 1000000
        + (Update false 100 1000 (idleController.PostTimerTask 2600 0)
          testContext).mTimeout.tv_usec = result ∧
      (Update false 100 1000 (idleController.PostTimerTask 2600 0) testContext).mReadFdSet
        = testContext.mReadFdSet ∧
      (Update false 100 1000 (idleController.PostTimerTask 2600 0) testContext).mWriteFdSet
        = testContext.mWriteFdSet ∧
      (Update false 100 1000 (idleController.PostTimerTask 2600 0) testContext).mErrorFdSet
        = testContext.mErrorFdSet ∧
      (Update false 100 1000 (idleController.PostTimerTask 2600 0) testContext).mMaxFd
        = testContext.mMaxFd :=
  Update_timeout false 100 1000 (idleController.PostTimerTask 2600 0) testContext
    (by decide) (by decide) (by decide)
    (by
      intro D task rest h
      have h2 : [((2600 : Int), (0 : Nat))] = (D, task) :: rest := h
      cases h2
      decide)

/-- The timeout of the witness: two microseconds. -/
theorem Update_timeout_example :
    (Update false 100 1000 (idleController.PostTimerTask 2600 0) testContext).mTimeout
      = { tv_sec := 0, tv_usec := 2 } := by
  decide

end ThreadController

/-! ## Failure of a dispatch during which completions are delivered (claim C8) -/

namespace AdvertisingProxy

theorem Completion.matchesHost_host_ok (n : List Char) (e : otbrError) (h : otSrpServerHost)
    (inst dom : List Char) (hs : SplitFullHostName h.mFullName = .ok (inst, dom)) :
    (Completion.host n e).matchesHost h = decide (n = inst) := by
  rw [Completion.matchesHost, hs]

theorem Completion.matchesHost_host_error (n : List Char) (e : otbrError)
    (h : otSrpServerHost) (err : otbrError)
    (hs : SplitFullHostName h.mFullName = .error err) :
    (Completion.host n e).matchesHost h = false := by
  rw [Completion.matchesHost, hs]

theorem Completion.matchesHost_service_some (n t nt : List Char) (e : otbrError)
    (h : otSrpServerHost) (hnt : normalizeType t = some nt) :
    (Completion.service n t e).matchesHost h
      = decide (scanServices n nt h.mServices = .found) := by
  rw [Completion.matchesHost, hnt]

theorem Completion.matchesHost_service_none (n t : List Char) (e : otbrError)
    (h : otSrpServerHost) (hnt : normalizeType t = none) :
    (Completion.service n t e).matchesHost h = false := by
  rw [Completion.matchesHost, hnt]

/-- The test `matchesHost` is the relation `Matches`. -/
theorem Completion.matchesHost_iff (c : Completion) (u : OutstandingUpdate) :
    c.matchesHost u.mHost = true ↔ c.Matches u := by
  cases c with
  | host n e =>
    show _ ↔ ∃ dom, SplitFullHostName u.mHost.mFullName = .ok (n, dom)
    cases hs : SplitFullHostName u.mHost.mFullName with
    | error err =>
      rw [Completion.matchesHost_host_error n e u.mHost err hs]
      simp
    | ok r =>
      obtain ⟨inst, dom⟩ := r
      rw [Completion.matchesHost_host_ok n e u.mHost inst dom hs]
      simp only [decide_eq_true_eq]
      constructor
      · intro h; exact ⟨dom, by rw [h]⟩
      · rintro ⟨dom2, h⟩
        cases h
        rfl
  | service n t e =>
    show _ ↔ ∃ normType, normalizeType t = some normType ∧
      ∃ before s after dom, u.mHost.mServices = before ++ s :: after ∧
        SplitFullServiceName s.mFullName = .ok (n, normType, dom) ∧
        ∀ s' ∈ before, ∃ inst type dom',
          SplitFullServiceName s'.mFullName = .ok (inst, type, dom') ∧
            ¬ (inst = n ∧ type = normType)
    cases hnt : normalizeType t with
    | none =>
      rw [Completion.matchesHost_service_none n t e u.mHost hnt]
      simp
    | some nt =>
      rw [Completion.matchesHost_service_some n t nt e u.mHost hnt]
      simp only [decide_eq_true_eq]
      constructor
      · intro h
        obtain ⟨before, s, after, dom, hsv, hs, hb⟩ := scanServices_found_elim n nt _ h
        exact ⟨nt, rfl, before, s, after, dom, hsv, hs, hb⟩
      · rintro ⟨nt2, h2, before, s, after, dom, hsv, hs, hb⟩
        cases h2
        rw [hsv]
        exact scanServices_found n nt before after s dom hs hb

/-- The loop of `PublishHostHandler` when the records before the last one do
not match: nothing changes, or the last record matches and is the one
concerned. -/
theorem hostUpdates_last (n : List Char) (e : otbrError) (old : List OutstandingUpdate)
    (x : OutstandingUpdate)
    (hold : ∀ u ∈ old, (Completion.host n e).matchesHost u.mHost = false) :
    hostUpdates n e (old ++ [x]) = (old ++ [x], []) ∨
    ((Completion.host n e).matchesHost x.mHost = true ∧
      hostUpdates n e (old ++ [x])
        = if e ≠ OTBR_ERROR_NONE ∨ x.mCount = 1 then (old, [(x.mHost, staticCastOtError e)])
          else (old ++ [{ x with mCount := decrementCount x.mCount }], [])) := by
  induction old with
  | nil =>
    rw [List.nil_append, hostUpdates]
    cases hs : SplitFullHostName x.mHost.mFullName with
    | error err => exact Or.inl rfl
    | ok r =>
      obtain ⟨inst, dom⟩ := r
      rw [Completion.matchesHost_host_ok n e x.mHost inst dom hs]
      by_cases hm : n = inst
      · right
        simp only [hm, decide_True, if_true, true_and]
        split <;> rfl
      · left
        simp only [hm, if_false]
        rfl
  | cons u os ih =>
    have hu := hold u (List.mem_cons_self _ _)
    have ih2 := ih (fun v hv => hold v (List.mem_cons_of_mem _ hv))
    rw [List.cons_append, hostUpdates]
    cases hs : SplitFullHostName u.mHost.mFullName with
    | error err => exact Or.inl rfl
    | ok r =>
      obtain ⟨inst, dom⟩ := r
      rw [Completion.matchesHost_host_ok n e u.mHost inst dom hs] at hu
      have hm : ¬ n = inst := by simpa using hu
      simp only [hm, if_false]
      rcases ih2 with h | ⟨hb, h⟩
      · left; rw [h]
      · right
        refine ⟨hb, ?_⟩
        rw [h]
        split <;> rfl

/-- The loop of `PublishServiceHandler` when the records before the last one do
not match: nothing changes, or the last record matches and is the one
concerned. -/
theorem serviceUpdates_last (n nt : List Char) (e : otbrError) (old : List OutstandingUpdate)
    (x : OutstandingUpdate)
    (hold : ∀ u ∈ old, scanServices n nt u.mHost.mServices ≠ .found) :
    serviceUpdates n nt e (old ++ [x]) = (old ++ [x], []) ∨
    (scanServices n nt x.mHost.mServices = .found ∧
      serviceUpdates n nt e (old ++ [x])
        = if e ≠ OTBR_ERROR_NONE ∨ x.mCount = 1 then (old, [(x.mHost, OtbrErrorToOtError e)])
          else (old ++ [{ x with mCount := decrementCount x.mCount }], [])) := by
  induction old with
  | nil =>
    rw [List.nil_append, serviceUpdates]
    cases hs : scanServices n nt x.mHost.mServices with
    | failed err => exact Or.inl rfl
    | notFound => exact Or.inl rfl
    | found =>
      right
      refine ⟨rfl, ?_⟩
      simp only []
      split <;> rfl
  | cons u os ih =>
    have hu := hold u (List.mem_cons_self _ _)
    have ih2 := ih (fun v hv => hold v (List.mem_cons_of_mem _ hv))
    rw [List.cons_append, serviceUpdates]
    cases hs : scanServices n nt u.mHost.mServices with
    | failed err => exact Or.inl rfl
    | found => exact absurd hs hu
    | notFound =>
      simp only []
      rcases ih2 with h | ⟨hb, h⟩
      · left; rw [h]
      · right
        refine ⟨hb, ?_⟩
        rw [h]
        split <;> rfl

/-- One completion delivered while the record of an event is the last record
in flight: when the completion matches none of the records before it and
would not finalize the last one, nothing is reported, and either the list is
left as it is or the completion matches the last record and is counted on
it. -/
theorem deliver_last (s : AdvertisingProxy) (c : Completion) (old : List OutstandingUpdate)
    (h : otSrpServerHost) (n : Nat)
    (hdef : s.undefinedBehaviour = false)
    (hlist : s.mOutstandingUpdates = old ++ [⟨h, n⟩])
    (htype : c.hasType = true)
    (hold : ∀ u ∈ old, c.matchesHost u.mHost = false)
    (hfin : c.matchesHost h = true → c.error = OTBR_ERROR_NONE ∧ n ≠ 1) :
    (s.deliver c).undefinedBehaviour = false ∧
    (s.deliver c).stackResults = s.stackResults ∧
    ((s.deliver c).mOutstandingUpdates = old ++ [⟨h, n⟩] ∨
      (c.matchesHost h = true ∧
        (s.deliver c).mOutstandingUpdates = old ++ [⟨h, decrementCount n⟩])) := by
  cases c with
  | host a e =>
    have hd : s.deliver (.host a e) = s.PublishHostHandler a e := rfl
    rw [hd, PublishHostHandler_eq s a e hdef, hlist]
    rcases hostUpdates_last a e old ⟨h, n⟩ hold with hu | ⟨hb, hu⟩
    · rw [hu]
      exact ⟨hdef, List.append_nil _, Or.inl rfl⟩
    · obtain ⟨he, hn⟩ := hfin hb
      have hcond : ¬ (e ≠ OTBR_ERROR_NONE ∨ (⟨h, n⟩ : OutstandingUpdate).mCount = 1) := by
        rintro (h1 | h1)
        · exact h1 he
        · exact hn h1
      rw [hu, if_neg hcond]
      exact ⟨hdef, List.append_nil _, Or.inr ⟨hb, rfl⟩⟩
  | service a t e =>
    have hd : s.deliver (.service a t e) = s.PublishServiceHandler a t e := rfl
    rw [hd]
    cases hnt : normalizeType t with
    | none =>
      have : (Completion.service a t e).hasType = false := by
        rw [Completion.hasType, hnt]
        rfl
      rw [this] at htype
      cases htype
    | some nt =>
      have hold2 : ∀ u ∈ old, scanServices a nt u.mHost.mServices ≠ .found := by
        intro u hu hfound
        have := hold u hu
        rw [Completion.matchesHost_service_some a t nt e u.mHost hnt] at this
        simp [hfound] at this
      rw [PublishServiceHandler_eq s a t nt e hdef hnt, hlist]
      rcases serviceUpdates_last a nt e old ⟨h, n⟩ hold2 with hu | ⟨hb, hu⟩
      · rw [hu]
        exact ⟨hdef, List.append_nil _, Or.inl rfl⟩
      · have hb2 : (Completion.service a t e).matchesHost h = true := by
          rw [Completion.matchesHost_service_some a t nt e h hnt]
          simp only [decide_eq_true_eq]
          exact hb
        obtain ⟨he, hn⟩ := hfin hb2
        have hcond : ¬ (e ≠ OTBR_ERROR_NONE ∨ (⟨h, n⟩ : OutstandingUpdate).mCount = 1) := by
          rintro (h1 | h1)
          · exact h1 he
          · exact hn h1
        rw [hu, if_neg hcond]
        exact ⟨hdef, List.append_nil _, Or.inr ⟨hb2, rfl⟩⟩


/-- Completions delivered in a row while the record of an event is the last
record in flight: when they match none of the records before it, carry no
error if they match it, and those that match it are fewer than its count,
nothing is reported, the records before it are left as they are, and its
count is lowered by at most the number of completions that match it. -/
theorem foldl_deliver_last (old : List OutstandingUpdate) (h : otSrpServerHost)
    (cs : List Completion) (s : AdvertisingProxy) (n : Nat)
    (hdef : s.undefinedBehaviour = false)
    (hlist : s.mOutstandingUpdates = old ++ [⟨h, n⟩]) (hn : n ≤ 2 ^ 32)
    (hcs : ∀ c ∈ cs, c.hasType = true ∧ (∀ u ∈ old, c.matchesHost u.mHost = false) ∧
      (c.matchesHost h = true → c.error = OTBR_ERROR_NONE))
    (hbud : (cs.filter (fun c => c.matchesHost h)).length = 0 ∨
      (cs.filter (fun c => c.matchesHost h)).length < n) :
    (cs.foldl deliver s).undefinedBehaviour = false ∧
    (cs.foldl deliver s).stackResults = s.stackResults ∧
    ∃ n', (cs.foldl deliver s).mOutstandingUpdates = old ++ [⟨h, n'⟩] ∧ n' ≤ n ∧
      n ≤ n' + (cs.filter (fun c => c.matchesHost h)).length := by
  induction cs generalizing s n with
  | nil => exact ⟨hdef, rfl, n, hlist, le_refl _, by simp⟩
  | cons c cs ih =>
    obtain ⟨ht, ho, he⟩ := hcs c (List.mem_cons_self _ _)
    have hcs2 : ∀ c' ∈ cs, c'.hasType = true ∧
        (∀ u ∈ old, c'.matchesHost u.mHost = false) ∧
        (c'.matchesHost h = true → c'.error = OTBR_ERROR_NONE) :=
      fun c' hc' => hcs c' (List.mem_cons_of_mem _ hc')
    rw [List.foldl_cons]
    rcases bool_false_or_true (c.matchesHost h) with hb | hb
    · have hf : (c :: cs).filter (fun c => c.matchesHost h)
          = cs.filter (fun c => c.matchesHost h) := by
        rw [List.filter_cons, if_neg (by simp [hb])]
      rw [hf] at hbud ⊢
      obtain ⟨d1, d2, d3⟩ := deliver_last s c old h n hdef hlist ht ho
        (fun hx => by rw [hb] at hx; cases hx)
      rcases d3 with d3 | ⟨hx, -⟩
      · obtain ⟨i1, i2, i3⟩ := ih (s.deliver c) n d1 d3 hn hcs2 hbud
        exact ⟨i1, by rw [i2, d2], i3⟩
      · rw [hb] at hx; cases hx
    · have hf : ((c :: cs).filter (fun c => c.matchesHost h)).length
          = (cs.filter (fun c => c.matchesHost h)).length + 1 := by
        rw [List.filter_cons, if_pos hb, List.length_cons]
      rw [hf] at hbud ⊢
      have hlt : (cs.filter (fun c => c.matchesHost h)).length + 1 < n := by
        rcases hbud with h0 | h0
        · omega
        · exact h0
      obtain ⟨d1, d2, d3⟩ := deliver_last s c old h n hdef hlist ht ho
        (fun _ => ⟨he hb, by omega⟩)
      rcases d3 with d3 | ⟨-, d3⟩
      · obtain ⟨i1, i2, n', i3, i4, i5⟩ := ih (s.deliver c) n d1 d3 hn hcs2
          (Or.inr (by omega))
        exact ⟨i1, by rw [i2, d2], n', i3, i4, by omega⟩
      · rw [decrementCount_pos n (by omega) hn] at d3
        obtain ⟨i1, i2, n', i3, i4, i5⟩ := ih (s.deliver c) (n - 1) d1 d3 (by omega) hcs2
          (Or.inr (by omega))
        exact ⟨i1, by rw [i2, d2], n', i3, by omega, by omega⟩

theorem callPublisher_last (pub : Publisher) (old : List OutstandingUpdate)
    (h : otSrpServerHost) (s : AdvertisingProxy) (call : PublisherCall) (n : Nat)
    (hdef : s.undefinedBehaviour = false)
    (hlist : s.mOutstandingUpdates = old ++ [⟨h, n⟩]) (hn : n ≤ 2 ^ 32)
    (hcs : ∀ c ∈ (pub s.publisherTrace call).completions, c.hasType = true ∧
      (∀ u ∈ old, c.matchesHost u.mHost = false) ∧
      (c.matchesHost h = true → c.error = OTBR_ERROR_NONE))
    (hbud : ((pub s.publisherTrace call).completions.filter
        (fun c => c.matchesHost h)).length = 0 ∨
      ((pub s.publisherTrace call).completions.filter
        (fun c => c.matchesHost h)).length < n) :
    (callPublisher pub s call).1.undefinedBehaviour = false ∧
    (callPublisher pub s call).1.stackResults = s.stackResults ∧
    ∃ n', (callPublisher pub s call).1.mOutstandingUpdates = old ++ [⟨h, n'⟩] ∧ n' ≤ n ∧
      n ≤ n' + ((pub s.publisherTrace call).completions.filter
        (fun c => c.matchesHost h)).length := by
  unfold callPublisher
  rw [if_neg (by simp [hdef])]
  exact foldl_deliver_last old h _
    { s with publisherTrace := s.publisherTrace ++ [(call, pub s.publisherTrace call)] }
    n hdef hlist hn hcs hbud

/-- The services loop while the record of the event is the last record in
flight, when the completions delivered during the loop keep to that record
and do not finalize it. -/
theorem publishServices_last (pub : Publisher) (hn : List Char) (ph : Bool)
    (old : List OutstandingUpdate) (h : otSrpServerHost)
    (svcs : List otSrpServerService) (s : AdvertisingProxy) (n : Nat)
    (ext : List (PublisherCall × PublisherReply))
    (hdef : s.undefinedBehaviour = false)
    (hlist : s.mOutstandingUpdates = old ++ [⟨h, n⟩]) (hle : n ≤ 2 ^ 32)
    (htr : (publishServices pub hn ph svcs s).1.publisherTrace = s.publisherTrace ++ ext)
    (hconf : ∀ e ∈ ext, ∀ c ∈ e.2.completions, c.hasType = true ∧
      (∀ u ∈ old, c.matchesHost u.mHost = false) ∧
      (c.matchesHost h = true → c.error = OTBR_ERROR_NONE))
    (hbud : matchingCompletions h ext = 0 ∨ matchingCompletions h ext < n) :
    (publishServices pub hn ph svcs s).1.undefinedBehaviour = false ∧
    (publishServices pub hn ph svcs s).1.stackResults = s.stackResults ∧
    (∃ n', (publishServices pub hn ph svcs s).1.mOutstandingUpdates = old ++ [⟨h, n'⟩]) ∧
    ((publishServices pub hn ph svcs s).2 = OTBR_ERROR_NONE →
      (∀ sv ∈ svcs, ∃ x, SplitFullServiceName sv.mFullName = .ok x) ∧
      ∀ e ∈ ext, e.2.result = OTBR_ERROR_NONE) := by
  induction svcs generalizing s n ext with
  | nil =>
    have hext : ext = [] := by
      have h2 : s.publisherTrace ++ [] = s.publisherTrace ++ ext := by
        rw [List.append_nil]; exact htr
      exact (List.append_cancel_left h2).symm
    refine ⟨hdef, rfl, ⟨n, hlist⟩, fun _ => ⟨fun sv hsv => absurd hsv (List.not_mem_nil _), ?_⟩⟩
    rw [hext]
    intro e he
    cases he
  | cons sv rest ih =>
    cases hsplit : SplitFullServiceName sv.mFullName with
    | error err =>
      rw [publishServices_cons_error _ _ _ _ _ _ err hsplit]
      refine ⟨hdef, rfl, ⟨n, hlist⟩, ?_⟩
      intro hnone
      have := SplitFullServiceName_error _ _ hsplit
      rw [this] at hnone
      cases hnone
    | ok r =>
      obtain ⟨nm, ty, d⟩ := r
      have hcp := callPublisher_trace pub s (serviceCall hn ph sv nm ty) hdef
      obtain ⟨ext2, hext2, -⟩ := publishServices_trace_ext pub hn ph rest
        (callPublisher pub s (serviceCall hn ph sv nm ty)).1
      by_cases hr : (callPublisher pub s (serviceCall hn ph sv nm ty)).2 = OTBR_ERROR_NONE
      · rw [publishServices_cons_next _ _ _ _ _ _ nm ty d hsplit hr] at htr ⊢
        have hext : ext = (serviceCall hn ph sv nm ty,
            pub s.publisherTrace (serviceCall hn ph sv nm ty)) :: ext2 := by
          have h2 : s.publisherTrace ++ ext = s.publisherTrace ++
              ((serviceCall hn ph sv nm ty, pub s.publisherTrace (serviceCall hn ph sv nm ty))
                :: ext2) := by
            rw [← htr, hext2, hcp.1]; simp
          exact List.append_cancel_left h2
        rw [hext] at hconf hbud
        have hbud2 : ((pub s.publisherTrace (serviceCall hn ph sv nm ty)).completions.filter
              (fun c => c.matchesHost h)).length + matchingCompletions h ext2 = 0 ∨
            ((pub s.publisherTrace (serviceCall hn ph sv nm ty)).completions.filter
              (fun c => c.matchesHost h)).length + matchingCompletions h ext2 < n := hbud
        obtain ⟨c1, c2, n1, c3, c4, c5⟩ := callPublisher_last pub old h s
          (serviceCall hn ph sv nm ty) n hdef hlist hle
          (hconf _ (List.mem_cons_self _ _)) (by omega)
        obtain ⟨i1, i2, i3, i4⟩ := ih (callPublisher pub s (serviceCall hn ph sv nm ty)).1
          n1 ext2 c1 c3 (by omega) hext2
          (fun e he => hconf e (List.mem_cons_of_mem _ he)) (by omega)
        refine ⟨i1, by rw [i2, c2], i3, ?_⟩
        intro hnone
        obtain ⟨j1, j2⟩ := i4 hnone
        refine ⟨?_, ?_⟩
        · intro sv' hsv'
          rcases List.mem_cons.1 hsv' with heq | hmem
          · rw [heq]; exact ⟨_, hsplit⟩
          · exact j1 sv' hmem
        · rw [hext]
          intro e he
          rcases List.mem_cons.1 he with heq | hmem
          · rw [heq]
            show (pub s.publisherTrace (serviceCall hn ph sv nm ty)).result = OTBR_ERROR_NONE
            rw [← hcp.2]; exact hr
          · exact j2 e hmem
      · rw [publishServices_cons_stop _ _ _ _ _ _ nm ty d hsplit hr] at htr ⊢
        have hext : ext = [(serviceCall hn ph sv nm ty,
            pub s.publisherTrace (serviceCall hn ph sv nm ty))] := by
          have h2 : s.publisherTrace ++ ext = s.publisherTrace ++
              [(serviceCall hn ph sv nm ty,
                pub s.publisherTrace (serviceCall hn ph sv nm ty))] := by
            rw [← htr, hcp.1]
          exact List.append_cancel_left h2
        rw [hext] at hconf hbud
        have hbud2 : ((pub s.publisherTrace (serviceCall hn ph sv nm ty)).completions.filter
              (fun c => c.matchesHost h)).length + 0 = 0 ∨
            ((pub s.publisherTrace (serviceCall hn ph sv nm ty)).completions.filter
              (fun c => c.matchesHost h)).length + 0 < n := hbud
        obtain ⟨c1, c2, n1, c3, -, -⟩ := callPublisher_last pub old h s
          (serviceCall hn ph sv nm ty) n hdef hlist hle
          (hconf _ (List.mem_cons_self _ _)) (by omega)
        exact ⟨c1, c2, ⟨n1, c3⟩, fun hnone => absurd hnone hr⟩

theorem advertiseExit_failed (aHost : otSrpServerHost) (r : AdvertisingProxy × otbrError)
    (old : List OutstandingUpdate) (x : OutstandingUpdate)
    (hdef : r.1.undefinedBehaviour = false) (hne : r.2 ≠ OTBR_ERROR_NONE)
    (hl : r.1.mOutstandingUpdates = old ++ [x]) :
    (advertiseExit aHost r).undefinedBehaviour = false ∧
    (advertiseExit aHost r).mOutstandingUpdates = old ∧
    (advertiseExit aHost r).stackResults
      = r.1.stackResults ++ [(aHost, OtbrErrorToOtError r.2)] := by
  unfold advertiseExit
  rw [if_neg (by simp [hdef]), if_pos hne]
  rcases list_nil_or_cons r.1.mOutstandingUpdates with h0 | ⟨a, as, h1⟩
  · rw [h0] at hl
    cases old <;> cases hl
  · have hd : r.1.mOutstandingUpdates.dropLast = old := by
      rw [hl, List.dropLast_concat]
    generalize hq : r.1.mOutstandingUpdates = q at h1 hd
    rw [h1] at hd ⊢
    exact ⟨hdef, hd, rfl⟩


/-- C8, amended: the failure of a dispatch is atomic on the in-flight list when
the completions delivered during the dispatch keep to the record of the event
and do not finalize it.  The host-name split, a service-name split or a
publisher call of the dispatch fails; every completion delivered during the
dispatch is a host completion or has a type that is not empty, matches none of
the records that were in flight before the event and, if it matches the host
of the event, carries no error; and the completions that match the host of the
event are fewer than the count of its record.  Then on return of
`AdvertisingHandler` the in-flight list is the list as it was before the
event, and exactly one result has been reported to the stack, for the host of
the event, and it is not `OT_ERROR_NONE`; no undefined operation is
executed.  A dispatch during which no completion is delivered is a case of
this. -/
theorem AdvertisingHandler_failure_atomic (pub : Publisher) (self : AdvertisingProxy)
    (aHost : otSrpServerHost)
    (hdef : self.undefinedBehaviour = false)
    (hfail : (∃ err, SplitFullHostName aHost.mFullName = .error err) ∨
      (∃ s ∈ aHost.mServices, ∃ err, SplitFullServiceName s.mFullName = .error err) ∨
      (∃ e ∈ (AdvertisingHandler pub self aHost).publisherTrace.drop
        self.publisherTrace.length, e.2.result ≠ OTBR_ERROR_NONE))
    (hconf : ∀ e ∈ (AdvertisingHandler pub self aHost).publisherTrace.drop
      self.publisherTrace.length, ∀ c ∈ e.2.completions, c.hasType = true ∧
        (∀ u ∈ self.mOutstandingUpdates, c.matchesHost u.mHost = false) ∧
        (c.matchesHost aHost = true → c.error = OTBR_ERROR_NONE))
    (hfew : matchingCompletions aHost ((AdvertisingHandler pub self aHost).publisherTrace.drop
        self.publisherTrace.length) = 0 ∨
      matchingCompletions aHost ((AdvertisingHandler pub self aHost).publisherTrace.drop
        self.publisherTrace.length)
        < countUpdates (decide (aHost.mAddresses.length > 0)) aHost.mServices) :
    (AdvertisingHandler pub self aHost).undefinedBehaviour = false ∧
    (AdvertisingHandler pub self aHost).mOutstandingUpdates = self.mOutstandingUpdates ∧
    ∃ res, res ≠ OT_ERROR_NONE ∧
      (AdvertisingHandler pub self aHost).stackResults = self.stackResults ++ [(aHost, res)] := by
  rw [AdvertisingHandler_trace pub self aHost hdef] at hfail hconf hfew
  have hcount : countUpdates (decide (aHost.mAddresses.length > 0)) aHost.mServices ≤ 2 ^ 32 := by
    rw [countUpdates_eq]
    exact le_of_lt (Nat.mod_lt _ (by decide))
  have key : (advertise pub self aHost).1.undefinedBehaviour = false ∧
      (advertise pub self aHost).1.stackResults = self.stackResults ∧
      (∃ n', (advertise pub self aHost).1.mOutstandingUpdates
        = self.mOutstandingUpdates ++ [⟨aHost, n'⟩]) ∧
      (advertise pub self aHost).2 ≠ OTBR_ERROR_NONE := by
    cases hsplit : SplitFullHostName aHost.mFullName with
    | error err =>
      rw [advertise_error pub self aHost err hsplit]
      refine ⟨hdef, rfl, ⟨_, rfl⟩, ?_⟩
      rw [SplitFullHostName_error _ _ hsplit]
      intro hx
      cases hx
    | ok r =>
      obtain ⟨hn, dom⟩ := r
      have hcp := callPublisher_trace pub { self with mOutstandingUpdates :=
          self.mOutstandingUpdates ++
            [⟨aHost, countUpdates (decide (aHost.mAddresses.length > 0)) aHost.mServices⟩] }
        (hostCall hn aHost.mAddresses) hdef
      obtain ⟨ext2, hext2, -⟩ := publishServices_trace_ext pub hn
        (decide (aHost.mAddresses.length > 0)) aHost.mServices
        (callPublisher pub { self with mOutstandingUpdates := self.mOutstandingUpdates ++
          [⟨aHost, countUpdates (decide (aHost.mAddresses.length > 0)) aHost.mServices⟩] }
          (hostCall hn aHost.mAddresses)).1
      by_cases hr : (callPublisher pub { self with mOutstandingUpdates :=
          self.mOutstandingUpdates ++
            [⟨aHost, countUpdates (decide (aHost.mAddresses.length > 0)) aHost.mServices⟩] }
        (hostCall hn aHost.mAddresses)).2 = OTBR_ERROR_NONE
      · rw [advertise_next pub self aHost hn dom hsplit hr] at hfail hconf hfew ⊢
        have hdrop : (publishServices pub hn (decide (aHost.mAddresses.length > 0))
            aHost.mServices
            (callPublisher pub { self with mOutstandingUpdates := self.mOutstandingUpdates ++
              [⟨aHost, countUpdates (decide (aHost.mAddresses.length > 0)) aHost.mServices⟩] }
              (hostCall hn aHost.mAddresses)).1).1.publisherTrace.drop
              self.publisherTrace.length
            = (hostCall hn aHost.mAddresses,
                pub self.publisherTrace (hostCall hn aHost.mAddresses)) :: ext2 := by
          rw [hext2, hcp.1]
          simp
        rw [hdrop] at hfail hconf hfew
        have hfew2 : ((pub self.publisherTrace (hostCall hn aHost.mAddresses)).completions.filter
              (fun c => c.matchesHost aHost)).length + matchingCompletions aHost ext2 = 0 ∨
            ((pub self.publisherTrace (hostCall hn aHost.mAddresses)).completions.filter
              (fun c => c.matchesHost aHost)).length + matchingCompletions aHost ext2
              < countUpdates (decide (aHost.mAddresses.length > 0)) aHost.mServices := hfew
        have hb1 : ((pub self.publisherTrace (hostCall hn aHost.mAddresses)).completions.filter
              (fun c => c.matchesHost aHost)).length = 0 ∨
            ((pub self.publisherTrace (hostCall hn aHost.mAddresses)).completions.filter
              (fun c => c.matchesHost aHost)).length
              < countUpdates (decide (aHost.mAddresses.length > 0)) aHost.mServices := by
          omega
        obtain ⟨c1, c2, n1, c3, c4, c5⟩ := callPublisher_last pub self.mOutstandingUpdates aHost
          { self with mOutstandingUpdates := self.mOutstandingUpdates ++
            [⟨aHost, countUpdates (decide (aHost.mAddresses.length > 0)) aHost.mServices⟩] }
          (hostCall hn aHost.mAddresses) _ hdef rfl hcount
          (hconf _ (List.mem_cons_self _ _)) hb1
        have c5b : countUpdates (decide (aHost.mAddresses.length > 0)) aHost.mServices
            ≤ n1 + ((pub self.publisherTrace (hostCall hn aHost.mAddresses)).completions.filter
              (fun c => c.matchesHost aHost)).length := c5
        obtain ⟨i1, i2, i3, i4⟩ := publishServices_last pub hn
          (decide (aHost.mAddresses.length > 0)) self.mOutstandingUpdates aHost aHost.mServices
          _ n1 ext2 c1 c3 (by omega) hext2
          (fun e he => hconf e (List.mem_cons_of_mem _ he)) (by omega)
        refine ⟨i1, by rw [i2, c2], i3, ?_⟩
        intro hnone
        obtain ⟨j1, j2⟩ := i4 hnone
        rcases hfail with ⟨err, herr⟩ | ⟨sv, hsv, err, herr⟩ | ⟨e, he, hres⟩
        · rw [hsplit] at herr
          cases herr
        · obtain ⟨x, hx⟩ := j1 sv hsv
          rw [hx] at herr
          cases herr
        · rcases List.mem_cons.1 he with heq | hmem
          · apply hres
            rw [heq]
            show (pub self.publisherTrace (hostCall hn aHost.mAddresses)).result
              = OTBR_ERROR_NONE
            rw [← hcp.2]; exact hr
          · exact hres (j2 e hmem)
      · rw [advertise_stop pub self aHost hn dom hsplit hr] at hfail hconf hfew ⊢
        have hdrop : (callPublisher pub { self with mOutstandingUpdates :=
              self.mOutstandingUpdates ++
              [⟨aHost, countUpdates (decide (aHost.mAddresses.length > 0)) aHost.mServices⟩] }
              (hostCall hn aHost.mAddresses)).1.publisherTrace.drop
              self.publisherTrace.length
            = [(hostCall hn aHost.mAddresses,
                pub self.publisherTrace (hostCall hn aHost.mAddresses))] := by
          rw [hcp.1]
          simp
        rw [hdrop] at hconf hfew
        have hfew2 : ((pub self.publisherTrace (hostCall hn aHost.mAddresses)).completions.filter
              (fun c => c.matchesHost aHost)).length + 0 = 0 ∨
            ((pub self.publisherTrace (hostCall hn aHost.mAddresses)).completions.filter
              (fun c => c.matchesHost aHost)).length + 0
              < countUpdates (decide (aHost.mAddresses.length > 0)) aHost.mServices := hfew
        have hb1 : ((pub self.publisherTrace (hostCall hn aHost.mAddresses)).completions.filter
              (fun c => c.matchesHost aHost)).length = 0 ∨
            ((pub self.publisherTrace (hostCall hn aHost.mAddresses)).completions.filter
              (fun c => c.matchesHost aHost)).length
              < countUpdates (decide (aHost.mAddresses.length > 0)) aHost.mServices := by
          omega
        obtain ⟨c1, c2, n1, c3, -, -⟩ := callPublisher_last pub self.mOutstandingUpdates aHost
          { self with mOutstandingUpdates := self.mOutstandingUpdates ++
            [⟨aHost, countUpdates (decide (aHost.mAddresses.length > 0)) aHost.mServices⟩] }
          (hostCall hn aHost.mAddresses) _ hdef rfl hcount
          (hconf _ (List.mem_cons_self _ _)) hb1
        exact ⟨c1, c2, ⟨n1, c3⟩, hr⟩
  obtain ⟨k1, k2, ⟨n', k3⟩, k4⟩ := key
  obtain ⟨x1, x2, x3⟩ := advertiseExit_failed aHost (advertise pub self aHost)
    self.mOutstandingUpdates ⟨aHost, n'⟩ k1 k4 k3
  have hA : AdvertisingHandler pub self aHost
      = advertiseExit aHost (advertise pub self aHost) := by
    unfold AdvertisingHandler
    rw [if_neg (by simp [hdef])]
  rw [hA]
  refine ⟨x1, x2, OtbrErrorToOtError (advertise pub self aHost).2, ?_, by rw [x3, k2]⟩
  intro hres
  exact k4 ((OtbrErrorToOtError_eq_none _).1 hres)

/-- Witness of the amended C8: the camera host is dispatched while the router
record is in flight; the publisher completes `PublishHost` before returning,
which is counted on the record of the camera; the name of the second service
does not split. -/
theorem AdvertisingHandler_failure_atomic_witness :
    (AdvertisingHandler promptPublisher routerInFlight cameraHost).undefinedBehaviour = false ∧
    (AdvertisingHandler promptPublisher routerInFlight cameraHost).mOutstandingUpdates
      = routerInFlight.mOutstandingUpdates ∧
    ∃ res, res ≠ OT_ERROR_NONE ∧
      (AdvertisingHandler promptPublisher routerInFlight cameraHost).stackResults
        = routerInFlight.stackResults ++ [(cameraHost, res)] :=
  AdvertisingHandler_failure_atomic promptPublisher routerInFlight cameraHost rfl
    (Or.inr (Or.inl ⟨⟨"bad".toList, 80, false⟩, by decide, _, rfl⟩)) (by decide)
    (Or.inr (by decide))

/-- The dispatch of the witness: one completion is delivered, it matches the
host of the event, whose record has the count three; the record of the router
is as before, and the stack is told once, `OT_ERROR_INVALID_ARGS`. -/
theorem failure_atomic_example :
    matchingCompletions cameraHost
      ((AdvertisingHandler promptPublisher routerInFlight cameraHost).publisherTrace.drop
        routerInFlight.publisherTrace.length) = 1 ∧
    countUpdates (decide (cameraHost.mAddresses.length > 0)) cameraHost.mServices = 3 ∧
    (AdvertisingHandler promptPublisher routerInFlight cameraHost).mOutstandingUpdates
      = [⟨routerHost, 2⟩] ∧
    (AdvertisingHandler promptPublisher routerInFlight cameraHost).stackResults
      = [(cameraHost, OT_ERROR_INVALID_ARGS)] := by
  refine ⟨by decide, by decide, by decide, by decide⟩

end AdvertisingProxy
end otbr
